import Mathlib

/-!
SheetMates nesting engine (`src/wasm/src/bindings.cpp`).

A shallow embedding of `Polygon` and `SimpleNester::nest`.

Modelling conventions.

* `double` values are elements of an arbitrary linearly ordered field `K` with a
  floor function (`ℚ` and `ℝ` are instances); rounding is not modelled.
* The C and C++ standard libraries are not part of the repository.  What the code
  uses of them is collected in `StdLib`: `std::cos`, `std::sin`, the constant
  `M_PI` and `std::sort`, which takes the comparator it is called with.  Facts a
  proof needs about them are stated as named predicates on a `StdLib`.
* `std::mt19937` together with `std::uniform_real_distribution` is a stream of
  draws `Nat → K` and a cursor counting the draws consumed so far.
* Unchecked `operator[]` outside the bounds of a vector is undefined behaviour;
  the model returns `none` there.
* `size_t` is the 32 bit unsigned type of the wasm32 target.
-/

namespace Nesting

/-! ## Geometry -/

/-- Simple polygon representation: points are stored as `[x0, y0, x1, y1, ...]`. -/
structure Polygon (K : Type) where
  points : List K
deriving DecidableEq, Repr

/-- The standard library functions used by the engine. -/
structure StdLib (K : Type) where
  cos : K → K
  sin : K → K
  pi : K
  sort : (String × Polygon K → String × Polygon K → Bool) →
    List (String × Polygon K) → List (String × Polygon K)

section Defs

variable {K : Type} [LinearOrderedField K] [FloorRing K]

/-- The entries visited by `for (i = 0; i < size; i += 2)`. -/
def evenEntries : List K → List K
  | [] => []
  | [x] => [x]
  | x :: _ :: rest => x :: evenEntries rest

/-- The entries visited by `for (i = 1; i < size; i += 2)`. -/
def oddEntries : List K → List K
  | [] => []
  | [_] => []
  | _ :: y :: rest => y :: oddEntries rest

namespace Polygon

/-- `Polygon::minX`. -/
def minX (p : Polygon K) : K :=
  (evenEntries p.points).foldl (fun m v => min m v) (p.points.getD 0 0)

/-- `Polygon::maxX`. -/
def maxX (p : Polygon K) : K :=
  (evenEntries p.points).foldl (fun m v => max m v) (p.points.getD 0 0)

/-- `Polygon::minY`. -/
def minY (p : Polygon K) : K :=
  (oddEntries p.points).foldl (fun m v => min m v) (p.points.getD 1 0)

/-- `Polygon::maxY`. -/
def maxY (p : Polygon K) : K :=
  (oddEntries p.points).foldl (fun m v => max m v) (p.points.getD 1 0)

/-- `Polygon::width`. -/
def width (p : Polygon K) : K := p.maxX - p.minX

/-- `Polygon::height`. -/
def height (p : Polygon K) : K := p.maxY - p.minY

/-- One round of the shoelace loop of `Polygon::area` for index `i`, with `n` points. -/
def shoelaceStep (pts : List K) (n : Nat) (a : K) (i : Nat) : K :=
  let j := (i + 1) % n
  a + pts.getD (i * 2) 0 * pts.getD (j * 2 + 1) 0 - pts.getD (j * 2) 0 * pts.getD (i * 2 + 1) 0

/-- `Polygon::area`: shoelace formula. -/
def area (p : Polygon K) : K :=
  let n := p.points.length / 2
  |(List.range n).foldl (shoelaceStep p.points n) 0| / 2

/-- The loop of `Polygon::rotated`; reading `points[i + 1]` past the end is a fault. -/
def rotatePoints (cosA sinA cx cy : K) : List K → Option (List K)
  | [] => some []
  | [_] => none
  | px :: py :: rest =>
    (rotatePoints cosA sinA cx cy rest).map fun tl =>
      ((px - cx) * cosA - (py - cy) * sinA + cx) :: ((px - cx) * sinA + (py - cy) * cosA + cy) :: tl

/-- `Polygon::rotated`: rotate by `angle` (radians) around the centre of the bounds. -/
def rotated (L : StdLib K) (p : Polygon K) (angle : K) : Option (Polygon K) :=
  let cx := (p.minX + p.maxX) / 2
  let cy := (p.minY + p.maxY) / 2
  (rotatePoints (L.cos angle) (L.sin angle) cx cy p.points).map Polygon.mk

/-- The loop of `Polygon::translated`; reading `points[i + 1]` past the end is a fault. -/
def translatePoints (dx dy : K) : List K → Option (List K)
  | [] => some []
  | [_] => none
  | px :: py :: rest => (translatePoints dx dy rest).map fun tl => (px + dx) :: (py + dy) :: tl

/-- `Polygon::translated`. -/
def translated (p : Polygon K) (dx dy : K) : Option (Polygon K) :=
  (translatePoints dx dy p.points).map Polygon.mk

end Polygon

/-! ## Data model -/

/-- Part to be nested. -/
structure NestPart (K : Type) where
  id : String
  polygon : Polygon K
  quantity : Int

/-- Placement result for a single part. -/
structure Placement (K : Type) where
  partId : String
  sheetIndex : Nat
  x : K
  y : K
  rotation : K
deriving DecidableEq

/-- Configuration for the nesting algorithm. -/
structure NestConfig (K : Type) where
  sheetWidth : K
  sheetHeight : K
  spacing : K
  rotationSteps : Int
  iterations : Int
  populationSize : Int
  mutationRate : K

/-- Nesting result. -/
structure NestResult (K : Type) where
  placements : List (Placement K)
  sheetsUsed : Nat
  utilization : List K
  iterationsRun : Int
deriving DecidableEq

/-- One invocation of the progress callback: `(iteration, total, utilization)`. -/
structure ProgressCall (K : Type) where
  iteration : Int
  total : Int
  utilization : K
deriving DecidableEq

/-- The modulus of `size_t` arithmetic. -/
def sizeModulus : Nat := 2 ^ 32

/-- The grid step of the position scan (`y += 10`, `x += 10`). -/
def gridStep : K := 10

/-! ## Part expansion -/

/-- Expand parts by quantity: `quantity` copies of `(id, polygon)` per part, in order. -/
def expandParts : List (NestPart K) → List (String × Polygon K)
  | [] => []
  | part :: rest => List.replicate part.quantity.toNat (part.id, part.polygon) ++ expandParts rest

/-- Generate the rotation angles `i * (2π / rotationSteps)` for `0 ≤ i < rotationSteps`. -/
def rotationAngles (L : StdLib K) (cfg : NestConfig K) : List K :=
  (List.range cfg.rotationSteps.toNat).map fun i =>
    (i : K) * (2 * L.pi / (cfg.rotationSteps : K))

/-! ## Placement heuristic -/

/-- The simplified collision test against all anchors already placed on a sheet:
`|x - ox| < partW && |y - oy| < partH` for some recorded `(ox, oy)`. -/
def collides (partW partH x y : K) (occupancy : List (K × K)) : Bool :=
  occupancy.any fun o => decide (|x - o.1| < partW) && decide (|y - o.2| < partH)

/-- Number of rounds that is enough for a loop `for (v = 0; v + pad <= limit; v += 10)`. -/
def gridFuel (limit pad : K) : Nat := ⌊(limit - pad) / gridStep⌋₊ + 1

/-- The inner loop `for (x = ...; x + partW <= sheetWidth; x += 10)` at a fixed `y`:
the first `x` without collision, if any. -/
def scanRow (cfg : NestConfig K) (partW partH y : K) (occupancy : List (K × K)) :
    Nat → K → Option K
  | 0, _ => none
  | fuel + 1, x =>
    if x + partW ≤ cfg.sheetWidth then
      if collides partW partH x y occupancy then
        scanRow cfg partW partH y occupancy fuel (x + gridStep)
      else some x
    else none

/-- The outer loop `for (y = ...; y + partH <= sheetHeight; y += 10)`: the first grid
position `(bestX, bestY)` in row-major order without collision, if any. -/
def scanRows (cfg : NestConfig K) (partW partH : K) (occupancy : List (K × K)) :
    Nat → K → Option (K × K)
  | 0, _ => none
  | fuel + 1, y =>
    if y + partH ≤ cfg.sheetHeight then
      match scanRow cfg partW partH y occupancy (gridFuel cfg.sheetWidth partW) 0 with
      | some x => some (x, y)
      | none => scanRows cfg partW partH occupancy fuel (y + gridStep)
    else none

/-- Bottom-left scan of one sheet.  The source keeps `bestX = bestY = -1` until a
position is found and then tests `bestX >= 0`; every candidate is `≥ 0`, so that test
is the same as `isSome` here. -/
def scanSheet (cfg : NestConfig K) (partW partH : K) (occupancy : List (K × K)) :
    Option (K × K) :=
  scanRows cfg partW partH occupancy (gridFuel cfg.sheetHeight partH) 0

/-- The loop over existing sheets, starting at index `sheetIdx`: the first sheet
that admits the part, with the position found on it. -/
def tryExistingSheets (cfg : NestConfig K) (partW partH : K) :
    List (List (K × K)) → Nat → Option (Nat × K × K)
  | [], _ => none
  | occupancy :: rest, sheetIdx =>
    match scanSheet cfg partW partH occupancy with
    | some (bx, by_) => some (sheetIdx, bx, by_)
    | none => tryExistingSheets cfg partW partH rest (sheetIdx + 1)

/-- The state of one attempt: the placements made and the anchors per sheet. -/
structure AttemptState (K : Type) where
  placements : List (Placement K)
  sheetOccupancy : List (List (K × K))
deriving DecidableEq

/-- The loop `for (double rotation : rotations)` for one instance; it stops at the
first rotation at which the instance is placed. -/
def placeInstance (L : StdLib K) (cfg : NestConfig K) (partId : String) (polygon : Polygon K) :
    List K → AttemptState K → Option (AttemptState K)
  | [], st => some st
  | rotation :: rest, st =>
    match polygon.rotated L rotation with
    | none => none
    | some rotated =>
      let partW := rotated.width + cfg.spacing
      let partH := rotated.height + cfg.spacing
      match tryExistingSheets cfg partW partH st.sheetOccupancy 0 with
      | some (sheetIdx, bestX, bestY) =>
        some { placements := st.placements ++ [⟨partId, sheetIdx, bestX, bestY, rotation⟩]
               sheetOccupancy := st.sheetOccupancy.modify (fun occ => occ ++ [(bestX, bestY)]) sheetIdx }
      | none =>
        if partW ≤ cfg.sheetWidth ∧ partH ≤ cfg.sheetHeight then
          some { placements := st.placements ++ [⟨partId, st.sheetOccupancy.length, 0, 0, rotation⟩]
                 sheetOccupancy := st.sheetOccupancy ++ [[(0, 0)]] }
        else placeInstance L cfg partId polygon rest st

/-- The loop `for (const auto& [partId, polygon] : expanded)`: try to place all parts. -/
def placeAll (L : StdLib K) (cfg : NestConfig K) (rotations : List K) :
    List (String × Polygon K) → AttemptState K → Option (AttemptState K)
  | [], st => some st
  | inst :: rest, st =>
    match placeInstance L cfg inst.1 inst.2 rotations st with
    | none => none
    | some st1 => placeAll L cfg rotations rest st1

/-- One placement attempt from empty sheets. -/
def runAttempt (L : StdLib K) (cfg : NestConfig K) (expanded : List (String × Polygon K)) :
    Option (AttemptState K) :=
  placeAll L cfg (rotationAngles L cfg) expanded ⟨[], []⟩

/-- The attempt utilization: total area of all expanded instances over the area of the
sheets opened, and `0` when that area is not positive. -/
def attemptUtilization (cfg : NestConfig K) (expanded : List (String × Polygon K))
    (att : AttemptState K) : K :=
  let totalPartArea := expanded.foldl (fun acc inst => acc + inst.2.area) 0
  let totalSheetArea := (att.sheetOccupancy.length : K) * cfg.sheetWidth * cfg.sheetHeight
  if totalSheetArea > 0 then totalPartArea / totalSheetArea else 0

/-! ## Mutation -/

/-- `std::swap(v[i], v[j])` with unchecked indexing: a fault when an index is out of range. -/
def swapAt {α : Type} (v : List α) (i j : Nat) : Option (List α) :=
  match v[i]?, v[j]? with
  | some a, some b => some ((v.set i b).set j a)
  | _, _ => none

/-- The loop `for (size_t i = ...; i > 0; i--)` of the shuffle, entered with loop variable
`i`; the state is the instance order and the number of draws consumed. -/
def mutateFrom {α : Type} (mutationRate : K) (draws : Nat → K) :
    Nat → List α × Nat → Option (List α × Nat)
  | 0, s => some s
  | i + 1, (v, cursor) =>
    if draws cursor < mutationRate then
      let j := ⌊draws (cursor + 1) * (((i + 1 + 1) % sizeModulus : Nat) : K)⌋₊
      match swapAt v (i + 1) j with
      | none => none
      | some v1 => mutateFrom mutationRate draws i (v1, cursor + 2)
    else mutateFrom mutationRate draws i (v, cursor + 1)

/-- The shuffle run before an attempt: `i` starts at `expanded.size() - 1` in `size_t`. -/
def mutate {α : Type} (mutationRate : K) (draws : Nat → K) (s : List α × Nat) :
    Option (List α × Nat) :=
  mutateFrom mutationRate draws ((s.1.length + sizeModulus - 1) % sizeModulus) s

/-! ## Search loop -/

/-- The variables of `nest` that live across iterations. -/
structure SearchState (K : Type) where
  expanded : List (String × Polygon K)
  cursor : Nat
  bestPlacements : List (Placement K)
  bestUtilization : K
  iterationsRun : Int
  progress : List (ProgressCall K)
deriving DecidableEq

/-- The body of the loop `for (int iter = 0; iter < iterations; iter++)`. -/
def iterStep (L : StdLib K) (cfg : NestConfig K) (draws : Nat → K) (hasCallback : Bool)
    (iter : Nat) (s : SearchState K) : Option (SearchState K) :=
  match (if iter > 0 then mutate cfg.mutationRate draws (s.expanded, s.cursor)
         else some (s.expanded, s.cursor)) with
  | none => none
  | some (expanded, cursor) =>
    match runAttempt L cfg expanded with
    | none => none
    | some att =>
      let utilization := attemptUtilization cfg expanded att
      let improved := decide (utilization > s.bestUtilization)
      let bestUtilization := if improved then utilization else s.bestUtilization
      let bestPlacements := if improved then att.placements else s.bestPlacements
      some { expanded := expanded
             cursor := cursor
             bestPlacements := bestPlacements
             bestUtilization := bestUtilization
             iterationsRun := (iter : Int) + 1
             progress :=
               if hasCallback then
                 s.progress ++ [⟨(iter : Int) + 1, cfg.iterations, bestUtilization⟩]
               else s.progress }

/-- The comparator passed to `std::sort`:
`[](const auto& a, const auto& b) { return a.second.area() > b.second.area(); }`. -/
def areaGreater (a b : String × Polygon K) : Bool :=
  decide (a.2.area > b.2.area)

/-- The state before the first iteration: the instances are expanded and sorted with
`std::sort(expanded.begin(), expanded.end(), areaGreater)`. -/
def initSearch (L : StdLib K) (parts : List (NestPart K)) : SearchState K :=
  { expanded := L.sort areaGreater (expandParts parts)
    cursor := 0
    bestPlacements := []
    bestUtilization := 0
    iterationsRun := 0
    progress := [] }

/-- The state after the first `n` iterations of the loop. -/
def searchAfter (L : StdLib K) (cfg : NestConfig K) (parts : List (NestPart K))
    (draws : Nat → K) (hasCallback : Bool) : Nat → Option (SearchState K)
  | 0 => some (initSearch L parts)
  | n + 1 =>
    match searchAfter L cfg parts draws hasCallback n with
    | none => none
    | some s => iterStep L cfg draws hasCallback n s

/-- The whole search loop: `iterations` rounds (none when `iterations ≤ 0`). -/
def search (L : StdLib K) (cfg : NestConfig K) (parts : List (NestPart K))
    (draws : Nat → K) (hasCallback : Bool) : Option (SearchState K) :=
  searchAfter L cfg parts draws hasCallback cfg.iterations.toNat

/-! ## Result assembly -/

/-- `sheetsUsed`: the maximum of `sheetIndex + 1` over the best placements, `0` if none. -/
def sheetsUsedOf (best : List (Placement K)) : Nat :=
  best.foldl (fun m p => max m (p.sheetIndex + 1)) 0

/-- The inner loop of the per-sheet pass, from instance position `i` on: it reads
`bestPlacements[i]` for every position of `expanded`, a fault when out of range. -/
def sheetPartAreaFrom (best : List (Placement K)) (s : Nat) :
    List (String × Polygon K) → Nat → K → Option K
  | [], _, acc => some acc
  | inst :: rest, i, acc =>
    match best[i]? with
    | none => none
    | some p =>
      sheetPartAreaFrom best s rest (i + 1) (if p.sheetIndex = s then acc + inst.2.area else acc)

/-- The per-sheet utilization of sheets `s, s + 1, ...` (`count` of them). -/
def sheetUtilizations (cfg : NestConfig K) (best : List (Placement K))
    (expanded : List (String × Polygon K)) : Nat → Nat → Option (List K)
  | 0, _ => some []
  | count + 1, s =>
    match sheetPartAreaFrom best s expanded 0 0 with
    | none => none
    | some sheetPartArea =>
      (sheetUtilizations cfg best expanded count (s + 1)).map fun tl =>
        (sheetPartArea / (cfg.sheetWidth * cfg.sheetHeight)) :: tl

/-- The code of `nest` after the search loop. -/
def assemble (cfg : NestConfig K) (s : SearchState K) : Option (NestResult K) :=
  let sheetsUsed := sheetsUsedOf s.bestPlacements
  (sheetUtilizations cfg s.bestPlacements s.expanded sheetsUsed 0).map fun utilization =>
    { placements := s.bestPlacements
      sheetsUsed := sheetsUsed
      utilization := utilization
      iterationsRun := s.iterationsRun }

/-- `SimpleNester::nest`: `none` when the run performs an out-of-range access. -/
def nest (L : StdLib K) (cfg : NestConfig K) (parts : List (NestPart K))
    (draws : Nat → K) (hasCallback : Bool) : Option (NestResult K) :=
  match search L cfg parts draws hasCallback with
  | none => none
  | some s => assemble cfg s

/-- The progress calls made by a run of `nest` whose search loop completes. -/
def progressCalls (L : StdLib K) (cfg : NestConfig K) (parts : List (NestPart K))
    (draws : Nat → K) (hasCallback : Bool) : Option (List (ProgressCall K)) :=
  (search L cfg parts draws hasCallback).map fun s => s.progress

end Defs

/-! ## A concrete standard library over `ℚ` -/

/-- Insertion into a list ordered by `comp`, the step of `insertionSortBy`: the new element
passes the elements that `comp` puts before it and stops at the first one that it does not. -/
def insertBy {α : Type} (comp : α → α → Bool) (a : α) : List α → List α
  | [] => [a]
  | b :: rest => if comp b a then b :: insertBy comp a rest else a :: b :: rest

/-- Insertion sort by the comparator `comp`, one admissible behaviour of `std::sort` (the one
of the usual implementations on short ranges). -/
def insertionSortBy {α : Type} (comp : α → α → Bool) : List α → List α
  | [] => []
  | a :: rest => insertBy comp a (insertionSortBy comp rest)

/-- A rational standard library: truncated Taylor series for `cos` and `sin`. -/
def ratLib : StdLib ℚ where
  cos a := 1 - a ^ 2 / 2
  sin a := a - a ^ 3 / 6
  pi := 355 / 113
  sort := insertionSortBy

/-- An axis-aligned square of side `S` with lower-left corner `(x0, y0)`. -/
def square {K : Type} [LinearOrderedField K] (x0 y0 S : K) : Polygon K :=
  ⟨[x0, y0, x0 + S, y0, x0 + S, y0 + S, x0, y0 + S]⟩

/-! ## The rounds of the search loop, taken apart -/

section RoundDefs

variable {K : Type} [LinearOrderedField K] [FloorRing K]

/-- The state a round leaves, given the order it ran on and the outcome of its attempt. -/
def roundResult (cfg : NestConfig K) (hasCallback : Bool) (iter : Nat) (s : SearchState K)
    (expanded : List (String × Polygon K)) (cursor : Nat) (att : AttemptState K) :
    SearchState K :=
  let utilization := attemptUtilization cfg expanded att
  { expanded := expanded
    cursor := cursor
    bestPlacements := if utilization > s.bestUtilization then att.placements else s.bestPlacements
    bestUtilization := if utilization > s.bestUtilization then utilization else s.bestUtilization
    iterationsRun := (iter : Int) + 1
    progress :=
      if hasCallback then
        s.progress ++ [⟨(iter : Int) + 1, cfg.iterations,
          if utilization > s.bestUtilization then utilization else s.bestUtilization⟩]
      else s.progress }

/-- The order on which round `iter` runs its attempt. -/
def roundOrder (cfg : NestConfig K) (draws : Nat → K) (iter : Nat) (s : SearchState K) :
    Option (List (String × Polygon K) × Nat) :=
  if iter > 0 then mutate cfg.mutationRate draws (s.expanded, s.cursor)
  else some (s.expanded, s.cursor)

/-- The instance order and the number of draws consumed with which attempt number `k`
(counted from `0`) runs: the sorted order for the first attempt, and the shuffle of the
previous attempt's order afterwards. -/
def orderAt (cfg : NestConfig K) (draws : Nat → K) (sorted : List (String × Polygon K)) :
    Nat → Option (List (String × Polygon K) × Nat)
  | 0 => some (sorted, 0)
  | k + 1 =>
    match orderAt cfg draws sorted k with
    | none => none
    | some s => mutate cfg.mutationRate draws s

/-- Attempt number `k` (counted from `0`) of a run: its final attempt state and its
attempt utilization. -/
def attemptAt (L : StdLib K) (cfg : NestConfig K) (parts : List (NestPart K)) (draws : Nat → K)
    (k : Nat) : Option (AttemptState K × K) :=
  match orderAt cfg draws (L.sort areaGreater (expandParts parts)) k with
  | none => none
  | some (expanded, _) =>
    (runAttempt L cfg expanded).map fun att => (att, attemptUtilization cfg expanded att)

end RoundDefs

/-! ## Creation order of sheets -/

section AttemptDefs
variable {K : Type} [LinearOrderedField K]

/-- Sheet indices come in creation order, with `k` sheets open before the list: every
placement is on an open sheet or on the next new one. -/
def inOrderFrom : Nat → List (Placement K) → Prop
  | _, [] => True
  | k, p :: rest => p.sheetIndex ≤ k ∧ inOrderFrom (max k (p.sheetIndex + 1)) rest

end AttemptDefs

/-! ## Placeable polygons -/

section FitsDef
variable {K : Type} [LinearOrderedField K]

/-- The polygon fits an empty sheet, spacing included, at one of the generated angles. -/
def Fits (L : StdLib K) (cfg : NestConfig K) (polygon : Polygon K) : Prop :=
  ∃ angle ∈ rotationAngles L cfg, ∃ q, polygon.rotated L angle = some q ∧
    q.width + cfg.spacing ≤ cfg.sheetWidth ∧ q.height + cfg.spacing ≤ cfg.sheetHeight

end FitsDef

/-! ## Assumptions on the standard library -/

/-- What the proofs assume of `std::cos` and `std::sin`: exact values at `0`. -/
def StdLib.TrigAtZero {K : Type} [LinearOrderedField K] (L : StdLib K) : Prop :=
  L.cos 0 = 1 ∧ L.sin 0 = 0

/-- What the proofs assume of `std::sort` as the engine calls it: the output is a rearrangement
of the input. -/
def StdLib.SortPermutes {K : Type} [LinearOrderedField K] (L : StdLib K) : Prop :=
  ∀ l, (L.sort areaGreater l).Perm l

/-! ## Row-by-row filling of a sheet (used to state the packing results) -/

section GridDefs

variable {K : Type} [LinearOrderedField K]

/-- Anchor number `i` of a sheet filled row by row, `a` anchors per row at pitch `d`. -/
def gridAnchor (a : Nat) (d : K) (i : Nat) : K × K :=
  (((i % a : Nat) : K) * d, ((i / a : Nat) : K) * d)

/-- The first `k` anchors of a sheet filled row by row. -/
def gridOccupancy (a : Nat) (d : K) (k : Nat) : List (K × K) :=
  (List.range k).map (gridAnchor a d)

/-- The first `k` placements of one part on sheet `0`, filled row by row, at rotation `0`. -/
def gridPlacements (partId : String) (a : Nat) (d : K) (k : Nat) : List (Placement K) :=
  (List.range k).map fun i => ⟨partId, 0, (gridAnchor a d i).1, (gridAnchor a d i).2, 0⟩

/-- The attempt state after `k` placements of the row-by-row filling of sheet `0`. -/
def gridState (partId : String) (a : Nat) (d : K) (k : Nat) : AttemptState K :=
  if k = 0 then ⟨[], []⟩ else ⟨gridPlacements partId a d k, [gridOccupancy a d k]⟩

end GridDefs

end Nesting

namespace Nesting

/-! ## Definitions used to state the geometry results -/

section GeometryDefs

variable {K : Type} [LinearOrderedField K]

/-- A loop over the coordinate pairs that maps `(x, y)` to `(F x y, G x y)`; the shape shared
by the loops of `Polygon::rotated` and `Polygon::translated`. -/
def mapPairs (F G : K → K → K) : List K → Option (List K)
  | [] => some []
  | [_] => none
  | px :: py :: rest => (mapPairs F G rest).map fun tl => F px py :: G px py :: tl

/-- The signed shoelace sum of the `n` points `(X i, Y i)`, closed from the last to the first. -/
def shoelaceSum (n : Nat) (X Y : Nat → K) : K :=
  ∑ i in Finset.range n, (X i * Y ((i + 1) % n) - X ((i + 1) % n) * Y i)

/-- The x coordinate of the centre of the bounds, the pivot of `Polygon::rotated`. -/
def Polygon.centreX (p : Polygon K) : K := (p.minX + p.maxX) / 2

/-- The y coordinate of the centre of the bounds, the pivot of `Polygon::rotated`. -/
def Polygon.centreY (p : Polygon K) : K := (p.minY + p.maxY) / 2

/-- What the rotation results assume of `std::cos` and `std::sin` at an angle `a`:
`cos² a + sin² a = 1`. -/
def StdLib.UnitAt (L : StdLib K) (a : K) : Prop := L.cos a ^ 2 + L.sin a ^ 2 = 1

/-- What the round trip assumes of `std::cos` and `std::sin` at an angle `a`: `cos` is even and
`sin` is odd. -/
def StdLib.SymmetricAt (L : StdLib K) (a : K) : Prop :=
  L.cos (-a) = L.cos a ∧ L.sin (-a) = -L.sin a

end GeometryDefs

/-- A rational standard library whose `cos` and `sin` lie on the unit circle at every angle
(the parametrisation by `t`: `cos = (1 - t²) / (1 + t²)`, `sin = 2 t / (1 + t²)`). -/
def circleLib : StdLib ℚ where
  cos t := (1 - t ^ 2) / (1 + t ^ 2)
  sin t := 2 * t / (1 + t ^ 2)
  pi := 355 / 113
  sort := insertionSortBy

end Nesting

namespace Nesting

/-! ## Definitions used to state the placement results -/

section AttemptSpecDefs

variable {K : Type} [LinearOrderedField K]

/-- The anchors of the placements on sheet `s`, in the order in which they were recorded. -/
def anchorsOn (placements : List (Placement K)) (s : Nat) : List (K × K) :=
  (placements.filter fun q => decide (q.sheetIndex = s)).map fun q => (q.x, q.y)

/-- The first of the angles, in the order given, at which the rotated polygon with the spacing
added fits an empty sheet: `width + spacing ≤ sheetWidth` and `height + spacing ≤ sheetHeight`;
`none` when there is no such angle. -/
def firstFit (L : StdLib K) (cfg : NestConfig K) (polygon : Polygon K) : List K → Option K
  | [] => none
  | angle :: rest =>
    match polygon.rotated L angle with
    | none => none
    | some rot =>
      if rot.width + cfg.spacing ≤ cfg.sheetWidth ∧ rot.height + cfg.spacing ≤ cfg.sheetHeight
      then some angle
      else firstFit L cfg polygon rest

/-- The instances of an order that fit an empty sheet at one of the angles, in order. -/
def placeable (L : StdLib K) (cfg : NestConfig K) (angles : List K)
    (expanded : List (String × Polygon K)) : List (String × Polygon K) :=
  expanded.filter fun inst => (firstFit L cfg inst.2 angles).isSome

/-- What the scan guarantees of a placement `q` with padded footprint `partW` by `partH`
recorded after the placements `earlier`: its anchor is a grid point, the footprint is within the
sheet, its sheet is an open one or the next new one, it is in no conflict with the earlier
anchors on its sheet, every grid point within the sheet is in conflict on every sheet before
its sheet, and so is every grid point before its anchor in row-major order on its sheet. -/
def PlacedAt (cfg : NestConfig K) (partW partH : K) (earlier : List (Placement K))
    (q : Placement K) : Prop :=
  ∃ a b : Nat, q.x = gridStep * (a : K) ∧ q.y = gridStep * (b : K) ∧
    q.x + partW ≤ cfg.sheetWidth ∧ q.y + partH ≤ cfg.sheetHeight ∧
    q.sheetIndex ≤ sheetsUsedOf earlier ∧
    collides partW partH q.x q.y (anchorsOn earlier q.sheetIndex) = false ∧
    (∀ s a1 b1 : Nat, s < q.sheetIndex →
      gridStep * (a1 : K) + partW ≤ cfg.sheetWidth →
      gridStep * (b1 : K) + partH ≤ cfg.sheetHeight →
      collides partW partH (gridStep * (a1 : K)) (gridStep * (b1 : K)) (anchorsOn earlier s)
        = true) ∧
    (∀ a1 b1 : Nat, (b1 < b ∨ (b1 = b ∧ a1 < a)) →
      gridStep * (a1 : K) + partW ≤ cfg.sheetWidth →
      gridStep * (b1 : K) + partH ≤ cfg.sheetHeight →
      collides partW partH (gridStep * (a1 : K)) (gridStep * (b1 : K))
        (anchorsOn earlier q.sheetIndex) = true)

/-- What is recorded for a placement `q` of the instance `inst` after the placements
`earlier`: the id of the instance, the first angle at which it fits, and a position as the scan
guarantees it for the footprint rotated by that angle. -/
def Recorded (L : StdLib K) (cfg : NestConfig K) (angles : List K)
    (earlier : List (Placement K)) (inst : String × Polygon K) (q : Placement K) : Prop :=
  q.partId = inst.1 ∧ firstFit L cfg inst.2 angles = some q.rotation ∧
    ∃ rot, inst.2.rotated L q.rotation = some rot ∧
      PlacedAt cfg (rot.width + cfg.spacing) (rot.height + cfg.spacing) earlier q

/-- The sheet occupancy of an attempt state is what its placements say: each sheet holds the
anchors of the placements on it, and the sheets are the ones the placements use. -/
def OccupancyMatches (st : AttemptState K) : Prop :=
  (∀ s occ, st.sheetOccupancy[s]? = some occ → occ = anchorsOn st.placements s) ∧
    sheetsUsedOf st.placements = st.sheetOccupancy.length

end AttemptSpecDefs

end Nesting

namespace Nesting





section Proofs

set_option linter.unusedSectionVars false

variable {K : Type} [LinearOrderedField K] [FloorRing K]

/-! ### Geometry of a square -/

theorem square_minX (x0 y0 S : K) (hS : 0 ≤ S) : (square x0 y0 S).minX = x0 := by
  simp [Polygon.minX, square, evenEntries, hS]

theorem square_maxX (x0 y0 S : K) (hS : 0 ≤ S) : (square x0 y0 S).maxX = x0 + S := by
  simp [Polygon.maxX, square, evenEntries, hS]

theorem square_minY (x0 y0 S : K) (hS : 0 ≤ S) : (square x0 y0 S).minY = y0 := by
  simp [Polygon.minY, square, oddEntries, hS]

theorem square_maxY (x0 y0 S : K) (hS : 0 ≤ S) : (square x0 y0 S).maxY = y0 + S := by
  simp [Polygon.maxY, square, oddEntries, hS]

theorem square_width (x0 y0 S : K) (hS : 0 ≤ S) : (square x0 y0 S).width = S := by
  simp [Polygon.width, square_minX, square_maxX, hS]

theorem square_height (x0 y0 S : K) (hS : 0 ≤ S) : (square x0 y0 S).height = S := by
  simp [Polygon.height, square_minY, square_maxY, hS]

theorem square_area (x0 y0 S : K) : (square x0 y0 S).area = S * S := by
  have h : (List.range 4).foldl (Polygon.shoelaceStep (square x0 y0 S).points 4) 0
      = 2 * (S * S) := by
    simp [List.range_succ, Polygon.shoelaceStep, square]
    ring
  simp only [Polygon.area]
  have h4 : (square x0 y0 S).points.length / 2 = 4 := by simp [square]
  rw [h4, h, abs_of_nonneg (by nlinarith [mul_self_nonneg S])]
  ring

/-- With `cos = 1` and `sin = 0` the rotation loop returns its input, when it has an even
number of coordinates. -/
theorem rotatePoints_one_zero (cx cy : K) :
    ∀ (n : Nat) (pts : List K), pts.length = 2 * n →
      Polygon.rotatePoints 1 0 cx cy pts = some pts
  | 0, pts, h => by
    have : pts = [] := List.length_eq_zero.mp (by simpa using h)
    subst this; rfl
  | n + 1, pts, h => by
    match pts, h with
    | px :: py :: rest, h =>
      have hr : rest.length = 2 * n := by simp at h; omega
      simp [Polygon.rotatePoints, rotatePoints_one_zero cx cy n rest hr]

theorem rotated_zero (L : StdLib K) (hL : L.TrigAtZero) (p : Polygon K) (n : Nat)
    (h : p.points.length = 2 * n) : p.rotated L 0 = some p := by
  simp [Polygon.rotated, hL.1, hL.2, rotatePoints_one_zero _ _ n p.points h]

/-- The reads of the shoelace loop are within the vector. -/
theorem shoelace_reads_in_range (len i : Nat) (hi : i < len / 2) :
    i * 2 + 1 < len ∧ (i + 1) % (len / 2) * 2 + 1 < len := by
  have hpos : 0 < len / 2 := Nat.lt_of_le_of_lt (Nat.zero_le _) hi
  have hj : (i + 1) % (len / 2) < len / 2 := Nat.mod_lt _ hpos
  omega

end Proofs

end Nesting

namespace Nesting

theorem ratLib_trigAtZero : ratLib.TrigAtZero := by
  constructor <;> simp [ratLib]

theorem insertBy_perm {α : Type} (comp : α → α → Bool) (a : α) :
    ∀ l : List α, (insertBy comp a l).Perm (a :: l)
  | [] => List.Perm.refl _
  | b :: rest => by
    unfold insertBy
    split
    · exact ((insertBy_perm comp a rest).cons b).trans (List.Perm.swap a b rest)
    · exact List.Perm.refl _

theorem insertionSortBy_perm {α : Type} (comp : α → α → Bool) :
    ∀ l : List α, (insertionSortBy comp l).Perm l
  | [] => List.Perm.refl _
  | a :: rest =>
    (insertBy_perm comp a (insertionSortBy comp rest)).trans
      ((insertionSortBy_perm comp rest).cons a)

theorem ratLib_sortPermutes : ratLib.SortPermutes := insertionSortBy_perm areaGreater

section ScanLemmas
set_option linter.unusedSectionVars false
variable {K : Type} [LinearOrderedField K] [FloorRing K]

theorem gridStep_pos : (0 : K) < gridStep := by
  unfold gridStep; norm_num

theorem collides_eq_true_iff (partW partH x y : K) (occ : List (K × K)) :
    collides partW partH x y occ = true ↔ ∃ o ∈ occ, |x - o.1| < partW ∧ |y - o.2| < partH := by
  simp [collides]

theorem collides_eq_false_iff (partW partH x y : K) (occ : List (K × K)) :
    collides partW partH x y occ = false ↔ ∀ o ∈ occ, partW ≤ |x - o.1| ∨ partH ≤ |y - o.2| := by
  rw [← Bool.not_eq_true, collides_eq_true_iff]
  push_neg
  constructor
  · intro h o ho
    by_cases hx : |x - o.1| < partW
    · exact Or.inr (h o ho hx)
    · exact Or.inl (not_lt.mp hx)
  · intro h o ho hx
    rcases h o ho with h1 | h1
    · exact absurd hx (not_lt.mpr h1)
    · exact h1

/-- Enough rounds: a loop that starts at `0` reaches every grid value that passes its test. -/
theorem lt_gridFuel (limit pad : K) (n : Nat) (h : gridStep * (n : K) + pad ≤ limit) :
    n < gridFuel limit pad := by
  have h10 : (0 : K) < gridStep := gridStep_pos
  have : (n : K) ≤ (limit - pad) / gridStep := by
    rw [le_div_iff₀ h10]; linarith
  exact Nat.lt_succ_of_le (Nat.le_floor this)

/-- The test of the loop fails after `gridFuel` rounds. -/
theorem gridFuel_exceeds (limit pad : K) :
    limit < gridStep * (gridFuel limit pad : K) + pad := by
  have h10 : (0 : K) < gridStep := gridStep_pos
  have h := Nat.lt_floor_add_one ((limit - pad) / gridStep)
  rw [div_lt_iff₀ h10] at h
  unfold gridFuel
  push_cast
  linarith

theorem scanRow_none_of_all_collide (cfg : NestConfig K) (partW partH y : K) (occ : List (K × K)) :
    ∀ (fuel : Nat) (x : K),
      (∀ n : Nat, x + gridStep * (n : K) + partW ≤ cfg.sheetWidth →
        collides partW partH (x + gridStep * (n : K)) y occ = true) →
      scanRow cfg partW partH y occ fuel x = none
  | 0, _, _ => rfl
  | fuel + 1, x, h => by
    unfold scanRow
    split
    · next hx =>
      have h0 := h 0 (by simpa using hx)
      simp only [Nat.cast_zero, mul_zero, add_zero] at h0
      rw [if_pos h0]
      apply scanRow_none_of_all_collide cfg partW partH y occ fuel
      intro n hn
      have := h (n + 1) (by push_cast; linarith)
      have e : x + gridStep * ((n + 1 : Nat) : K) = x + gridStep + gridStep * (n : K) := by
        push_cast; ring
      rwa [e] at this
    · rfl

theorem scanRow_some_of_first_free (cfg : NestConfig K) (partW partH y : K) (occ : List (K × K)) :
    ∀ (n fuel : Nat) (x : K), n < fuel →
      (∀ j : Nat, j < n → collides partW partH (x + gridStep * (j : K)) y occ = true) →
      collides partW partH (x + gridStep * (n : K)) y occ = false →
      x + gridStep * (n : K) + partW ≤ cfg.sheetWidth →
      scanRow cfg partW partH y occ fuel x = some (x + gridStep * (n : K))
  | _, 0, _, hf, _, _, _ => absurd hf (Nat.not_lt_zero _)
  | 0, fuel + 1, x, _, _, hfree, hfit => by
    simp only [Nat.cast_zero, mul_zero, add_zero] at hfree hfit ⊢
    unfold scanRow
    rw [if_pos hfit]
    simp [hfree]
  | n + 1, fuel + 1, x, hf, hcol, hfree, hfit => by
    have h10 : (0 : K) < gridStep := gridStep_pos
    have e : x + gridStep * ((n + 1 : Nat) : K) = x + gridStep + gridStep * (n : K) := by
      push_cast; ring
    have hn0 : (0 : K) ≤ gridStep * ((n + 1 : Nat) : K) :=
      mul_nonneg h10.le (Nat.cast_nonneg _)
    have hx : x + partW ≤ cfg.sheetWidth := by linarith
    have h0 := hcol 0 (Nat.succ_pos n)
    simp only [Nat.cast_zero, mul_zero, add_zero] at h0
    unfold scanRow
    rw [if_pos hx, if_pos h0, e]
    apply scanRow_some_of_first_free cfg partW partH y occ n fuel (x + gridStep)
      (Nat.lt_of_succ_lt_succ hf)
    · intro j hj
      have := hcol (j + 1) (Nat.succ_lt_succ hj)
      have e2 : x + gridStep * ((j + 1 : Nat) : K) = x + gridStep + gridStep * (j : K) := by
        push_cast; ring
      rwa [e2] at this
    · rwa [e] at hfree
    · rwa [e] at hfit

/-- More rounds than `gridFuel` change nothing: the inner loop has ended by then. -/
theorem scanRow_fuel_enough (cfg : NestConfig K) (partW partH y : K) (occ : List (K × K)) :
    ∀ (fuel extra : Nat) (x : K), cfg.sheetWidth < x + gridStep * (fuel : K) + partW →
      scanRow cfg partW partH y occ (fuel + extra) x = scanRow cfg partW partH y occ fuel x
  | 0, extra, x, h => by
    simp only [Nat.cast_zero, mul_zero, add_zero] at h
    cases extra with
    | zero => rfl
    | succ e =>
      rw [Nat.zero_add]
      unfold scanRow
      rw [if_neg (not_le.mpr h)]
  | fuel + 1, extra, x, h => by
    rw [Nat.add_right_comm]
    unfold scanRow
    have e : x + gridStep * ((fuel + 1 : Nat) : K) = x + gridStep + gridStep * (fuel : K) := by
      push_cast; ring
    rw [e] at h
    rw [scanRow_fuel_enough cfg partW partH y occ fuel extra (x + gridStep) h]

theorem scanRows_none_of_rows_none (cfg : NestConfig K) (partW partH : K) (occ : List (K × K)) :
    ∀ (fuel : Nat) (y : K),
      (∀ n : Nat, y + gridStep * (n : K) + partH ≤ cfg.sheetHeight →
        scanRow cfg partW partH (y + gridStep * (n : K)) occ (gridFuel cfg.sheetWidth partW) 0
          = none) →
      scanRows cfg partW partH occ fuel y = none
  | 0, _, _ => rfl
  | fuel + 1, y, h => by
    unfold scanRows
    split
    · next hy =>
      have h0 := h 0 (by simpa using hy)
      simp only [Nat.cast_zero, mul_zero, add_zero] at h0
      rw [h0]
      apply scanRows_none_of_rows_none cfg partW partH occ fuel
      intro n hn
      have e : y + gridStep * ((n + 1 : Nat) : K) = y + gridStep + gridStep * (n : K) := by
        push_cast; ring
      have := h (n + 1) (by rw [e]; exact hn)
      rwa [e] at this
    · rfl

theorem scanRows_some_of_first_row (cfg : NestConfig K) (partW partH : K) (occ : List (K × K))
    (bx : K) :
    ∀ (n fuel : Nat) (y : K), n < fuel →
      (∀ j : Nat, j < n →
        scanRow cfg partW partH (y + gridStep * (j : K)) occ (gridFuel cfg.sheetWidth partW) 0
          = none) →
      scanRow cfg partW partH (y + gridStep * (n : K)) occ (gridFuel cfg.sheetWidth partW) 0
        = some bx →
      y + gridStep * (n : K) + partH ≤ cfg.sheetHeight →
      scanRows cfg partW partH occ fuel y = some (bx, y + gridStep * (n : K))
  | _, 0, _, hf, _, _, _ => absurd hf (Nat.not_lt_zero _)
  | 0, fuel + 1, y, _, _, hrow, hfit => by
    simp only [Nat.cast_zero, mul_zero, add_zero] at hrow hfit ⊢
    unfold scanRows
    rw [if_pos hfit, hrow]
  | n + 1, fuel + 1, y, hf, hnone, hrow, hfit => by
    have h10 : (0 : K) < gridStep := gridStep_pos
    have e : y + gridStep * ((n + 1 : Nat) : K) = y + gridStep + gridStep * (n : K) := by
      push_cast; ring
    have hn0 : (0 : K) ≤ gridStep * ((n + 1 : Nat) : K) :=
      mul_nonneg h10.le (Nat.cast_nonneg _)
    have hy : y + partH ≤ cfg.sheetHeight := by linarith
    have h0 := hnone 0 (Nat.succ_pos n)
    simp only [Nat.cast_zero, mul_zero, add_zero] at h0
    unfold scanRows
    rw [if_pos hy, h0, e]
    apply scanRows_some_of_first_row cfg partW partH occ bx n fuel (y + gridStep)
      (Nat.lt_of_succ_lt_succ hf)
    · intro j hj
      have := hnone (j + 1) (Nat.succ_lt_succ hj)
      have e2 : y + gridStep * ((j + 1 : Nat) : K) = y + gridStep + gridStep * (j : K) := by
        push_cast; ring
      rwa [e2] at this
    · rwa [e] at hrow
    · rwa [e] at hfit

/-- More rounds than `gridFuel` change nothing: the outer loop has ended by then. -/
theorem scanRows_fuel_enough (cfg : NestConfig K) (partW partH : K) (occ : List (K × K)) :
    ∀ (fuel extra : Nat) (y : K), cfg.sheetHeight < y + gridStep * (fuel : K) + partH →
      scanRows cfg partW partH occ (fuel + extra) y = scanRows cfg partW partH occ fuel y
  | 0, extra, y, h => by
    simp only [Nat.cast_zero, mul_zero, add_zero] at h
    cases extra with
    | zero => rfl
    | succ e =>
      rw [Nat.zero_add]
      unfold scanRows
      rw [if_neg (not_le.mpr h)]
  | fuel + 1, extra, y, h => by
    rw [Nat.add_right_comm]
    unfold scanRows
    have e : y + gridStep * ((fuel + 1 : Nat) : K) = y + gridStep + gridStep * (fuel : K) := by
      push_cast; ring
    rw [e] at h
    rw [scanRows_fuel_enough cfg partW partH occ fuel extra (y + gridStep) h]

/-- The inner loop has ended after `gridFuel` rounds: more rounds give the same result. -/
theorem scanRow_gridFuel_stable (cfg : NestConfig K) (partW partH y : K) (occ : List (K × K))
    (extra : Nat) :
    scanRow cfg partW partH y occ (gridFuel cfg.sheetWidth partW + extra) 0
      = scanRow cfg partW partH y occ (gridFuel cfg.sheetWidth partW) 0 := by
  apply scanRow_fuel_enough
  rw [zero_add]
  exact gridFuel_exceeds _ _

/-- The outer loop has ended after `gridFuel` rounds: more rounds give the same result. -/
theorem scanRows_gridFuel_stable (cfg : NestConfig K) (partW partH : K) (occ : List (K × K))
    (extra : Nat) :
    scanRows cfg partW partH occ (gridFuel cfg.sheetHeight partH + extra) 0
      = scanSheet cfg partW partH occ := by
  unfold scanSheet
  apply scanRows_fuel_enough
  rw [zero_add]
  exact gridFuel_exceeds _ _

/-- A position found by the inner loop is not left of its start. -/
theorem scanRow_ge (cfg : NestConfig K) (partW partH y : K) (occ : List (K × K)) :
    ∀ (fuel : Nat) (x0 x : K), scanRow cfg partW partH y occ fuel x0 = some x → x0 ≤ x
  | 0, _, _, h => by simp [scanRow] at h
  | fuel + 1, x0, x, h => by
    unfold scanRow at h
    split at h
    · split at h
      · have := scanRow_ge cfg partW partH y occ fuel (x0 + gridStep) x h
        have h10 : (0 : K) < gridStep := gridStep_pos
        linarith
      · simp only [Option.some.injEq] at h
        exact le_of_eq h
    · simp at h

/-- A position found by the outer loop is not below its start, and its `x` is not negative. -/
theorem scanRows_ge (cfg : NestConfig K) (partW partH : K) (occ : List (K × K)) :
    ∀ (fuel : Nat) (y0 x y : K), scanRows cfg partW partH occ fuel y0 = some (x, y) →
      0 ≤ x ∧ y0 ≤ y
  | 0, _, _, _, h => by simp [scanRows] at h
  | fuel + 1, y0, x, y, h => by
    unfold scanRows at h
    split at h
    · cases hrow : scanRow cfg partW partH y0 occ (gridFuel cfg.sheetWidth partW) 0 with
      | some bx =>
        rw [hrow] at h
        simp only [Option.some.injEq, Prod.mk.injEq] at h
        obtain ⟨rfl, rfl⟩ := h
        exact ⟨scanRow_ge cfg partW partH y0 occ _ 0 bx hrow, le_refl _⟩
      | none =>
        rw [hrow] at h
        have := scanRows_ge cfg partW partH occ fuel (y0 + gridStep) x y h
        have h10 : (0 : K) < gridStep := gridStep_pos
        exact ⟨this.1, by linarith⟩
    · simp at h

/-- Every position found on a sheet has `bestX ≥ 0` and `bestY ≥ 0`: the test `bestX >= 0` of
the source holds exactly when a position was found. -/
theorem scanSheet_nonneg (cfg : NestConfig K) (partW partH : K) (occ : List (K × K)) (x y : K)
    (h : scanSheet cfg partW partH occ = some (x, y)) : 0 ≤ x ∧ 0 ≤ y :=
  scanRows_ge cfg partW partH occ _ 0 x y h

end ScanLemmas

end Nesting

namespace Nesting
section Proofs2
set_option linter.unusedSectionVars false
variable {K : Type} [LinearOrderedField K] [FloorRing K]

theorem rotationAngles_one (L : StdLib K) (cfg : NestConfig K) (h : cfg.rotationSteps = 1) :
    rotationAngles L cfg = [0] := by
  rw [rotationAngles, h, show (1 : ℤ).toNat = 1 from rfl, show List.range 1 = [0] from rfl]
  simp

/-- With `iterations = 1` the search loop is its first round, which does not shuffle. -/
theorem search_one (L : StdLib K) (cfg : NestConfig K) (parts : List (NestPart K))
    (draws : Nat → K) (hasCallback : Bool) (hIter : cfg.iterations = 1) :
    search L cfg parts draws hasCallback
      = iterStep L cfg draws hasCallback 0 (initSearch L parts) := by
  rw [search, hIter, show (1 : ℤ).toNat = 1 from rfl]
  rfl

/-- The first round, given the outcome of its attempt. -/
theorem iterStep_zero (L : StdLib K) (cfg : NestConfig K) (draws : Nat → K) (hasCallback : Bool)
    (s : SearchState K) (att : AttemptState K) (h : runAttempt L cfg s.expanded = some att) :
    iterStep L cfg draws hasCallback 0 s
      = some { expanded := s.expanded
               cursor := s.cursor
               bestPlacements :=
                 if attemptUtilization cfg s.expanded att > s.bestUtilization then att.placements
                 else s.bestPlacements
               bestUtilization :=
                 if attemptUtilization cfg s.expanded att > s.bestUtilization then
                   attemptUtilization cfg s.expanded att
                 else s.bestUtilization
               iterationsRun := 1
               progress :=
                 if hasCallback then
                   s.progress ++ [⟨1, cfg.iterations,
                     if attemptUtilization cfg s.expanded att > s.bestUtilization then
                       attemptUtilization cfg s.expanded att
                     else s.bestUtilization⟩]
                 else s.progress } := by
  simp [iterStep, h]

/-- C1. Single-square scenario: for every `S > 0` and every sheet with `sheetWidth ≥ S` and
`sheetHeight ≥ S`, `nest` with one part whose polygon is an axis-aligned square of side `S`
(at any corner `(x0, y0)`), quantity 1, spacing 0, `rotationSteps = 1` and `iterations = 1`
returns exactly one placement with `sheetIndex = 0`, `x = 0`, `y = 0`, `rotation = 0`, together
with `sheetsUsed = 1`, `utilization = [S * S / (sheetWidth * sheetHeight)]` and
`iterationsRun = 1`, whatever the random draws and whether or not a callback is supplied. -/
theorem single_square_scenario (L : StdLib K) (hTrig : L.TrigAtZero) (hSort : L.SortPermutes)
    (cfg : NestConfig K) (partId : String) (x0 y0 S : K) (draws : Nat → K) (hasCallback : Bool)
    (hS : 0 < S) (hW : S ≤ cfg.sheetWidth) (hH : S ≤ cfg.sheetHeight)
    (hSpacing : cfg.spacing = 0) (hRot : cfg.rotationSteps = 1) (hIter : cfg.iterations = 1) :
    nest L cfg [⟨partId, square x0 y0 S, 1⟩] draws hasCallback
      = some { placements := [⟨partId, 0, 0, 0, 0⟩]
               sheetsUsed := 1
               utilization := [S * S / (cfg.sheetWidth * cfg.sheetHeight)]
               iterationsRun := 1 } := by
  have hexp : L.sort areaGreater (expandParts [⟨partId, square x0 y0 S, 1⟩]) = [(partId, square x0 y0 S)] := by
    have := hSort (expandParts [⟨partId, square x0 y0 S, 1⟩])
    simpa [expandParts] using this
  have hrot : (square x0 y0 S).rotated L 0 = some (square x0 y0 S) :=
    rotated_zero L hTrig _ 4 (by simp [square])
  have hWpos : 0 < cfg.sheetWidth := lt_of_lt_of_le hS hW
  have hHpos : 0 < cfg.sheetHeight := lt_of_lt_of_le hS hH
  have hatt : runAttempt L cfg (initSearch L [⟨partId, square x0 y0 S, 1⟩]).expanded
      = some ⟨[⟨partId, 0, 0, 0, 0⟩], [[(0, 0)]]⟩ := by
    simp [initSearch, hexp, runAttempt, placeAll, rotationAngles_one L cfg hRot, placeInstance,
      hrot, tryExistingSheets, square_width, square_height, hS.le, hSpacing, hW, hH]
  have hutil : attemptUtilization cfg (initSearch L [⟨partId, square x0 y0 S, 1⟩]).expanded
      ⟨[⟨partId, 0, 0, 0, 0⟩], [[(0, 0)]]⟩ = S * S / (cfg.sheetWidth * cfg.sheetHeight) := by
    simp [initSearch, hexp, attemptUtilization, square_area, mul_pos hWpos hHpos]
  have hpos : 0 < S * S / (cfg.sheetWidth * cfg.sheetHeight) :=
    div_pos (mul_pos hS hS) (mul_pos hWpos hHpos)
  rw [nest, search_one L cfg _ draws hasCallback hIter, iterStep_zero L cfg draws hasCallback _ _ hatt,
    hutil]
  simp [initSearch, hexp, hpos, assemble, sheetsUsedOf, sheetUtilizations, sheetPartAreaFrom,
    square_area]

/-- The single-square scenario at a 25 by 25 square on a 100 by 50 sheet. -/
theorem single_square_scenario_witness :
    nest ratLib ⟨100, 50, 0, 1, 1, 1, 0⟩ [⟨"sq", square 3 4 25, 1⟩] (fun _ => 0) true
      = some { placements := [⟨"sq", 0, 0, 0, 0⟩]
               sheetsUsed := 1
               utilization := [25 * 25 / (100 * 50)]
               iterationsRun := 1 } :=
  single_square_scenario ratLib ratLib_trigAtZero ratLib_sortPermutes ⟨100, 50, 0, 1, 1, 1, 0⟩ "sq" 3 4 25
    (fun _ => 0) true (by decide!) (by decide!) (by decide!) rfl rfl rfl

end Proofs2
end Nesting

namespace Nesting


section GridLemmas
set_option linter.unusedSectionVars false
variable {K : Type} [LinearOrderedField K] [FloorRing K]

/-- A grid point whose cell `(s / m, t / m)` already holds an anchor is in conflict. -/
theorem grid_collides (a m k s t : Nat) (hm : 0 < m) (hs : s / m < a)
    (hk : t / m * a + s / m < k) :
    collides (gridStep * (m : K)) (gridStep * (m : K)) (gridStep * (s : K)) (gridStep * (t : K))
      (gridOccupancy a (gridStep * (m : K)) k) = true := by
  have h10 : (0 : K) < gridStep := gridStep_pos
  have hmK : (0 : K) < (m : K) := by exact_mod_cast hm
  rw [collides_eq_true_iff]
  refine ⟨gridAnchor a (gridStep * (m : K)) (t / m * a + s / m), ?_, ?_, ?_⟩
  · exact List.mem_map.mpr ⟨_, List.mem_range.mpr hk, rfl⟩
  · have hmod : (t / m * a + s / m) % a = s / m := by
      rw [Nat.add_comm, Nat.add_mul_mod_self_right, Nat.mod_eq_of_lt hs]
    have hsK : (s : K) = (m : K) * ((s / m : Nat) : K) + ((s % m : Nat) : K) := by
      exact_mod_cast (Nat.div_add_mod s m).symm
    have hr : ((s % m : Nat) : K) < (m : K) := by exact_mod_cast Nat.mod_lt s hm
    have hr0 : (0 : K) ≤ ((s % m : Nat) : K) := Nat.cast_nonneg _
    simp only [gridAnchor, hmod]
    have e : gridStep * (s : K) - ((s / m : Nat) : K) * (gridStep * (m : K))
        = gridStep * ((s % m : Nat) : K) := by
      rw [hsK]; ring
    rw [e, abs_of_nonneg (mul_nonneg h10.le hr0)]
    exact mul_lt_mul_of_pos_left hr h10
  · have hdiv : (t / m * a + s / m) / a = t / m := by
      have ha : 0 < a := Nat.lt_of_le_of_lt (Nat.zero_le _) hs
      rw [Nat.add_comm, Nat.add_mul_div_right _ _ ha, Nat.div_eq_of_lt hs, Nat.zero_add]
    have htK : (t : K) = (m : K) * ((t / m : Nat) : K) + ((t % m : Nat) : K) := by
      exact_mod_cast (Nat.div_add_mod t m).symm
    have hr : ((t % m : Nat) : K) < (m : K) := by exact_mod_cast Nat.mod_lt t hm
    have hr0 : (0 : K) ≤ ((t % m : Nat) : K) := Nat.cast_nonneg _
    simp only [gridAnchor, hdiv]
    have e : gridStep * (t : K) - ((t / m : Nat) : K) * (gridStep * (m : K))
        = gridStep * ((t % m : Nat) : K) := by
      rw [htK]; ring
    rw [e, abs_of_nonneg (mul_nonneg h10.le hr0)]
    exact mul_lt_mul_of_pos_left hr h10

/-- The next anchor of the row-by-row filling is free of conflicts with the earlier ones. -/
theorem grid_free (a k : Nat) (d : K) (hd : 0 < d) :
    collides d d (((k % a : Nat) : K) * d) (((k / a : Nat) : K) * d) (gridOccupancy a d k)
      = false := by
  rw [collides_eq_false_iff]
  intro o ho
  obtain ⟨i, hi, rfl⟩ := List.mem_map.mp ho
  have hik : i < k := List.mem_range.mp hi
  have hdiv : i / a ≤ k / a := Nat.div_le_div_right hik.le
  simp only [gridAnchor]
  rcases Nat.lt_or_ge (i / a) (k / a) with hlt | hge
  · right
    have h1 : ((i / a : Nat) : K) + 1 ≤ ((k / a : Nat) : K) := by exact_mod_cast hlt
    have e : ((k / a : Nat) : K) * d - ((i / a : Nat) : K) * d
        = (((k / a : Nat) : K) - ((i / a : Nat) : K)) * d := by ring
    have h2 : (1 : K) ≤ ((k / a : Nat) : K) - ((i / a : Nat) : K) := by linarith
    rw [e, abs_of_nonneg (mul_nonneg (by linarith) hd.le)]
    nlinarith
  · left
    have heq : i / a = k / a := Nat.le_antisymm hdiv hge
    have hmod : i % a < k % a := by
      have h1 := Nat.div_add_mod i a
      have h2 := Nat.div_add_mod k a
      rw [heq] at h1
      omega
    have h1 : ((i % a : Nat) : K) + 1 ≤ ((k % a : Nat) : K) := by exact_mod_cast hmod
    have e : ((k % a : Nat) : K) * d - ((i % a : Nat) : K) * d
        = (((k % a : Nat) : K) - ((i % a : Nat) : K)) * d := by ring
    have h2 : (1 : K) ≤ ((k % a : Nat) : K) - ((i % a : Nat) : K) := by linarith
    rw [e, abs_of_nonneg (mul_nonneg (by linarith) hd.le)]
    nlinarith

end GridLemmas
end Nesting

namespace Nesting
section GridScan
set_option linter.unusedSectionVars false
variable {K : Type} [LinearOrderedField K] [FloorRing K]

/-- A grid value that fits `a` cells of `m` steps lies in one of the first `a` cells. -/
theorem cell_lt_of_fits (a m n : Nat) (hm : 0 < m)
    (h : gridStep * (n : K) + gridStep * (m : K) ≤ (a : K) * (gridStep * (m : K))) :
    n / m < a := by
  have h10 : (0 : K) < gridStep := gridStep_pos
  have h1 : (n : K) + (m : K) ≤ (a : K) * (m : K) := by
    have : gridStep * ((n : K) + (m : K)) ≤ gridStep * ((a : K) * (m : K)) := by
      calc gridStep * ((n : K) + (m : K)) = gridStep * (n : K) + gridStep * (m : K) := by ring
        _ ≤ (a : K) * (gridStep * (m : K)) := h
        _ = gridStep * ((a : K) * (m : K)) := by ring
    exact le_of_mul_le_mul_left this h10
  have h2 : n + m ≤ a * m := by exact_mod_cast h1
  have h3 : n < a * m := by omega
  exact (Nat.div_lt_iff_lt_mul hm).mpr h3

/-- Scan of a sheet that holds the first `k` anchors of the row-by-row filling and has room
for more: the next anchor of the filling is found. -/
theorem scanSheet_grid (cfg : NestConfig K) (a b m k : Nat) (hm : 0 < m)
    (hW : cfg.sheetWidth = (a : K) * (gridStep * (m : K)))
    (hH : cfg.sheetHeight = (b : K) * (gridStep * (m : K))) (hk : k < a * b) :
    scanSheet cfg (gridStep * (m : K)) (gridStep * (m : K)) (gridOccupancy a (gridStep * (m : K)) k)
      = some (gridAnchor a (gridStep * (m : K)) k) := by
  have h10 : (0 : K) < gridStep := gridStep_pos
  have hmK : (0 : K) < (m : K) := by exact_mod_cast hm
  have hd : (0 : K) < gridStep * (m : K) := mul_pos h10 hmK
  have ha : 0 < a := by
    rcases Nat.eq_zero_or_pos a with h | h
    · subst h; simp at hk
    · exact h
  have hrow : k / a < b := (Nat.div_lt_iff_lt_mul ha).mpr (by rwa [Nat.mul_comm] at hk)
  have hcol : k % a < a := Nat.mod_lt k ha
  -- the target, written as grid values
  have ex : (0 : K) + gridStep * ((k % a * m : Nat) : K) = ((k % a : Nat) : K) * (gridStep * (m : K)) := by
    push_cast; ring
  have ey : (0 : K) + gridStep * ((k / a * m : Nat) : K) = ((k / a : Nat) : K) * (gridStep * (m : K)) := by
    push_cast; ring
  have hfitx : ((k % a : Nat) : K) * (gridStep * (m : K)) + gridStep * (m : K) ≤ cfg.sheetWidth := by
    have : ((k % a : Nat) : K) + 1 ≤ (a : K) := by exact_mod_cast hcol
    rw [hW]; nlinarith
  have hfity : ((k / a : Nat) : K) * (gridStep * (m : K)) + gridStep * (m : K) ≤ cfg.sheetHeight := by
    have : ((k / a : Nat) : K) + 1 ≤ (b : K) := by exact_mod_cast hrow
    rw [hH]; nlinarith
  have hkdecomp := Nat.div_add_mod k a
  unfold scanSheet
  have key := scanRows_some_of_first_row cfg (gridStep * (m : K)) (gridStep * (m : K))
    (gridOccupancy a (gridStep * (m : K)) k) (((k % a : Nat) : K) * (gridStep * (m : K)))
    (k / a * m) (gridFuel cfg.sheetHeight (gridStep * (m : K))) 0
    (lt_gridFuel _ _ _ (by rw [← zero_add (gridStep * _), ey]; exact hfity))
  rw [ey] at key
  refine key ?_ ?_ hfity
  · -- rows below the target row are full
    intro j hj
    apply scanRow_none_of_all_collide
    intro n hn
    rw [zero_add] at hn ⊢
    rw [zero_add]
    rw [hW] at hn
    have hn' : n / m < a := cell_lt_of_fits a m n hm hn
    apply grid_collides a m k n j hm hn'
    have hjm : j / m < k / a := (Nat.div_lt_iff_lt_mul hm).mpr hj
    calc j / m * a + n / m < j / m * a + a := by omega
      _ = (j / m + 1) * a := by ring
      _ ≤ k / a * a := Nat.mul_le_mul_right a hjm
      _ ≤ k := Nat.div_mul_le_self k a
  · -- the target row
    have key2 := scanRow_some_of_first_free cfg (gridStep * (m : K)) (gridStep * (m : K))
      (((k / a : Nat) : K) * (gridStep * (m : K))) (gridOccupancy a (gridStep * (m : K)) k)
      (k % a * m) (gridFuel cfg.sheetWidth (gridStep * (m : K))) 0
      (lt_gridFuel _ _ _ (by rw [← zero_add (gridStep * _), ex]; exact hfitx))
    rw [ex] at key2
    refine key2 ?_ (grid_free a k _ hd) hfitx
    intro j hj
    have hjm : j / m < k % a := (Nat.div_lt_iff_lt_mul hm).mpr hj
    have := grid_collides (K := K) a m k j (k / a * m) hm (by omega)
      (by rw [Nat.mul_div_cancel _ hm]; rw [Nat.mul_comm]; omega)
    rw [zero_add]
    have e : gridStep * (((k / a * m : Nat)) : K) = ((k / a : Nat) : K) * (gridStep * (m : K)) := by
      push_cast; ring
    rwa [e] at this

/-- Scan of a sheet that the row-by-row filling has filled: no position is found. -/
theorem scanSheet_grid_full (cfg : NestConfig K) (a b m : Nat) (hm : 0 < m)
    (hW : cfg.sheetWidth = (a : K) * (gridStep * (m : K)))
    (hH : cfg.sheetHeight = (b : K) * (gridStep * (m : K))) :
    scanSheet cfg (gridStep * (m : K)) (gridStep * (m : K))
      (gridOccupancy a (gridStep * (m : K)) (a * b)) = none := by
  unfold scanSheet
  apply scanRows_none_of_rows_none
  intro t ht
  rw [zero_add] at ht ⊢
  rw [hH] at ht
  have ht' : t / m < b := cell_lt_of_fits b m t hm ht
  apply scanRow_none_of_all_collide
  intro n hn
  rw [zero_add] at hn ⊢
  rw [hW] at hn
  have hn' : n / m < a := cell_lt_of_fits a m n hm hn
  apply grid_collides a m (a * b) n t hm hn'
  calc t / m * a + n / m < t / m * a + a := by omega
    _ = (t / m + 1) * a := by ring
    _ ≤ b * a := Nat.mul_le_mul_right a ht'
    _ = a * b := Nat.mul_comm b a

end GridScan
end Nesting

namespace Nesting


section GridPlace
set_option linter.unusedSectionVars false
variable {K : Type} [LinearOrderedField K] [FloorRing K]

theorem gridOccupancy_succ (a : Nat) (d : K) (k : Nat) :
    gridOccupancy a d (k + 1) = gridOccupancy a d k ++ [gridAnchor a d k] := by
  simp [gridOccupancy, List.range_succ]

theorem gridPlacements_succ (partId : String) (a : Nat) (d : K) (k : Nat) :
    gridPlacements partId a d (k + 1)
      = gridPlacements partId a d k
          ++ [⟨partId, 0, (gridAnchor a d k).1, (gridAnchor a d k).2, 0⟩] := by
  simp [gridPlacements, List.range_succ]

theorem gridAnchor_zero (a : Nat) (d : K) : gridAnchor a d 0 = (0, 0) := by
  simp [gridAnchor]

/-- One more instance on a sheet that still has room goes to the next anchor of the filling. -/
theorem placeInstance_grid (L : StdLib K) (cfg : NestConfig K) (partId : String) (p : Polygon K)
    (a b m k : Nat) (hm : 0 < m)
    (hW : cfg.sheetWidth = (a : K) * (gridStep * (m : K)))
    (hH : cfg.sheetHeight = (b : K) * (gridStep * (m : K)))
    (hrot : p.rotated L 0 = some p)
    (hpw : p.width + cfg.spacing = gridStep * (m : K))
    (hph : p.height + cfg.spacing = gridStep * (m : K)) (hk : k < a * b) :
    placeInstance L cfg partId p [0] (gridState partId a (gridStep * (m : K)) k)
      = some (gridState partId a (gridStep * (m : K)) (k + 1)) := by
  rcases Nat.eq_zero_or_pos k with h0 | hpos
  · subst h0
    have ha : 0 < a := Nat.pos_of_ne_zero (by rintro rfl; simp at hk)
    have hb : 0 < b := Nat.pos_of_ne_zero (by rintro rfl; simp at hk)
    have h10 : (0 : K) < gridStep := gridStep_pos
    have hmK : (0 : K) < (m : K) := by exact_mod_cast hm
    have hd : (0 : K) < gridStep * (m : K) := mul_pos h10 hmK
    have haK : (1 : K) ≤ (a : K) := by exact_mod_cast ha
    have hbK : (1 : K) ≤ (b : K) := by exact_mod_cast hb
    have hfw : gridStep * (m : K) ≤ cfg.sheetWidth := by rw [hW]; nlinarith
    have hfh : gridStep * (m : K) ≤ cfg.sheetHeight := by rw [hH]; nlinarith
    simp only [gridState, if_pos, placeInstance, hrot, hpw, hph, tryExistingSheets]
    rw [if_pos ⟨hfw, hfh⟩]
    simp [gridPlacements, gridOccupancy, List.range_succ, gridAnchor_zero]
  · have hk0 : k ≠ 0 := Nat.pos_iff_ne_zero.mp hpos
    have hscan := scanSheet_grid cfg a b m k hm hW hH hk
    simp only [gridState, if_neg hk0, if_neg (Nat.succ_ne_zero k), placeInstance, hrot, hpw, hph,
      tryExistingSheets, hscan]
    simp [gridPlacements_succ, gridOccupancy_succ, List.modify]

/-- One more instance when sheet `0` is full opens sheet `1`. -/
theorem placeInstance_grid_full (L : StdLib K) (cfg : NestConfig K) (partId : String)
    (p : Polygon K) (a b m : Nat) (hm : 0 < m) (ha : 0 < a) (hb : 0 < b)
    (hW : cfg.sheetWidth = (a : K) * (gridStep * (m : K)))
    (hH : cfg.sheetHeight = (b : K) * (gridStep * (m : K)))
    (hrot : p.rotated L 0 = some p)
    (hpw : p.width + cfg.spacing = gridStep * (m : K))
    (hph : p.height + cfg.spacing = gridStep * (m : K)) :
    placeInstance L cfg partId p [0] (gridState partId a (gridStep * (m : K)) (a * b))
      = some ⟨gridPlacements partId a (gridStep * (m : K)) (a * b) ++ [⟨partId, 1, 0, 0, 0⟩],
              [gridOccupancy a (gridStep * (m : K)) (a * b), [(0, 0)]]⟩ := by
  have hab : a * b ≠ 0 := Nat.pos_iff_ne_zero.mp (Nat.mul_pos ha hb)
  have h10 : (0 : K) < gridStep := gridStep_pos
  have hmK : (0 : K) < (m : K) := by exact_mod_cast hm
  have hd : (0 : K) < gridStep * (m : K) := mul_pos h10 hmK
  have haK : (1 : K) ≤ (a : K) := by exact_mod_cast ha
  have hbK : (1 : K) ≤ (b : K) := by exact_mod_cast hb
  have hfw : gridStep * (m : K) ≤ cfg.sheetWidth := by rw [hW]; nlinarith
  have hfh : gridStep * (m : K) ≤ cfg.sheetHeight := by rw [hH]; nlinarith
  have hscan := scanSheet_grid_full cfg a b m hm hW hH
  simp only [gridState, if_neg hab, placeInstance, hrot, hpw, hph, tryExistingSheets, hscan]
  rw [if_pos ⟨hfw, hfh⟩]
  simp

/-- Placing `n` copies of the part continues the row-by-row filling while there is room. -/
theorem placeAll_grid (L : StdLib K) (cfg : NestConfig K) (partId : String) (p : Polygon K)
    (a b m : Nat) (hm : 0 < m)
    (hW : cfg.sheetWidth = (a : K) * (gridStep * (m : K)))
    (hH : cfg.sheetHeight = (b : K) * (gridStep * (m : K)))
    (hrot : p.rotated L 0 = some p)
    (hpw : p.width + cfg.spacing = gridStep * (m : K))
    (hph : p.height + cfg.spacing = gridStep * (m : K)) :
    ∀ (n k : Nat), k + n ≤ a * b →
      placeAll L cfg [0] (List.replicate n (partId, p)) (gridState partId a (gridStep * (m : K)) k)
        = some (gridState partId a (gridStep * (m : K)) (k + n))
  | 0, k, _ => rfl
  | n + 1, k, h => by
    rw [List.replicate_succ, placeAll,
      placeInstance_grid L cfg partId p a b m k hm hW hH hrot hpw hph (by omega)]
    simp only
    rw [placeAll_grid L cfg partId p a b m hm hW hH hrot hpw hph n (k + 1) (by omega)]
    congr 2
    omega

end GridPlace
end Nesting

namespace Nesting
section Assembly
set_option linter.unusedSectionVars false
variable {K : Type} [LinearOrderedField K] [FloorRing K]

theorem area_nonneg (p : Polygon K) : 0 ≤ p.area := by
  unfold Polygon.area
  exact div_nonneg (abs_nonneg _) (by norm_num)

theorem foldl_area_eq_sum (l : List (String × Polygon K)) :
    ∀ init : K, l.foldl (fun acc inst => acc + inst.2.area) init
      = init + (l.map fun inst => inst.2.area).sum := by
  induction l with
  | nil => intro init; simp
  | cons x xs ih => intro init; simp [ih, add_assoc]

theorem totalArea_nonneg (l : List (String × Polygon K)) :
    0 ≤ l.foldl (fun acc inst => acc + inst.2.area) 0 := by
  rw [foldl_area_eq_sum, zero_add]
  apply List.sum_nonneg
  intro x hx
  obtain ⟨inst, _, rfl⟩ := List.mem_map.mp hx
  exact area_nonneg _

theorem totalArea_pos (l : List (String × Polygon K)) (inst : String × Polygon K)
    (hmem : inst ∈ l) (hpos : 0 < inst.2.area) :
    0 < l.foldl (fun acc inst => acc + inst.2.area) 0 := by
  rw [foldl_area_eq_sum, zero_add]
  have hle : inst.2.area ≤ (l.map fun inst => inst.2.area).sum := by
    apply List.single_le_sum
    · intro x hx
      obtain ⟨i, _, rfl⟩ := List.mem_map.mp hx
      exact area_nonneg _
    · exact List.mem_map.mpr ⟨inst, hmem, rfl⟩
  exact lt_of_lt_of_le hpos hle

theorem attemptUtilization_nonneg (cfg : NestConfig K) (expanded : List (String × Polygon K))
    (att : AttemptState K) : 0 ≤ attemptUtilization cfg expanded att := by
  unfold attemptUtilization
  simp only
  split
  · next h => exact div_nonneg (totalArea_nonneg expanded) (le_of_lt h)
  · exact le_refl _

theorem foldl_sheetsUsed (l : List (Placement K)) :
    ∀ init : Nat, l.foldl (fun m p => max m (p.sheetIndex + 1)) init
      = max init (sheetsUsedOf l) := by
  unfold sheetsUsedOf
  induction l with
  | nil => intro init; simp
  | cons x xs ih =>
    intro init
    rw [List.foldl_cons, List.foldl_cons, ih, ih (max 0 _)]
    simp [max_assoc]

theorem sheetsUsedOf_nil : sheetsUsedOf ([] : List (Placement K)) = 0 := rfl

theorem sheetsUsedOf_cons (p : Placement K) (l : List (Placement K)) :
    sheetsUsedOf (p :: l) = max (p.sheetIndex + 1) (sheetsUsedOf l) := by
  rw [sheetsUsedOf, List.foldl_cons, foldl_sheetsUsed]
  simp

theorem sheetsUsedOf_append (l1 l2 : List (Placement K)) :
    sheetsUsedOf (l1 ++ l2) = max (sheetsUsedOf l1) (sheetsUsedOf l2) := by
  induction l1 with
  | nil => simp [sheetsUsedOf_nil]
  | cons x xs ih => simp [sheetsUsedOf_cons, ih, max_assoc]

theorem sheetIndex_lt_sheetsUsedOf (l : List (Placement K)) (p : Placement K) (hp : p ∈ l) :
    p.sheetIndex < sheetsUsedOf l := by
  induction l with
  | nil => cases hp
  | cons x xs ih =>
    rw [sheetsUsedOf_cons]
    rcases List.mem_cons.mp hp with h | h
    · subst h; exact lt_of_lt_of_le (Nat.lt_succ_self _) (le_max_left _ _)
    · exact lt_of_lt_of_le (ih h) (le_max_right _ _)

theorem sheetsUsedOf_le (l : List (Placement K)) (n : Nat) (h : ∀ p ∈ l, p.sheetIndex < n) :
    sheetsUsedOf l ≤ n := by
  induction l with
  | nil => exact Nat.zero_le _
  | cons x xs ih =>
    rw [sheetsUsedOf_cons]
    exact max_le (h x (List.mem_cons_self _ _)) (ih fun p hp => h p (List.mem_cons_of_mem _ hp))

theorem sheetsUsedOf_eq_zero_iff (l : List (Placement K)) : sheetsUsedOf l = 0 ↔ l = [] := by
  constructor
  · intro h
    cases l with
    | nil => rfl
    | cons x xs =>
      have := sheetIndex_lt_sheetsUsedOf (x :: xs) x (List.mem_cons_self _ _)
      omega
  · rintro rfl; rfl

/-- A non-empty list of placements that are all on sheet `0` uses one sheet. -/
theorem sheetsUsedOf_all_zero (l : List (Placement K)) (hne : l ≠ [])
    (h : ∀ p ∈ l, p.sheetIndex = 0) : sheetsUsedOf l = 1 := by
  induction l with
  | nil => exact absurd rfl hne
  | cons x xs ih =>
    rw [sheetsUsedOf_cons, h x (List.mem_cons_self _ _)]
    cases xs with
    | nil => simp [sheetsUsedOf_nil]
    | cons y ys =>
      rw [ih (List.cons_ne_nil _ _) (fun p hp => h p (List.mem_cons_of_mem _ hp))]
      rfl

/-- The inner loop of the per-sheet pass does not fault when every instance position is a
position of the best placement list. -/
theorem sheetPartAreaFrom_some (best : List (Placement K)) (s : Nat) :
    ∀ (expanded : List (String × Polygon K)) (i : Nat) (acc : K),
      i + expanded.length ≤ best.length → ∃ v, sheetPartAreaFrom best s expanded i acc = some v
  | [], _, acc, _ => ⟨acc, rfl⟩
  | inst :: rest, i, acc, h => by
    have hi : i < best.length := by simp at h; omega
    unfold sheetPartAreaFrom
    rw [List.getElem?_eq_getElem hi]
    exact sheetPartAreaFrom_some best s rest (i + 1) _ (by simp at h ⊢; omega)

/-- The inner loop faults when some instance position is past the best placement list. -/
theorem sheetPartAreaFrom_none (best : List (Placement K)) (s : Nat) :
    ∀ (expanded : List (String × Polygon K)) (i : Nat) (acc : K),
      best.length < i + expanded.length → i ≤ best.length →
      sheetPartAreaFrom best s expanded i acc = none
  | [], _, _, h, hi => by simp at h; omega
  | inst :: rest, i, acc, h, hi => by
    unfold sheetPartAreaFrom
    rcases Nat.lt_or_ge i best.length with hlt | hge
    · rw [List.getElem?_eq_getElem hlt]
      exact sheetPartAreaFrom_none best s rest (i + 1) _ (by simp at h ⊢; omega) hlt
    · rw [List.getElem?_eq_none hge]

theorem sheetUtilizations_some (cfg : NestConfig K) (best : List (Placement K))
    (expanded : List (String × Polygon K)) (h : expanded.length ≤ best.length) :
    ∀ (count s : Nat), ∃ u, sheetUtilizations cfg best expanded count s = some u ∧ u.length = count
  | 0, _ => ⟨[], rfl, rfl⟩
  | count + 1, s => by
    obtain ⟨v, hv⟩ := sheetPartAreaFrom_some best s expanded 0 0 (by simpa using h)
    obtain ⟨u, hu, hlen⟩ := sheetUtilizations_some cfg best expanded h count (s + 1)
    refine ⟨(v / (cfg.sheetWidth * cfg.sheetHeight)) :: u, ?_, by simp [hlen]⟩
    unfold sheetUtilizations
    rw [hv]
    simp only
    rw [hu]
    rfl

/-- What `assemble` copies from the search state when it returns. -/
theorem assemble_fields (cfg : NestConfig K) (s : SearchState K) (r : NestResult K)
    (h : assemble cfg s = some r) :
    r.placements = s.bestPlacements ∧ r.sheetsUsed = sheetsUsedOf s.bestPlacements ∧
      r.iterationsRun = s.iterationsRun := by
  unfold assemble at h
  simp only [Option.map_eq_some'] at h
  obtain ⟨u, _, rfl⟩ := h
  exact ⟨rfl, rfl, rfl⟩

/-- The code after the loop does not fault when no instance was left unplaced in the best
attempt. -/
theorem assemble_some (cfg : NestConfig K) (s : SearchState K)
    (h : s.expanded.length ≤ s.bestPlacements.length) :
    ∃ r, assemble cfg s = some r := by
  obtain ⟨u, hu, _⟩ := sheetUtilizations_some cfg s.bestPlacements s.expanded h
    (sheetsUsedOf s.bestPlacements) 0
  exact ⟨_, by unfold assemble; simp only; rw [hu]; rfl⟩

end Assembly
end Nesting

namespace Nesting
section FullSheet
set_option linter.unusedSectionVars false
variable {K : Type} [LinearOrderedField K] [FloorRing K]

theorem placeAll_append (L : StdLib K) (cfg : NestConfig K) (rotations : List K) :
    ∀ (l1 l2 : List (String × Polygon K)) (st : AttemptState K),
      placeAll L cfg rotations (l1 ++ l2) st
        = (placeAll L cfg rotations l1 st).bind (placeAll L cfg rotations l2)
  | [], _, _ => rfl
  | inst :: rest, l2, st => by
    rw [List.cons_append, placeAll, placeAll]
    cases placeInstance L cfg inst.1 inst.2 rotations st with
    | none => rfl
    | some st1 => exact placeAll_append L cfg rotations rest l2 st1

theorem expandParts_single (partId : String) (p : Polygon K) (n : Nat) :
    expandParts [⟨partId, p, (n : Int)⟩] = List.replicate n (partId, p) := by
  simp [expandParts]

theorem sort_replicate (L : StdLib K) (hSort : L.SortPermutes) (n : Nat)
    (inst : String × Polygon K) : L.sort areaGreater (List.replicate n inst) = List.replicate n inst :=
  List.perm_replicate.mp (hSort _)

/-- A run with `iterations = 1` whose attempt has positive utilization retains that attempt. -/
theorem search_one_of_attempt (L : StdLib K) (cfg : NestConfig K) (parts : List (NestPart K))
    (draws : Nat → K) (hasCallback : Bool) (hIter : cfg.iterations = 1) (att : AttemptState K)
    (hatt : runAttempt L cfg (L.sort areaGreater (expandParts parts)) = some att)
    (hpos : 0 < attemptUtilization cfg (L.sort areaGreater (expandParts parts)) att) :
    ∃ s, search L cfg parts draws hasCallback = some s ∧
      s.expanded = L.sort areaGreater (expandParts parts) ∧ s.bestPlacements = att.placements ∧
      s.iterationsRun = 1 := by
  rw [search_one L cfg parts draws hasCallback hIter,
    iterStep_zero L cfg draws hasCallback (initSearch L parts) att hatt]
  refine ⟨_, rfl, rfl, ?_, rfl⟩
  show (if attemptUtilization cfg (L.sort areaGreater (expandParts parts)) att > 0 then att.placements else [])
    = att.placements
  rw [if_pos hpos]

end FullSheet
end Nesting

namespace Nesting
section FullSheet2
set_option linter.unusedSectionVars false
variable {K : Type} [LinearOrderedField K] [FloorRing K]

theorem gridPlacements_length (partId : String) (a : Nat) (d : K) (k : Nat) :
    (gridPlacements partId a d k).length = k := by
  simp [gridPlacements]

theorem gridPlacements_sheetIndex (partId : String) (a : Nat) (d : K) (k : Nat) :
    ∀ p ∈ gridPlacements partId a d k, p.sheetIndex = 0 := by
  intro p hp
  obtain ⟨i, _, rfl⟩ := List.mem_map.mp hp
  rfl

/-- The attempt on `a * b + extra` squares of pitch `gridStep * m` on a sheet of `a` by `b`
cells, for `extra ≤ 1`. -/
theorem runAttempt_squares (L : StdLib K) (hTrig : L.TrigAtZero) (cfg : NestConfig K)
    (partId : String) (x0 y0 S : K) (a b m : Nat) (hS : 0 < S)
    (hgrid : S + cfg.spacing = gridStep * (m : K))
    (hW : cfg.sheetWidth = (a : K) * (S + cfg.spacing))
    (hH : cfg.sheetHeight = (b : K) * (S + cfg.spacing))
    (hWpos : 0 < cfg.sheetWidth) (hHpos : 0 < cfg.sheetHeight) (hRot : cfg.rotationSteps = 1) :
    runAttempt L cfg (List.replicate (a * b) (partId, square x0 y0 S))
        = some ⟨gridPlacements partId a (gridStep * (m : K)) (a * b),
                [gridOccupancy a (gridStep * (m : K)) (a * b)]⟩ ∧
      runAttempt L cfg (List.replicate (a * b + 1) (partId, square x0 y0 S))
        = some ⟨gridPlacements partId a (gridStep * (m : K)) (a * b) ++ [⟨partId, 1, 0, 0, 0⟩],
                [gridOccupancy a (gridStep * (m : K)) (a * b), [(0, 0)]]⟩ := by
  have h10 : (0 : K) < gridStep := gridStep_pos
  have hd : (0 : K) < S + cfg.spacing := by
    by_contra hneg
    have hle : S + cfg.spacing ≤ 0 := not_lt.mp hneg
    have : cfg.sheetWidth ≤ 0 := by
      rw [hW]; exact mul_nonpos_of_nonneg_of_nonpos (Nat.cast_nonneg a) hle
    exact absurd hWpos (not_lt.mpr this)
  have hm : 0 < m := by
    rcases Nat.eq_zero_or_pos m with h | h
    · subst h; simp at hgrid; rw [hgrid] at hd; exact absurd hd (lt_irrefl _)
    · exact h
  have ha : 0 < a := by
    rcases Nat.eq_zero_or_pos a with h | h
    · subst h; simp at hW; rw [hW] at hWpos; exact absurd hWpos (lt_irrefl _)
    · exact h
  have hb : 0 < b := by
    rcases Nat.eq_zero_or_pos b with h | h
    · subst h; simp at hH; rw [hH] at hHpos; exact absurd hHpos (lt_irrefl _)
    · exact h
  have hab : a * b ≠ 0 := Nat.pos_iff_ne_zero.mp (Nat.mul_pos ha hb)
  rw [hgrid] at hW hH
  have hrot : (square x0 y0 S).rotated L 0 = some (square x0 y0 S) :=
    rotated_zero L hTrig _ 4 (by simp [square])
  have hpw : (square x0 y0 S).width + cfg.spacing = gridStep * (m : K) := by
    rw [square_width _ _ _ hS.le, hgrid]
  have hph : (square x0 y0 S).height + cfg.spacing = gridStep * (m : K) := by
    rw [square_height _ _ _ hS.le, hgrid]
  have hfill := placeAll_grid L cfg partId (square x0 y0 S) a b m hm hW hH hrot hpw hph
    (a * b) 0 (by omega)
  have hstate : gridState partId a (gridStep * (m : K)) (0 + a * b)
      = ⟨gridPlacements partId a (gridStep * (m : K)) (a * b),
         [gridOccupancy a (gridStep * (m : K)) (a * b)]⟩ := by
    rw [Nat.zero_add, gridState, if_neg hab]
  have hstart : gridState partId a (gridStep * (m : K)) 0 = ⟨[], []⟩ := rfl
  rw [hstate, hstart] at hfill
  constructor
  · rw [runAttempt, rotationAngles_one L cfg hRot]
    exact hfill
  · rw [runAttempt, rotationAngles_one L cfg hRot, List.replicate_succ', placeAll_append, hfill]
    have hfull := placeInstance_grid_full L cfg partId (square x0 y0 S) a b m hm ha hb hW hH
      hrot hpw hph
    rw [gridState, if_neg hab] at hfull
    simp only [Option.some_bind, placeAll]
    rw [hfull]

end FullSheet2
end Nesting

namespace Nesting
section FullSheet3
set_option linter.unusedSectionVars false
variable {K : Type} [LinearOrderedField K] [FloorRing K]

/-- The utilization of an attempt on copies of a square that opened at least one sheet is
positive. -/
theorem attemptUtilization_squares_pos (cfg : NestConfig K) (partId : String) (x0 y0 S : K)
    (n : Nat) (att : AttemptState K) (hS : 0 < S) (hn : 0 < n)
    (hWpos : 0 < cfg.sheetWidth) (hHpos : 0 < cfg.sheetHeight)
    (hsheets : att.sheetOccupancy ≠ []) :
    0 < attemptUtilization cfg (List.replicate n (partId, square x0 y0 S)) att := by
  have hlen : (0 : K) < (att.sheetOccupancy.length : K) := by
    exact_mod_cast List.length_pos.mpr hsheets
  have harea : 0 < (att.sheetOccupancy.length : K) * cfg.sheetWidth * cfg.sheetHeight :=
    mul_pos (mul_pos hlen hWpos) hHpos
  have htotal : 0 < (List.replicate n (partId, square x0 y0 S)).foldl
      (fun acc inst => acc + inst.2.area) 0 := by
    apply totalArea_pos _ (partId, square x0 y0 S)
    · exact List.mem_replicate.mpr ⟨Nat.pos_iff_ne_zero.mp hn, rfl⟩
    · rw [square_area]; exact mul_pos hS hS
  unfold attemptUtilization
  simp only
  rw [if_pos harea]
  exact div_pos htotal harea

/-- C2, as amended. Full-sheet packing on the grid: for every square side `S > 0` and spacing
such that `S + spacing` is a multiple `gridStep * m` of the grid step 10, and every sheet of
positive dimensions `sheetWidth = a * (S + spacing)` and `sheetHeight = b * (S + spacing)`,
`nest` with one square part of quantity `N = a * b`, `rotationSteps = 1` and `iterations = 1`
returns `N` placements that all have `sheetIndex = 0`, and `sheetsUsed = 1`. -/
theorem full_sheet_packing_on_grid (L : StdLib K) (hTrig : L.TrigAtZero)
    (hSort : L.SortPermutes) (cfg : NestConfig K) (partId : String) (x0 y0 S : K)
    (a b m : Nat) (draws : Nat → K) (hasCallback : Bool)
    (hS : 0 < S)
    (hgrid : S + cfg.spacing = gridStep * (m : K))
    (hW : cfg.sheetWidth = (a : K) * (S + cfg.spacing))
    (hH : cfg.sheetHeight = (b : K) * (S + cfg.spacing))
    (hWpos : 0 < cfg.sheetWidth) (hHpos : 0 < cfg.sheetHeight)
    (hRot : cfg.rotationSteps = 1) (hIter : cfg.iterations = 1) :
    ∃ r, nest L cfg [⟨partId, square x0 y0 S, ((a * b : Nat) : Int)⟩] draws hasCallback = some r ∧
      r.placements.length = a * b ∧ (∀ p ∈ r.placements, p.sheetIndex = 0) ∧
      r.sheetsUsed = 1 := by
  have hn : 0 < a * b := by
    rcases Nat.eq_zero_or_pos (a * b) with h | h
    · rcases Nat.mul_eq_zero.mp h with h0 | h0
      · subst h0; simp at hW; rw [hW] at hWpos; exact absurd hWpos (lt_irrefl _)
      · subst h0; simp at hH; rw [hH] at hHpos; exact absurd hHpos (lt_irrefl _)
    · exact h
  have hexp : L.sort areaGreater (expandParts [⟨partId, square x0 y0 S, ((a * b : Nat) : Int)⟩])
      = List.replicate (a * b) (partId, square x0 y0 S) := by
    rw [expandParts_single, sort_replicate L hSort]
  have hatt := (runAttempt_squares L hTrig cfg partId x0 y0 S a b m hS hgrid hW hH hWpos hHpos
    hRot).1
  rw [← hexp] at hatt
  have hpos := attemptUtilization_squares_pos cfg partId x0 y0 S (a * b)
    ⟨gridPlacements partId a (gridStep * (m : K)) (a * b),
      [gridOccupancy a (gridStep * (m : K)) (a * b)]⟩ hS hn hWpos hHpos (by simp)
  rw [← hexp] at hpos
  obtain ⟨s, hs, hsexp, hsbest, _⟩ := search_one_of_attempt L cfg _ draws hasCallback hIter _
    hatt hpos
  have hlen : s.expanded.length ≤ s.bestPlacements.length := by
    rw [hsexp, hsbest, hexp]; simp [gridPlacements_length]
  obtain ⟨r, hr⟩ := assemble_some cfg s hlen
  obtain ⟨hp, hu, _⟩ := assemble_fields cfg s r hr
  refine ⟨r, ?_, ?_, ?_, ?_⟩
  · rw [nest, hs]; exact hr
  · rw [hp, hsbest]; exact gridPlacements_length _ _ _ _
  · rw [hp, hsbest]; exact gridPlacements_sheetIndex _ _ _ _
  · rw [hu, hsbest]
    apply sheetsUsedOf_all_zero
    · apply List.ne_nil_of_length_pos
      rw [gridPlacements_length]
      exact hn
    · exact gridPlacements_sheetIndex _ _ _ _

/-- C3, as amended. Overflow to a second sheet on the grid: when `S + spacing` is a multiple
`gridStep * m` of the grid step 10 and the sheet has positive dimensions
`sheetWidth = a * (S + spacing)` and `sheetHeight = b * (S + spacing)`, `nest` with quantity
`a * b + 1` of the square, `rotationSteps = 1` and `iterations = 1` returns `sheetsUsed = 2`. -/
theorem overflow_to_second_sheet_on_grid (L : StdLib K) (hTrig : L.TrigAtZero)
    (hSort : L.SortPermutes) (cfg : NestConfig K) (partId : String) (x0 y0 S : K)
    (a b m : Nat) (draws : Nat → K) (hasCallback : Bool)
    (hS : 0 < S)
    (hgrid : S + cfg.spacing = gridStep * (m : K))
    (hW : cfg.sheetWidth = (a : K) * (S + cfg.spacing))
    (hH : cfg.sheetHeight = (b : K) * (S + cfg.spacing))
    (hWpos : 0 < cfg.sheetWidth) (hHpos : 0 < cfg.sheetHeight)
    (hRot : cfg.rotationSteps = 1) (hIter : cfg.iterations = 1) :
    ∃ r, nest L cfg [⟨partId, square x0 y0 S, ((a * b + 1 : Nat) : Int)⟩] draws hasCallback
        = some r ∧ r.sheetsUsed = 2 := by
  have hexp : L.sort areaGreater (expandParts [⟨partId, square x0 y0 S, ((a * b + 1 : Nat) : Int)⟩])
      = List.replicate (a * b + 1) (partId, square x0 y0 S) := by
    rw [expandParts_single, sort_replicate L hSort]
  have hatt := (runAttempt_squares L hTrig cfg partId x0 y0 S a b m hS hgrid hW hH hWpos hHpos
    hRot).2
  rw [← hexp] at hatt
  have hpos := attemptUtilization_squares_pos cfg partId x0 y0 S (a * b + 1)
    ⟨gridPlacements partId a (gridStep * (m : K)) (a * b) ++ [⟨partId, 1, 0, 0, 0⟩],
      [gridOccupancy a (gridStep * (m : K)) (a * b), [(0, 0)]]⟩ hS (Nat.succ_pos _) hWpos hHpos
    (by simp)
  rw [← hexp] at hpos
  obtain ⟨s, hs, hsexp, hsbest, _⟩ := search_one_of_attempt L cfg _ draws hasCallback hIter _
    hatt hpos
  have hlen : s.expanded.length ≤ s.bestPlacements.length := by
    rw [hsexp, hsbest, hexp]; simp [gridPlacements_length]
  obtain ⟨r, hr⟩ := assemble_some cfg s hlen
  obtain ⟨_, hu, _⟩ := assemble_fields cfg s r hr
  refine ⟨r, ?_, ?_⟩
  · rw [nest, hs]; exact hr
  · rw [hu, hsbest]
    simp only
    rw [sheetsUsedOf_append, sheetsUsedOf_cons, sheetsUsedOf_nil]
    have hle : sheetsUsedOf (gridPlacements partId a (gridStep * (m : K)) (a * b)) ≤ 1 := by
      apply sheetsUsedOf_le
      intro p hp
      rw [gridPlacements_sheetIndex partId a _ _ p hp]
      exact Nat.zero_lt_one
    simp
    omega

end FullSheet3
end Nesting

namespace Nesting

/-- Full-sheet packing for squares of side 18, spacing 2, on a 40 by 20 sheet. -/
theorem full_sheet_packing_on_grid_witness :
    ∃ r, nest ratLib ⟨40, 20, 2, 1, 1, 1, 0⟩ [⟨"sq", square 5 5 18, ((2 * 1 : Nat) : Int)⟩]
        (fun _ => 0) true = some r ∧
      r.placements.length = 2 * 1 ∧ (∀ p ∈ r.placements, p.sheetIndex = 0) ∧ r.sheetsUsed = 1 :=
  full_sheet_packing_on_grid ratLib ratLib_trigAtZero ratLib_sortPermutes ⟨40, 20, 2, 1, 1, 1, 0⟩
    "sq" 5 5 18 2 1 2 (fun _ => 0) true (by decide!) (by decide!) (by decide!) (by decide!)
    (by decide!) (by decide!) rfl rfl

/-- C2, counterexample. Side 7 and spacing 0 divide the 14 by 14 sheet evenly (`N = 2 * 2`),
but 7 is not a multiple of the grid step 10: no second grid position fits, and the four
squares land on four sheets. -/
theorem full_sheet_packing_counterexample :
    (14 : ℚ) = ((2 : Nat) : ℚ) * (7 + 0) ∧
    nest ratLib ⟨14, 14, 0, 1, 1, 1, 0⟩ [⟨"sq", square 0 0 7, ((2 * 2 : Nat) : Int)⟩]
        (fun _ => 0) false
      = some { placements := [⟨"sq", 0, 0, 0, 0⟩, ⟨"sq", 1, 0, 0, 0⟩, ⟨"sq", 2, 0, 0, 0⟩,
                              ⟨"sq", 3, 0, 0, 0⟩]
               sheetsUsed := 4
               utilization := [1 / 4, 1 / 4, 1 / 4, 1 / 4]
               iterationsRun := 1 } := by
  constructor
  · decide!
  · decide!

/-- Overflow for squares of side 18, spacing 2, on a 40 by 20 sheet. -/
theorem overflow_to_second_sheet_on_grid_witness :
    ∃ r, nest ratLib ⟨40, 20, 2, 1, 1, 1, 0⟩ [⟨"sq", square 5 5 18, ((2 * 1 + 1 : Nat) : Int)⟩]
        (fun _ => 0) true = some r ∧ r.sheetsUsed = 2 :=
  overflow_to_second_sheet_on_grid ratLib ratLib_trigAtZero ratLib_sortPermutes
    ⟨40, 20, 2, 1, 1, 1, 0⟩ "sq" 5 5 18 2 1 2 (fun _ => 0) true (by decide!) (by decide!)
    (by decide!) (by decide!) (by decide!) (by decide!) rfl rfl

/-- C3, counterexample. With side 7, spacing 0 and a 14 by 14 sheet (`N = 2 * 2`), quantity
`N + 1 = 5` uses five sheets, not two. -/
theorem overflow_to_second_sheet_counterexample :
    (14 : ℚ) = ((2 : Nat) : ℚ) * (7 + 0) ∧
    nest ratLib ⟨14, 14, 0, 1, 1, 1, 0⟩ [⟨"sq", square 0 0 7, ((2 * 2 + 1 : Nat) : Int)⟩]
        (fun _ => 0) false
      = some { placements := [⟨"sq", 0, 0, 0, 0⟩, ⟨"sq", 1, 0, 0, 0⟩, ⟨"sq", 2, 0, 0, 0⟩,
                              ⟨"sq", 3, 0, 0, 0⟩, ⟨"sq", 4, 0, 0, 0⟩]
               sheetsUsed := 5
               utilization := [1 / 4, 1 / 4, 1 / 4, 1 / 4, 1 / 4]
               iterationsRun := 1 } := by
  constructor
  · decide!
  · decide!

end Nesting

namespace Nesting
section SearchLemmas
set_option linter.unusedSectionVars false
variable {K : Type} [LinearOrderedField K] [FloorRing K]

theorem iterStep_eq_some (L : StdLib K) (cfg : NestConfig K) (draws : Nat → K)
    (hasCallback : Bool) (iter : Nat) (s s1 : SearchState K)
    (h : iterStep L cfg draws hasCallback iter s = some s1) :
    ∃ expanded cursor att, roundOrder cfg draws iter s = some (expanded, cursor) ∧
      runAttempt L cfg expanded = some att ∧
      s1 = roundResult cfg hasCallback iter s expanded cursor att := by
  unfold iterStep at h
  cases hord : (if iter > 0 then mutate cfg.mutationRate draws (s.expanded, s.cursor)
      else some (s.expanded, s.cursor)) with
  | none => rw [hord] at h; simp at h
  | some ec =>
    obtain ⟨expanded, cursor⟩ := ec
    rw [hord] at h
    simp only at h
    cases hatt : runAttempt L cfg expanded with
    | none => rw [hatt] at h; simp at h
    | some att =>
      rw [hatt] at h
      simp only [Option.some.injEq, decide_eq_true_eq] at h
      exact ⟨expanded, cursor, att, hord, hatt, h.symm⟩

theorem searchAfter_succ_eq_some (L : StdLib K) (cfg : NestConfig K) (parts : List (NestPart K))
    (draws : Nat → K) (hasCallback : Bool) (n : Nat) (s1 : SearchState K)
    (h : searchAfter L cfg parts draws hasCallback (n + 1) = some s1) :
    ∃ s expanded cursor att, searchAfter L cfg parts draws hasCallback n = some s ∧
      roundOrder cfg draws n s = some (expanded, cursor) ∧
      runAttempt L cfg expanded = some att ∧
      s1 = roundResult cfg hasCallback n s expanded cursor att := by
  rw [searchAfter] at h
  cases hs : searchAfter L cfg parts draws hasCallback n with
  | none => rw [hs] at h; simp at h
  | some s =>
    rw [hs] at h
    obtain ⟨expanded, cursor, att, h1, h2, h3⟩ := iterStep_eq_some L cfg draws hasCallback n s s1 h
    exact ⟨s, expanded, cursor, att, rfl, h1, h2, h3⟩

/-- The best utilization never decreases over a round. -/
theorem roundResult_best_le (cfg : NestConfig K) (hasCallback : Bool) (iter : Nat)
    (s : SearchState K) (expanded : List (String × Polygon K)) (cursor : Nat)
    (att : AttemptState K) :
    s.bestUtilization ≤ (roundResult cfg hasCallback iter s expanded cursor att).bestUtilization := by
  simp only [roundResult]
  split
  · next h => exact le_of_lt h
  · exact le_refl _

/-- After `n` rounds: `iterationsRun` is `n`, the progress calls are numbered `1..n` with total
`iterations` (none without a callback), and their utilization values are non-decreasing and
bounded by the current best. -/
theorem searchAfter_progress (L : StdLib K) (cfg : NestConfig K) (parts : List (NestPart K))
    (draws : Nat → K) (hasCallback : Bool) :
    ∀ (n : Nat) (s : SearchState K), searchAfter L cfg parts draws hasCallback n = some s →
      s.iterationsRun = (n : Int) ∧
      s.progress.map (fun c => c.iteration)
        = (if hasCallback then (List.range n).map (fun (i : Nat) => (i : Int) + 1) else []) ∧
      (∀ c ∈ s.progress, c.total = cfg.iterations) ∧
      (s.progress.map fun c => c.utilization).Pairwise (· ≤ ·) ∧
      (∀ c ∈ s.progress, c.utilization ≤ s.bestUtilization)
  | 0, s, h => by
    simp only [searchAfter, Option.some.injEq] at h
    subst h
    simp [initSearch]
  | n + 1, s1, h => by
    obtain ⟨s, expanded, cursor, att, hs, _, _, rfl⟩ :=
      searchAfter_succ_eq_some L cfg parts draws hasCallback n s1 h
    obtain ⟨h1, h2, h3, h4, h5⟩ := searchAfter_progress L cfg parts draws hasCallback n s hs
    have hle := roundResult_best_le cfg hasCallback n s expanded cursor att
    refine ⟨by simp [roundResult], ?_, ?_, ?_, ?_⟩
    · cases hasCallback with
      | false => simpa [roundResult] using h2
      | true =>
        simp only [roundResult, if_true, List.map_append, List.map_cons, List.map_nil] at h2 ⊢
        rw [h2, List.range_succ, List.map_append]
        rfl
    · cases hasCallback with
      | false => simpa [roundResult] using h3
      | true =>
        intro c hc
        simp only [roundResult, if_true, List.mem_append, List.mem_singleton] at hc
        rcases hc with hc | rfl
        · exact h3 c hc
        · rfl
    · cases hasCallback with
      | false => simpa [roundResult] using h4
      | true =>
        simp only [roundResult, if_true, List.map_append, List.map_cons, List.map_nil]
        rw [List.pairwise_append]
        refine ⟨h4, List.pairwise_singleton _ _, ?_⟩
        intro a ha b hb
        obtain ⟨c, hc, rfl⟩ := List.mem_map.mp ha
        rw [List.mem_singleton] at hb
        subst hb
        exact le_trans (h5 c hc) hle
    · cases hasCallback with
      | false =>
        intro c hc
        simp only [roundResult, Bool.false_eq_true, if_false] at hc
        exact le_trans (h5 c hc) hle
      | true =>
        intro c hc
        simp only [roundResult, if_true, List.mem_append, List.mem_singleton] at hc
        rcases hc with hc | rfl
        · exact le_trans (h5 c hc) hle
        · exact le_refl _

end SearchLemmas
end Nesting

namespace Nesting
section Accounting
set_option linter.unusedSectionVars false
variable {K : Type} [LinearOrderedField K] [FloorRing K]

/-- C8. Progress monotonicity: after any number `n` of rounds of the search loop, the
utilization values passed to the progress callback so far, in call order, are non-decreasing;
with a callback there is one call per attempt, numbered `1..n`, each with total `iterations`
(and no call without a callback).  With `n = iterations` this is the whole run; smaller `n`
cover the calls made before a later fault. -/
theorem progress_monotone (L : StdLib K) (cfg : NestConfig K) (parts : List (NestPart K))
    (draws : Nat → K) (hasCallback : Bool) (n : Nat) (s : SearchState K)
    (h : searchAfter L cfg parts draws hasCallback n = some s) :
    (s.progress.map fun c => c.utilization).Pairwise (· ≤ ·) ∧
      s.progress.map (fun c => c.iteration)
        = (if hasCallback then (List.range n).map (fun (i : Nat) => (i : Int) + 1) else []) ∧
      (∀ c ∈ s.progress, c.total = cfg.iterations) := by
  obtain ⟨_, h2, h3, h4, _⟩ := searchAfter_progress L cfg parts draws hasCallback n s h
  exact ⟨h4, h2, h3⟩

/-- Progress of three rounds on a 50 by 50 square and a thin triangle with a 100 by 100
bounding box: the second attempt improves on the first, the third does not. -/
theorem progress_monotone_witness :
    searchAfter ratLib ⟨100, 100, 0, 1, 3, 1, 1⟩
        [⟨"A", square 0 0 50, 1⟩, ⟨"B", ⟨[0, 0, 100, 100, 100, 96]⟩, 1⟩] (fun _ => 0) true 3
      = some { expanded := [("A", square 0 0 50), ("B", ⟨[0, 0, 100, 100, 100, 96]⟩)]
               cursor := 4
               bestPlacements := [⟨"B", 0, 0, 0, 0⟩, ⟨"A", 0, 50, 0, 0⟩]
               bestUtilization := 27 / 100
               iterationsRun := 3
               progress := [⟨1, 3, 27 / 200⟩, ⟨2, 3, 27 / 100⟩, ⟨3, 3, 27 / 100⟩] } ∧
    ([⟨1, 3, 27 / 200⟩, ⟨2, 3, 27 / 100⟩, ⟨3, 3, 27 / 100⟩] : List (ProgressCall ℚ)).map
        (fun c => c.utilization) = [27 / 200, 27 / 100, 27 / 100] ∧
    ([27 / 200, 27 / 100, 27 / 100] : List ℚ).Pairwise (· ≤ ·) :=
  ⟨by decide!, rfl,
    (progress_monotone ratLib ⟨100, 100, 0, 1, 3, 1, 1⟩
      [⟨"A", square 0 0 50, 1⟩, ⟨"B", ⟨[0, 0, 100, 100, 100, 96]⟩, 1⟩] (fun _ => 0) true 3
      { expanded := [("A", square 0 0 50), ("B", ⟨[0, 0, 100, 100, 100, 96]⟩)]
        cursor := 4
        bestPlacements := [⟨"B", 0, 0, 0, 0⟩, ⟨"A", 0, 50, 0, 0⟩]
        bestUtilization := 27 / 100
        iterationsRun := 3
        progress := [⟨1, 3, 27 / 200⟩, ⟨2, 3, 27 / 100⟩, ⟨3, 3, 27 / 100⟩] } (by decide!)).1⟩

theorem search_zero (L : StdLib K) (cfg : NestConfig K) (parts : List (NestPart K))
    (draws : Nat → K) (hasCallback : Bool) (hIter : cfg.iterations = 0) :
    search L cfg parts draws hasCallback = some (initSearch L parts) := by
  rw [search, hIter]
  rfl

/-- C9. Iteration accounting: for every input and every `iterations ≥ 0`, a result returned by
`nest` has `iterationsRun = iterations` (and so has the loop state whenever the search loop
completes, also if the code after the loop faults); and when `iterations = 0`, `nest` returns
the empty result (no placements, `sheetsUsed = 0`, empty `utilization`, `iterationsRun = 0`) and the
progress callback is never invoked. -/
theorem iteration_accounting (L : StdLib K) (cfg : NestConfig K) (parts : List (NestPart K))
    (draws : Nat → K) (hasCallback : Bool) (hIter : 0 ≤ cfg.iterations) :
    (∀ r, nest L cfg parts draws hasCallback = some r → r.iterationsRun = cfg.iterations) ∧
      (∀ s, search L cfg parts draws hasCallback = some s → s.iterationsRun = cfg.iterations) ∧
      (cfg.iterations = 0 →
        nest L cfg parts draws hasCallback
            = some { placements := [], sheetsUsed := 0, utilization := [], iterationsRun := 0 } ∧
          progressCalls L cfg parts draws hasCallback = some []) := by
  refine ⟨?_, ?_, ?_⟩
  · intro r hr
    unfold nest search at hr
    cases hs : searchAfter L cfg parts draws hasCallback cfg.iterations.toNat with
    | none => rw [hs] at hr; simp at hr
    | some s =>
      rw [hs] at hr
      obtain ⟨_, _, hrun⟩ := assemble_fields cfg s r hr
      obtain ⟨h1, _⟩ := searchAfter_progress L cfg parts draws hasCallback _ s hs
      rw [hrun, h1]
      exact Int.toNat_of_nonneg hIter
  · intro s hs
    obtain ⟨h1, _⟩ := searchAfter_progress L cfg parts draws hasCallback _ s hs
    rw [h1]
    exact Int.toNat_of_nonneg hIter
  · intro h0
    constructor
    · rw [nest, search_zero L cfg parts draws hasCallback h0]
      rfl
    · rw [progressCalls, search_zero L cfg parts draws hasCallback h0]
      rfl

/-- Iteration accounting of a run of three rounds and of a run of no round. -/
theorem iteration_accounting_witness :
    ((∀ r, nest ratLib ⟨100, 100, 0, 1, 3, 1, 1⟩
          [⟨"A", square 0 0 50, 1⟩, ⟨"B", ⟨[0, 0, 100, 100, 100, 96]⟩, 1⟩] (fun _ => 0) true
            = some r → r.iterationsRun = 3) ∧
      nest ratLib ⟨100, 100, 0, 1, 3, 1, 1⟩
          [⟨"A", square 0 0 50, 1⟩, ⟨"B", ⟨[0, 0, 100, 100, 100, 96]⟩, 1⟩] (fun _ => 0) true
        = some { placements := [⟨"B", 0, 0, 0, 0⟩, ⟨"A", 0, 50, 0, 0⟩], sheetsUsed := 1,
                 utilization := [27 / 100], iterationsRun := 3 }) ∧
    (nest ratLib ⟨100, 100, 0, 1, 0, 1, 1⟩ [⟨"A", square 0 0 50, 1⟩] (fun _ => 0) true
        = some { placements := [], sheetsUsed := 0, utilization := [], iterationsRun := 0 } ∧
      progressCalls ratLib ⟨100, 100, 0, 1, 0, 1, 1⟩ [⟨"A", square 0 0 50, 1⟩] (fun _ => 0) true
        = some []) :=
  ⟨⟨(iteration_accounting ratLib ⟨100, 100, 0, 1, 3, 1, 1⟩
      [⟨"A", square 0 0 50, 1⟩, ⟨"B", ⟨[0, 0, 100, 100, 100, 96]⟩, 1⟩] (fun _ => 0) true
      (by decide)).1, by decide!⟩,
    (iteration_accounting ratLib ⟨100, 100, 0, 1, 0, 1, 1⟩ [⟨"A", square 0 0 50, 1⟩]
      (fun _ => 0) true (by decide)).2.2 rfl⟩

theorem iterStep_zero_draws (L : StdLib K) (cfg : NestConfig K) (draws1 draws2 : Nat → K)
    (hasCallback : Bool) (s : SearchState K) :
    iterStep L cfg draws1 hasCallback 0 s = iterStep L cfg draws2 hasCallback 0 s := by
  simp [iterStep]

/-- C10. Determinism without mutation: with `iterations = 1` the outcome of `nest` (placements,
`sheetsUsed`, `utilization`, `iterationsRun`, or the fault) and the progress calls do not depend
on the random source: any two draw sequences give the same. -/
theorem deterministic_without_mutation (L : StdLib K) (cfg : NestConfig K)
    (parts : List (NestPart K)) (draws1 draws2 : Nat → K) (hasCallback : Bool)
    (hIter : cfg.iterations = 1) :
    nest L cfg parts draws1 hasCallback = nest L cfg parts draws2 hasCallback ∧
      progressCalls L cfg parts draws1 hasCallback
        = progressCalls L cfg parts draws2 hasCallback := by
  have h : search L cfg parts draws1 hasCallback = search L cfg parts draws2 hasCallback := by
    rw [search_one L cfg parts draws1 hasCallback hIter,
      search_one L cfg parts draws2 hasCallback hIter]
    exact iterStep_zero_draws L cfg draws1 draws2 hasCallback _
  constructor
  · rw [nest, nest, h]
  · rw [progressCalls, progressCalls, h]

/-- Two runs with one round each and different draws, and the result they share. -/
theorem deterministic_without_mutation_witness :
    (nest ratLib ⟨100, 100, 0, 1, 1, 1, 1⟩
          [⟨"A", square 0 0 50, 1⟩, ⟨"B", ⟨[0, 0, 100, 100, 100, 96]⟩, 1⟩] (fun _ => 0) true
        = nest ratLib ⟨100, 100, 0, 1, 1, 1, 1⟩
          [⟨"A", square 0 0 50, 1⟩, ⟨"B", ⟨[0, 0, 100, 100, 100, 96]⟩, 1⟩]
          (fun n => 1 / ((n : ℚ) + 2)) true ∧
      progressCalls ratLib ⟨100, 100, 0, 1, 1, 1, 1⟩
          [⟨"A", square 0 0 50, 1⟩, ⟨"B", ⟨[0, 0, 100, 100, 100, 96]⟩, 1⟩] (fun _ => 0) true
        = progressCalls ratLib ⟨100, 100, 0, 1, 1, 1, 1⟩
          [⟨"A", square 0 0 50, 1⟩, ⟨"B", ⟨[0, 0, 100, 100, 100, 96]⟩, 1⟩]
          (fun n => 1 / ((n : ℚ) + 2)) true) ∧
    nest ratLib ⟨100, 100, 0, 1, 1, 1, 1⟩
        [⟨"A", square 0 0 50, 1⟩, ⟨"B", ⟨[0, 0, 100, 100, 100, 96]⟩, 1⟩] (fun _ => 0) true
      = some { placements := [⟨"A", 0, 0, 0, 0⟩, ⟨"B", 1, 0, 0, 0⟩], sheetsUsed := 2,
               utilization := [1 / 4, 1 / 50], iterationsRun := 1 } :=
  ⟨deterministic_without_mutation ratLib ⟨100, 100, 0, 1, 1, 1, 1⟩
      [⟨"A", square 0 0 50, 1⟩, ⟨"B", ⟨[0, 0, 100, 100, 100, 96]⟩, 1⟩] (fun _ => 0)
      (fun n => 1 / ((n : ℚ) + 2)) true rfl, by decide!⟩

end Accounting
end Nesting

namespace Nesting
section Faults
set_option linter.unusedSectionVars false
variable {K : Type} [LinearOrderedField K] [FloorRing K]

/-- The per-sheet pass faults whenever the best attempt placed something but left an instance
unplaced: it reads `bestPlacements[i]` for every instance position `i`. -/
theorem assemble_none_of_unplaced (cfg : NestConfig K) (s : SearchState K)
    (hne : s.bestPlacements ≠ []) (hlt : s.bestPlacements.length < s.expanded.length) :
    assemble cfg s = none := by
  have hused : sheetsUsedOf s.bestPlacements ≠ 0 := by
    intro h
    exact hne ((sheetsUsedOf_eq_zero_iff _).mp h)
  obtain ⟨c, hc⟩ := Nat.exists_eq_succ_of_ne_zero hused
  unfold assemble
  simp only
  rw [hc, sheetUtilizations,
    sheetPartAreaFrom_none s.bestPlacements 0 s.expanded 0 0 (by simpa using hlt) (Nat.zero_le _)]
  rfl

end Faults

/-- C4, failing input. Parts `a` (a 20 by 20 square) and `b` (a 50 by 50 square) on 40 by 40
sheets, `rotationSteps = 1`, `iterations = 1`: `b` exceeds the sheet at the only angle, the
attempt places `a` alone, the best placement list has one entry for two instances, and the
per-sheet utilization pass reads `bestPlacements[1]` out of range. -/
theorem unplaceable_part_out_of_range :
    rotationAngles ratLib ⟨40, 40, 0, 1, 1, 1, 0⟩ = [0] ∧
    ((square 0 0 50).rotated ratLib 0).map (fun p => decide (p.width > 40)) = some true ∧
    (search ratLib ⟨40, 40, 0, 1, 1, 1, 0⟩ [⟨"a", square 0 0 20, 1⟩, ⟨"b", square 0 0 50, 1⟩]
        (fun _ => 0) false).map (fun s => (s.expanded.map (fun i => i.1), s.bestPlacements))
      = some (["b", "a"], [⟨"a", 0, 0, 0, 0⟩]) ∧
    nest ratLib ⟨40, 40, 0, 1, 1, 1, 0⟩ [⟨"a", square 0 0 20, 1⟩, ⟨"b", square 0 0 50, 1⟩]
        (fun _ => 0) false = none := by
  refine ⟨by decide!, by decide!, by decide!, by decide!⟩

/-- C5, failing input. Parts `X` (100 by 100) and `Z` (100 by 90) on 100 by 100 sheets, two
rounds, `mutationRate = 1`, all draws `0`.  The first attempt, on the order `X, Z`, is retained:
`X` on sheet 0 and `Z` on sheet 1, so the sheets hold area 10000 and 9000.  The second round
swaps the order to `Z, X` and does not improve; the per-sheet pass then pairs the retained
placements with the swapped order and reports `9/10` for sheet 0 and `1` for sheet 1. -/
theorem per_sheet_utilization_stale_order :
    nest ratLib ⟨100, 100, 0, 1, 2, 1, 1⟩
        [⟨"X", square 0 0 100, 1⟩, ⟨"Z", ⟨[0, 0, 100, 0, 100, 90, 0, 90]⟩, 1⟩] (fun _ => 0) false
      = some { placements := [⟨"X", 0, 0, 0, 0⟩, ⟨"Z", 1, 0, 0, 0⟩], sheetsUsed := 2,
               utilization := [9 / 10, 1], iterationsRun := 2 } ∧
    (square (0 : ℚ) 0 100).area / (100 * 100) = 1 ∧
    (Polygon.mk [(0 : ℚ), 0, 100, 0, 100, 90, 0, 90]).area / (100 * 100) = 9 / 10 := by
  refine ⟨by decide!, by decide!, by decide!⟩

end Nesting

namespace Nesting


section AttemptLemmas
set_option linter.unusedSectionVars false
variable {K : Type} [LinearOrderedField K] [FloorRing K]

theorem inOrderFrom_append_singleton (q : Placement K) :
    ∀ (l : List (Placement K)) (k : Nat),
      inOrderFrom k (l ++ [q]) ↔ inOrderFrom k l ∧ q.sheetIndex ≤ max k (sheetsUsedOf l)
  | [], k => by simp [inOrderFrom, sheetsUsedOf_nil]
  | p :: rest, k => by
    rw [List.cons_append, inOrderFrom, inOrderFrom, inOrderFrom_append_singleton q rest,
      sheetsUsedOf_cons, and_assoc, max_assoc]

theorem inOrderFrom_take : ∀ (l : List (Placement K)) (k n : Nat),
    inOrderFrom k l → inOrderFrom k (l.take n)
  | [], _, _, _ => by simp [inOrderFrom]
  | _ :: _, _, 0, _ => by simp [inOrderFrom]
  | p :: rest, k, n + 1, h => by
    rw [List.take_succ_cons, inOrderFrom]
    exact ⟨h.1, inOrderFrom_take rest _ n h.2⟩

/-- In a list in creation order the indices that occur, together with those of the sheets
open before, are exactly the indices below the number of sheets open after. -/
theorem inOrderFrom_lt_iff : ∀ (l : List (Placement K)) (k : Nat), inOrderFrom k l →
    ∀ s, s < max k (sheetsUsedOf l) ↔ (s < k ∨ ∃ p ∈ l, p.sheetIndex = s)
  | [], k, _, s => by simp [sheetsUsedOf_nil]
  | p :: rest, k, h, s => by
    have ih := inOrderFrom_lt_iff rest _ h.2 s
    rw [sheetsUsedOf_cons, ← max_assoc, ih]
    have hp := h.1
    constructor
    · rintro (h1 | ⟨q, hq, rfl⟩)
      · rcases Nat.lt_or_ge s k with h2 | h2
        · exact Or.inl h2
        · right
          refine ⟨p, List.mem_cons_self _ _, ?_⟩
          have := lt_max_iff.mp h1
          omega
      · exact Or.inr ⟨q, List.mem_cons_of_mem _ hq, rfl⟩
    · rintro (h1 | ⟨q, hq, rfl⟩)
      · exact Or.inl (lt_max_of_lt_left h1)
      · rcases List.mem_cons.mp hq with rfl | hq
        · exact Or.inl (lt_max_of_lt_right (Nat.lt_succ_self _))
        · exact Or.inr ⟨q, hq, rfl⟩

theorem tryExistingSheets_bound (cfg : NestConfig K) (partW partH : K) :
    ∀ (sheets : List (List (K × K))) (i0 idx : Nat) (bx by_ : K),
      tryExistingSheets cfg partW partH sheets i0 = some (idx, bx, by_) →
      i0 ≤ idx ∧ idx < i0 + sheets.length
  | [], _, _, _, _, h => by simp [tryExistingSheets] at h
  | occ :: rest, i0, idx, bx, by_, h => by
    unfold tryExistingSheets at h
    cases hscan : scanSheet cfg partW partH occ with
    | some pos =>
      rw [hscan] at h
      simp only [Option.some.injEq, Prod.mk.injEq] at h
      obtain ⟨rfl, _, _⟩ := h
      simp
    | none =>
      rw [hscan] at h
      have := tryExistingSheets_bound cfg partW partH rest (i0 + 1) idx bx by_ h
      simp only [List.length_cons]
      omega

/-- The invariant of an attempt: placements are in creation order of their sheets and use
exactly the sheets opened. -/
theorem placeInstance_inOrder (L : StdLib K) (cfg : NestConfig K) (partId : String)
    (polygon : Polygon K) :
    ∀ (rotations : List K) (st st1 : AttemptState K),
      placeInstance L cfg partId polygon rotations st = some st1 →
      inOrderFrom 0 st.placements ∧ sheetsUsedOf st.placements = st.sheetOccupancy.length →
      inOrderFrom 0 st1.placements ∧ sheetsUsedOf st1.placements = st1.sheetOccupancy.length
  | [], st, st1, h, hinv => by
    simp only [placeInstance, Option.some.injEq] at h
    subst h
    exact hinv
  | rotation :: rest, st, st1, h, hinv => by
    unfold placeInstance at h
    cases hrot : polygon.rotated L rotation with
    | none => rw [hrot] at h; simp at h
    | some rotated =>
      rw [hrot] at h
      simp only at h
      cases htry : tryExistingSheets cfg (rotated.width + cfg.spacing)
          (rotated.height + cfg.spacing) st.sheetOccupancy 0 with
      | some found =>
        obtain ⟨idx, bx, by_⟩ := found
        rw [htry] at h
        simp only [Option.some.injEq] at h
        subst h
        have hb := tryExistingSheets_bound cfg _ _ _ _ _ _ _ htry
        simp only [List.length_modify]
        refine ⟨(inOrderFrom_append_singleton _ _ _).mpr ⟨hinv.1, ?_⟩, ?_⟩
        · simp only [hinv.2]; omega
        · rw [sheetsUsedOf_append, sheetsUsedOf_cons, sheetsUsedOf_nil, hinv.2]
          simp only
          omega
      | none =>
        rw [htry] at h
        simp only at h
        split at h
        · simp only [Option.some.injEq] at h
          subst h
          refine ⟨(inOrderFrom_append_singleton _ _ _).mpr ⟨hinv.1, ?_⟩, ?_⟩
          · simp only [hinv.2]; omega
          · rw [sheetsUsedOf_append, sheetsUsedOf_cons, sheetsUsedOf_nil, hinv.2]
            simp
        · exact placeInstance_inOrder L cfg partId polygon rest st st1 h hinv

theorem placeAll_inOrder (L : StdLib K) (cfg : NestConfig K) (rotations : List K) :
    ∀ (expanded : List (String × Polygon K)) (st st1 : AttemptState K),
      placeAll L cfg rotations expanded st = some st1 →
      inOrderFrom 0 st.placements ∧ sheetsUsedOf st.placements = st.sheetOccupancy.length →
      inOrderFrom 0 st1.placements ∧ sheetsUsedOf st1.placements = st1.sheetOccupancy.length
  | [], st, st1, h, hinv => by
    simp only [placeAll, Option.some.injEq] at h
    subst h
    exact hinv
  | inst :: rest, st, st1, h, hinv => by
    unfold placeAll at h
    cases hp : placeInstance L cfg inst.1 inst.2 rotations st with
    | none => rw [hp] at h; simp at h
    | some st2 =>
      rw [hp] at h
      exact placeAll_inOrder L cfg rotations rest st2 st1 h
        (placeInstance_inOrder L cfg inst.1 inst.2 rotations st st2 hp hinv)

/-- Every attempt: the placement list uses exactly the sheets opened, and in each prefix of it
the sheet indices that occur are exactly those below the number of sheets the prefix uses. -/
theorem runAttempt_sheets (L : StdLib K) (cfg : NestConfig K)
    (expanded : List (String × Polygon K)) (att : AttemptState K)
    (h : runAttempt L cfg expanded = some att) :
    sheetsUsedOf att.placements = att.sheetOccupancy.length ∧
      ∀ n s, s < sheetsUsedOf (att.placements.take n)
        ↔ ∃ p ∈ att.placements.take n, p.sheetIndex = s := by
  have hinv := placeAll_inOrder L cfg _ expanded ⟨[], []⟩ att h ⟨trivial, rfl⟩
  refine ⟨hinv.2, ?_⟩
  intro n s
  have := inOrderFrom_lt_iff _ 0 (inOrderFrom_take _ 0 n hinv.1) s
  simpa using this

end AttemptLemmas
end Nesting

namespace Nesting
section BestLemmas
set_option linter.unusedSectionVars false
variable {K : Type} [LinearOrderedField K] [FloorRing K]

theorem attemptAt_eq_some (L : StdLib K) (cfg : NestConfig K) (parts : List (NestPart K))
    (draws : Nat → K) (k : Nat) (expanded : List (String × Polygon K)) (cursor : Nat)
    (att : AttemptState K)
    (hord : orderAt cfg draws (L.sort areaGreater (expandParts parts)) k = some (expanded, cursor))
    (hatt : runAttempt L cfg expanded = some att) :
    attemptAt L cfg parts draws k = some (att, attemptUtilization cfg expanded att) := by
  rw [attemptAt, hord]
  simp only
  rw [hatt]
  rfl

theorem attemptAt_utilization_nonneg (L : StdLib K) (cfg : NestConfig K)
    (parts : List (NestPart K)) (draws : Nat → K) (k : Nat) (att : AttemptState K) (u : K)
    (h : attemptAt L cfg parts draws k = some (att, u)) : 0 ≤ u := by
  unfold attemptAt at h
  cases hord : orderAt cfg draws (L.sort areaGreater (expandParts parts)) k with
  | none => rw [hord] at h; simp at h
  | some ec =>
    obtain ⟨e, c⟩ := ec
    rw [hord] at h
    simp only [Option.map_eq_some', Prod.mk.injEq] at h
    obtain ⟨a, _, _, rfl⟩ := h
    exact attemptUtilization_nonneg cfg e a

/-- The invariant of the search loop after `n` rounds: the order in the state is the order of
the last attempt run, every attempt so far completed, and the retained best is either the
initial empty list (no attempt had positive utilization) or the earliest attempt of maximal
utilization. -/
theorem searchAfter_best (L : StdLib K) (cfg : NestConfig K) (parts : List (NestPart K))
    (draws : Nat → K) (hasCallback : Bool) :
    ∀ (n : Nat) (s : SearchState K), searchAfter L cfg parts draws hasCallback n = some s →
      orderAt cfg draws (L.sort areaGreater (expandParts parts)) (n - 1) = some (s.expanded, s.cursor) ∧
      (∀ k, k < n → ∃ att u, attemptAt L cfg parts draws k = some (att, u)) ∧
      (∀ k, k < n → ∀ att u, attemptAt L cfg parts draws k = some (att, u) →
        u ≤ s.bestUtilization) ∧
      ((s.bestPlacements = [] ∧ s.bestUtilization = 0) ∨
        ∃ k att u, k < n ∧ attemptAt L cfg parts draws k = some (att, u) ∧
          s.bestPlacements = att.placements ∧ s.bestUtilization = u ∧ 0 < u ∧
          ∀ j, j < k → ∀ att1 u1, attemptAt L cfg parts draws j = some (att1, u1) → u1 < u)
  | 0, s, h => by
    simp only [searchAfter, Option.some.injEq] at h
    subst h
    refine ⟨rfl, ?_, ?_, Or.inl ⟨rfl, rfl⟩⟩
    · intro k hk; exact absurd hk (Nat.not_lt_zero _)
    · intro k hk; exact absurd hk (Nat.not_lt_zero _)
  | n + 1, s1, h => by
    obtain ⟨s, expanded, cursor, att, hs, hord, hatt, rfl⟩ :=
      searchAfter_succ_eq_some L cfg parts draws hasCallback n s1 h
    obtain ⟨h1, h2, h3, h4⟩ := searchAfter_best L cfg parts draws hasCallback n s hs
    have hordn : orderAt cfg draws (L.sort areaGreater (expandParts parts)) n = some (expanded, cursor) := by
      cases n with
      | zero =>
        simp only [roundOrder, Nat.lt_irrefl, if_false] at hord
        rw [← hord]; exact h1
      | succ m =>
        simp only [roundOrder, Nat.succ_pos, if_true] at hord
        simp only [Nat.add_sub_cancel] at h1
        rw [orderAt, h1]
        exact hord
    have hattn := attemptAt_eq_some L cfg parts draws n expanded cursor att hordn hatt
    have hbest0 : 0 ≤ s.bestUtilization := by
      rcases h4 with ⟨_, h0⟩ | ⟨k, a, u, _, _, _, hu, hpos, _⟩
      · rw [h0]
      · rw [hu]; exact le_of_lt hpos
    refine ⟨by simpa using hordn, ?_, ?_, ?_⟩
    · intro k hk
      rcases Nat.lt_succ_iff_lt_or_eq.mp hk with hlt | rfl
      · exact h2 k hlt
      · exact ⟨_, _, hattn⟩
    · intro k hk a u hku
      have hle := roundResult_best_le cfg hasCallback n s expanded cursor att
      rcases Nat.lt_succ_iff_lt_or_eq.mp hk with hlt | rfl
      · exact le_trans (h3 k hlt a u hku) hle
      · rw [hattn] at hku
        simp only [Option.some.injEq, Prod.mk.injEq] at hku
        obtain ⟨_, rfl⟩ := hku
        simp only [roundResult]
        split
        · exact le_refl _
        · next hnot => exact not_lt.mp hnot
    · by_cases himp : attemptUtilization cfg expanded att > s.bestUtilization
      · right
        refine ⟨n, att, _, Nat.lt_succ_self n, hattn, ?_, ?_, lt_of_le_of_lt hbest0 himp, ?_⟩
        · simp only [roundResult]; rw [if_pos himp]
        · simp only [roundResult]; rw [if_pos himp]
        · intro j hj a1 u1 hj1
          exact lt_of_le_of_lt (h3 j hj a1 u1 hj1) himp
      · have e1 : (roundResult cfg hasCallback n s expanded cursor att).bestPlacements
            = s.bestPlacements := by
          simp only [roundResult]; rw [if_neg himp]
        have e2 : (roundResult cfg hasCallback n s expanded cursor att).bestUtilization
            = s.bestUtilization := by
          simp only [roundResult]; rw [if_neg himp]
        rw [e1, e2]
        rcases h4 with h0 | ⟨k, a, u, hk, hka, hp, hu, hpos, hearly⟩
        · exact Or.inl h0
        · exact Or.inr ⟨k, a, u, Nat.lt_succ_of_lt hk, hka, hp, hu, hpos, hearly⟩

end BestLemmas
end Nesting

namespace Nesting
section BestClaims
set_option linter.unusedSectionVars false
variable {K : Type} [LinearOrderedField K] [FloorRing K]

theorem nest_eq_some (L : StdLib K) (cfg : NestConfig K) (parts : List (NestPart K))
    (draws : Nat → K) (hasCallback : Bool) (r : NestResult K)
    (h : nest L cfg parts draws hasCallback = some r) :
    ∃ s, searchAfter L cfg parts draws hasCallback cfg.iterations.toNat = some s ∧
      assemble cfg s = some r := by
  unfold nest search at h
  cases hs : searchAfter L cfg parts draws hasCallback cfg.iterations.toNat with
  | none => rw [hs] at h; simp at h
  | some s => rw [hs] at h; exact ⟨s, rfl, h⟩

/-- C6, as amended. The result carries the best-scoring attempt when there is one: whenever
`nest` returns a result, every one of the `iterations` attempts was run, and either some attempt
has positive attempt utilization and `result.placements` is the placement list of the earliest
attempt whose utilization is the maximum over all attempts run, or every attempt has
utilization `0` and `result.placements` is empty. -/
theorem best_attempt_retained (L : StdLib K) (cfg : NestConfig K) (parts : List (NestPart K))
    (draws : Nat → K) (hasCallback : Bool) (r : NestResult K)
    (h : nest L cfg parts draws hasCallback = some r) :
    (∀ k, k < cfg.iterations.toNat → ∃ att u, attemptAt L cfg parts draws k = some (att, u)) ∧
      ((r.placements = [] ∧
          ∀ k, k < cfg.iterations.toNat → ∀ att u,
            attemptAt L cfg parts draws k = some (att, u) → u = 0) ∨
        ∃ k att u, k < cfg.iterations.toNat ∧ attemptAt L cfg parts draws k = some (att, u) ∧
          r.placements = att.placements ∧ 0 < u ∧
          (∀ j, j < cfg.iterations.toNat → ∀ att1 u1,
            attemptAt L cfg parts draws j = some (att1, u1) → u1 ≤ u) ∧
          (∀ j, j < k → ∀ att1 u1,
            attemptAt L cfg parts draws j = some (att1, u1) → u1 < u)) := by
  obtain ⟨s, hs, hr⟩ := nest_eq_some L cfg parts draws hasCallback r h
  obtain ⟨hp, _, _⟩ := assemble_fields cfg s r hr
  obtain ⟨_, h2, h3, h4⟩ := searchAfter_best L cfg parts draws hasCallback _ s hs
  refine ⟨h2, ?_⟩
  rcases h4 with ⟨hnil, h0⟩ | ⟨k, att, u, hk, hka, hbest, hu, hpos, hearly⟩
  · left
    refine ⟨by rw [hp, hnil], ?_⟩
    intro k hk att u hku
    have hle := h3 k hk att u hku
    rw [h0] at hle
    exact le_antisymm hle (attemptAt_utilization_nonneg L cfg parts draws k att u hku)
  · right
    refine ⟨k, att, u, hk, hka, by rw [hp, hbest], hpos, ?_, hearly⟩
    intro j hj att1 u1 hj1
    have := h3 j hj att1 u1 hj1
    rwa [hu] at this

/-- Three rounds on a 50 by 50 square and a thin triangle: the attempts have utilization
`27/200`, `27/100`, `27/200`, and the result carries the second. -/
theorem best_attempt_retained_witness :
    nest ratLib ⟨100, 100, 0, 1, 3, 1, 1⟩
        [⟨"A", square 0 0 50, 1⟩, ⟨"B", ⟨[0, 0, 100, 100, 100, 96]⟩, 1⟩] (fun _ => 0) true
      = some { placements := [⟨"B", 0, 0, 0, 0⟩, ⟨"A", 0, 50, 0, 0⟩], sheetsUsed := 1,
               utilization := [27 / 100], iterationsRun := 3 } ∧
    (∀ k, k < 3 → ∃ att u, attemptAt ratLib ⟨100, 100, 0, 1, 3, 1, 1⟩
        [⟨"A", square 0 0 50, 1⟩, ⟨"B", ⟨[0, 0, 100, 100, 100, 96]⟩, 1⟩] (fun _ => 0) k
          = some (att, u)) ∧
    (List.range 3).map (fun k => (attemptAt ratLib ⟨100, 100, 0, 1, 3, 1, 1⟩
        [⟨"A", square 0 0 50, 1⟩, ⟨"B", ⟨[0, 0, 100, 100, 100, 96]⟩, 1⟩] (fun _ => 0) k).map
          fun a => a.2) = [some (27 / 200), some (27 / 100), some (27 / 200)] :=
  ⟨by decide!,
    (best_attempt_retained ratLib ⟨100, 100, 0, 1, 3, 1, 1⟩
      [⟨"A", square 0 0 50, 1⟩, ⟨"B", ⟨[0, 0, 100, 100, 100, 96]⟩, 1⟩] (fun _ => 0) true
      { placements := [⟨"B", 0, 0, 0, 0⟩, ⟨"A", 0, 50, 0, 0⟩], sheetsUsed := 1,
        utilization := [27 / 100], iterationsRun := 3 } (by decide!)).1,
    by decide!⟩

/-- C7. `sheetsUsed` counts the sheets of the retained attempt: whenever `nest` returns a
result, (1) in every attempt of the run the placement list uses exactly the sheets the attempt
opened (`1 + max sheetIndex` is their number), and in every prefix of the list the sheet
indices that occur are exactly `0, 1, ...` below the number of sheets the prefix uses, so
every opened sheet holds a placement and indices first appear in increasing order;
(2) `result.sheetsUsed` is `1 + max sheetIndex` over `result.placements`, is `0` when
`result.placements` is empty, and otherwise is the number of sheets opened by the retained
attempt. -/
theorem sheets_used_counts_sheets (L : StdLib K) (cfg : NestConfig K)
    (parts : List (NestPart K)) (draws : Nat → K) (hasCallback : Bool) (r : NestResult K)
    (h : nest L cfg parts draws hasCallback = some r) :
    (∀ k att u, attemptAt L cfg parts draws k = some (att, u) →
        sheetsUsedOf att.placements = att.sheetOccupancy.length ∧
        ∀ n s, s < sheetsUsedOf (att.placements.take n)
          ↔ ∃ p ∈ att.placements.take n, p.sheetIndex = s) ∧
      r.sheetsUsed = sheetsUsedOf r.placements ∧
      (r.placements = [] → r.sheetsUsed = 0) ∧
      (r.placements = [] ∨
        ∃ k att u, k < cfg.iterations.toNat ∧ attemptAt L cfg parts draws k = some (att, u) ∧
          r.placements = att.placements ∧ r.sheetsUsed = att.sheetOccupancy.length) := by
  obtain ⟨s, hs, hr⟩ := nest_eq_some L cfg parts draws hasCallback r h
  obtain ⟨hp, hu, _⟩ := assemble_fields cfg s r hr
  obtain ⟨_, _, _, h4⟩ := searchAfter_best L cfg parts draws hasCallback _ s hs
  have hatt : ∀ k att u, attemptAt L cfg parts draws k = some (att, u) →
      sheetsUsedOf att.placements = att.sheetOccupancy.length ∧
      ∀ n s, s < sheetsUsedOf (att.placements.take n)
        ↔ ∃ p ∈ att.placements.take n, p.sheetIndex = s := by
    intro k att u hk
    unfold attemptAt at hk
    cases hord : orderAt cfg draws (L.sort areaGreater (expandParts parts)) k with
    | none => rw [hord] at hk; simp at hk
    | some ec =>
      obtain ⟨e, c⟩ := ec
      rw [hord] at hk
      simp only [Option.map_eq_some', Prod.mk.injEq] at hk
      obtain ⟨a, ha, rfl, _⟩ := hk
      exact runAttempt_sheets L cfg e a ha
  refine ⟨hatt, by rw [hu, hp], ?_, ?_⟩
  · intro hnil
    rw [hu, ← hp, hnil]
    rfl
  · rcases h4 with ⟨hnil, _⟩ | ⟨k, att, u, hk, hka, hbest, _, _, _⟩
    · exact Or.inl (by rw [hp, hnil])
    · right
      refine ⟨k, att, u, hk, hka, by rw [hp, hbest], ?_⟩
      rw [hu, hbest]
      exact (hatt k att u hka).1

/-- One round on five squares of side 7 on a 14 by 14 sheet: five sheets are opened and
`sheetsUsed = 5`. -/
theorem sheets_used_counts_sheets_witness :
    nest ratLib ⟨14, 14, 0, 1, 1, 1, 0⟩ [⟨"sq", square 0 0 7, 5⟩] (fun _ => 0) true
      = some { placements := [⟨"sq", 0, 0, 0, 0⟩, ⟨"sq", 1, 0, 0, 0⟩, ⟨"sq", 2, 0, 0, 0⟩,
                              ⟨"sq", 3, 0, 0, 0⟩, ⟨"sq", 4, 0, 0, 0⟩]
               sheetsUsed := 5
               utilization := [1 / 4, 1 / 4, 1 / 4, 1 / 4, 1 / 4]
               iterationsRun := 1 } ∧
    (5 : Nat) = sheetsUsedOf ([⟨"sq", 0, 0, 0, 0⟩, ⟨"sq", 1, 0, 0, 0⟩, ⟨"sq", 2, 0, 0, 0⟩,
      ⟨"sq", 3, 0, 0, 0⟩, ⟨"sq", 4, 0, 0, 0⟩] : List (Placement ℚ)) :=
  ⟨by decide!,
    (sheets_used_counts_sheets ratLib ⟨14, 14, 0, 1, 1, 1, 0⟩ [⟨"sq", square 0 0 7, 5⟩]
      (fun _ => 0) true
      { placements := [⟨"sq", 0, 0, 0, 0⟩, ⟨"sq", 1, 0, 0, 0⟩, ⟨"sq", 2, 0, 0, 0⟩,
                       ⟨"sq", 3, 0, 0, 0⟩, ⟨"sq", 4, 0, 0, 0⟩]
        sheetsUsed := 5
        utilization := [1 / 4, 1 / 4, 1 / 4, 1 / 4, 1 / 4]
        iterationsRun := 1 } (by decide!)).2.1⟩

end BestClaims

/-- C6, counterexample. One round on a bow-tie polygon, whose shoelace area is `0`: the only
attempt places it on sheet 0 and has utilization `0`, the maximum over all attempts, but the
result carries no placement, so `result.placements` is not the list of any attempt. -/
theorem zero_utilization_attempt_dropped :
    attemptAt ratLib ⟨100, 100, 0, 1, 1, 1, 0⟩ [⟨"bow", ⟨[0, 0, 10, 10, 10, 0, 0, 10]⟩, 1⟩]
        (fun _ => 0) 0
      = some (⟨[⟨"bow", 0, 0, 0, 0⟩], [[(0, 0)]]⟩, 0) ∧
    nest ratLib ⟨100, 100, 0, 1, 1, 1, 0⟩ [⟨"bow", ⟨[0, 0, 10, 10, 10, 0, 0, 10]⟩, 1⟩]
        (fun _ => 0) false
      = some { placements := [], sheetsUsed := 0, utilization := [], iterationsRun := 1 } := by
  refine ⟨by decide!, by decide!⟩

end Nesting

namespace Nesting
section Totality
set_option linter.unusedSectionVars false
variable {K : Type} [LinearOrderedField K] [FloorRing K]

/-! ### The shuffle does not fault on a non-empty list -/

theorem set_set_perm {α : Type} (v : List α) (i j : Nat) (hi : i < v.length)
    (hj : j < v.length) : ((v.set i v[j]).set j v[i]).Perm v := by
  classical
  rcases Nat.decEq i j with hne | rfl
  · rw [List.perm_iff_count]
    intro b
    have hj1 : j < (v.set i v[j]).length := by simpa using hj
    rw [List.count_set _ _ _ _ hj1, List.count_set _ _ _ _ hi, List.getElem_set, if_neg hne]
    have hA : (if v[i] == b then 1 else 0) ≤ v.count b := by
      split
      · next h =>
        have : b ∈ v := by
          have e : v[i] = b := by simpa using h
          rw [← e]; exact List.getElem_mem hi
        exact List.count_pos_iff.mpr this
      · exact Nat.zero_le _
    omega
  · have e : v.set i v[i] = v := by
      apply List.ext_getElem (by simp)
      intro n h1 h2
      rw [List.getElem_set]
      split
      · next h => subst h; rfl
      · rfl
    rw [List.set_set, e]

theorem swapAt_some {α : Type} (v : List α) (i j : Nat) (hi : i < v.length) (hj : j < v.length) :
    ∃ v1, swapAt v i j = some v1 ∧ v1.Perm v := by
  refine ⟨(v.set i v[j]).set j v[i], ?_, set_set_perm v i j hi hj⟩
  unfold swapAt
  rw [List.getElem?_eq_getElem hi, List.getElem?_eq_getElem hj]

/-- The swap target drawn for loop variable `i` is at most `i`. -/
theorem swap_target_le (d : K) (hd0 : 0 ≤ d) (hd1 : d < 1) (i : Nat) :
    ⌊d * (((i + 1) % sizeModulus : Nat) : K)⌋₊ ≤ i := by
  have hx : (((i + 1) % sizeModulus : Nat) : K) ≤ ((i + 1 : Nat) : K) := by
    exact_mod_cast Nat.mod_le _ _
  have hx0 : (0 : K) ≤ (((i + 1) % sizeModulus : Nat) : K) := Nat.cast_nonneg _
  have hlt : d * (((i + 1) % sizeModulus : Nat) : K) < ((i + 1 : Nat) : K) := by
    have h1 : d * (((i + 1) % sizeModulus : Nat) : K) ≤ d * ((i + 1 : Nat) : K) :=
      mul_le_mul_of_nonneg_left hx hd0
    have h2 : d * ((i + 1 : Nat) : K) < 1 * ((i + 1 : Nat) : K) := by
      apply mul_lt_mul_of_pos_right hd1
      exact_mod_cast Nat.succ_pos i
    linarith
  have := (Nat.floor_lt (mul_nonneg hd0 hx0)).mpr hlt
  omega

theorem mutateFrom_some {α : Type} (mutationRate : K) (draws : Nat → K)
    (hdraws : ∀ n, 0 ≤ draws n ∧ draws n < 1) :
    ∀ (i : Nat) (v : List α) (cursor : Nat), i < v.length →
      ∃ v1 c1, mutateFrom mutationRate draws i (v, cursor) = some (v1, c1) ∧ v1.Perm v
  | 0, v, cursor, _ => ⟨v, cursor, rfl, List.Perm.refl _⟩
  | i + 1, v, cursor, hi => by
    unfold mutateFrom
    split
    · have hj := swap_target_le (draws (cursor + 1)) (hdraws _).1 (hdraws _).2 (i + 1)
      obtain ⟨v1, hv1, hp1⟩ := swapAt_some v (i + 1)
        ⌊draws (cursor + 1) * (((i + 1 + 1) % sizeModulus : Nat) : K)⌋₊ hi (by omega)
      simp only
      rw [hv1]
      obtain ⟨v2, c2, h2, hp2⟩ := mutateFrom_some mutationRate draws hdraws i v1 (cursor + 2)
        (by rw [hp1.length_eq]; omega)
      exact ⟨v2, c2, h2, hp2.trans hp1⟩
    · exact mutateFrom_some mutationRate draws hdraws i v (cursor + 1) (by omega)

/-- The shuffle of a non-empty list with draws in `[0, 1)` does not fault and returns a
rearrangement of the list. -/
theorem mutate_some {α : Type} (mutationRate : K) (draws : Nat → K)
    (hdraws : ∀ n, 0 ≤ draws n ∧ draws n < 1) (v : List α) (cursor : Nat) (hne : v ≠ []) :
    ∃ v1 c1, mutate mutationRate draws (v, cursor) = some (v1, c1) ∧ v1.Perm v := by
  unfold mutate
  apply mutateFrom_some mutationRate draws hdraws
  have hlen : 0 < v.length := List.length_pos.mpr hne
  have hM : 0 < sizeModulus := by unfold sizeModulus; norm_num
  simp only
  rcases Nat.lt_or_ge v.length (sizeModulus + 1) with h | h
  · have e : v.length + sizeModulus - 1 = v.length - 1 + sizeModulus := by omega
    rw [e, Nat.add_mod_right, Nat.mod_eq_of_lt (by omega)]
    omega
  · exact lt_of_lt_of_le (Nat.mod_lt _ hM) (by omega)

end Totality
end Nesting

namespace Nesting


section PlaceTotal
set_option linter.unusedSectionVars false
variable {K : Type} [LinearOrderedField K] [FloorRing K]

theorem rotatePoints_some (cosA sinA cx cy : K) :
    ∀ (n : Nat) (pts : List K), pts.length = 2 * n →
      ∃ out, Polygon.rotatePoints cosA sinA cx cy pts = some out
  | 0, pts, h => by
    have : pts = [] := List.length_eq_zero.mp (by simpa using h)
    subst this
    exact ⟨[], rfl⟩
  | n + 1, pts, h => by
    match pts, h with
    | px :: py :: rest, h =>
      have hr : rest.length = 2 * n := by simp at h; omega
      obtain ⟨out, hout⟩ := rotatePoints_some cosA sinA cx cy n rest hr
      exact ⟨_, by rw [Polygon.rotatePoints, hout]; rfl⟩

/-- Rotation of a polygon with an even number of coordinates does not fault. -/
theorem rotated_some (L : StdLib K) (p : Polygon K) (angle : K)
    (h : p.points.length % 2 = 0) : ∃ q, p.rotated L angle = some q := by
  obtain ⟨out, hout⟩ := rotatePoints_some (L.cos angle) (L.sin angle)
    ((p.minX + p.maxX) / 2) ((p.minY + p.maxY) / 2) (p.points.length / 2) p.points (by omega)
  exact ⟨⟨out⟩, by unfold Polygon.rotated; simp only; rw [hout]; rfl⟩

/-- The rotation loop for one instance with an even number of coordinates does not fault; it
adds at most one placement, and exactly one when the instance fits at one of the angles. -/
theorem placeInstance_total (L : StdLib K) (cfg : NestConfig K) (partId : String)
    (polygon : Polygon K) (heven : polygon.points.length % 2 = 0) :
    ∀ (rotations : List K) (st : AttemptState K),
      ∃ st1, placeInstance L cfg partId polygon rotations st = some st1 ∧
        (st1.placements.length = st.placements.length + 1 ∨
          (st1 = st ∧ ∀ angle ∈ rotations, ∀ q, polygon.rotated L angle = some q →
            ¬ (q.width + cfg.spacing ≤ cfg.sheetWidth ∧
               q.height + cfg.spacing ≤ cfg.sheetHeight)))
  | [], st => ⟨st, rfl, Or.inr ⟨rfl, fun _ h => absurd h (List.not_mem_nil _)⟩⟩
  | rotation :: rest, st => by
    obtain ⟨q, hq⟩ := rotated_some L polygon rotation heven
    unfold placeInstance
    rw [hq]
    simp only
    cases htry : tryExistingSheets cfg (q.width + cfg.spacing) (q.height + cfg.spacing)
        st.sheetOccupancy 0 with
    | some found =>
      obtain ⟨idx, bx, by_⟩ := found
      exact ⟨_, rfl, Or.inl (by simp)⟩
    | none =>
      simp only
      split
      · exact ⟨_, rfl, Or.inl (by simp)⟩
      · next hnofit =>
        obtain ⟨st1, h1, h2⟩ := placeInstance_total L cfg partId polygon heven rest st
        refine ⟨st1, h1, ?_⟩
        rcases h2 with h2 | ⟨h2, h3⟩
        · exact Or.inl h2
        · refine Or.inr ⟨h2, ?_⟩
          intro angle hangle q1 hq1
          rcases List.mem_cons.mp hangle with rfl | hmem
          · rw [hq] at hq1
            simp only [Option.some.injEq] at hq1
            subst hq1
            exact hnofit
          · exact h3 angle hmem q1 hq1

/-- An attempt on instances that all have an even number of coordinates and all fit at some
generated angle does not fault and places every instance. -/
theorem placeAll_total (L : StdLib K) (cfg : NestConfig K) :
    ∀ (expanded : List (String × Polygon K)) (st : AttemptState K),
      (∀ inst ∈ expanded, inst.2.points.length % 2 = 0) →
      (∀ inst ∈ expanded, Fits L cfg inst.2) →
      ∃ st1, placeAll L cfg (rotationAngles L cfg) expanded st = some st1 ∧
        st1.placements.length = st.placements.length + expanded.length
  | [], st, _, _ => ⟨st, rfl, rfl⟩
  | inst :: rest, st, heven, hfit => by
    obtain ⟨st1, h1, h2⟩ := placeInstance_total L cfg inst.1 inst.2
      (heven inst (List.mem_cons_self _ _)) (rotationAngles L cfg) st
    have hplaced : st1.placements.length = st.placements.length + 1 := by
      rcases h2 with h2 | ⟨_, h3⟩
      · exact h2
      · obtain ⟨angle, hangle, q, hq, hfits⟩ := hfit inst (List.mem_cons_self _ _)
        exact absurd hfits (h3 angle hangle q hq)
    obtain ⟨st2, h4, h5⟩ := placeAll_total L cfg rest st1
      (fun i hi => heven i (List.mem_cons_of_mem _ hi))
      (fun i hi => hfit i (List.mem_cons_of_mem _ hi))
    refine ⟨st2, ?_, ?_⟩
    · rw [placeAll, h1]; exact h4
    · rw [h5, hplaced, List.length_cons]; omega

theorem mem_expandParts (parts : List (NestPart K)) (inst : String × Polygon K)
    (h : inst ∈ expandParts parts) : ∃ part ∈ parts, inst = (part.id, part.polygon) := by
  induction parts with
  | nil => simp [expandParts] at h
  | cons part rest ih =>
    rw [expandParts, List.mem_append] at h
    rcases h with h | h
    · exact ⟨part, List.mem_cons_self _ _, (List.mem_replicate.mp h).2⟩
    · obtain ⟨p, hp, he⟩ := ih h
      exact ⟨p, List.mem_cons_of_mem _ hp, he⟩

/-- The search loop on well-formed input: when `std::sort` permutes, every polygon has an even
number of coordinates and fits at some generated angle, the draws are in `[0, 1)`, and the
instance list is not empty or at most one round is run, no round faults, the order is a
rearrangement of the instances, and the retained best list is empty or has one placement per
instance. -/
theorem searchAfter_total (L : StdLib K) (hSort : L.SortPermutes) (cfg : NestConfig K)
    (parts : List (NestPart K)) (draws : Nat → K) (hasCallback : Bool)
    (heven : ∀ part ∈ parts, part.polygon.points.length % 2 = 0)
    (hfit : ∀ part ∈ parts, Fits L cfg part.polygon)
    (hdraws : ∀ n, 0 ≤ draws n ∧ draws n < 1) :
    ∀ n : Nat, (expandParts parts ≠ [] ∨ n ≤ 1) →
      ∃ s, searchAfter L cfg parts draws hasCallback n = some s ∧
        s.expanded.Perm (expandParts parts) ∧
        (s.bestPlacements = [] ∨ s.bestPlacements.length = s.expanded.length)
  | 0, _ => ⟨initSearch L parts, rfl, hSort _, Or.inl rfl⟩
  | n + 1, hn => by
    obtain ⟨s, hs, hperm, hbest⟩ := searchAfter_total L hSort cfg parts draws hasCallback heven
      hfit hdraws n (by rcases hn with h | h; exact Or.inl h; exact Or.inr (by omega))
    have hord : ∃ e c, roundOrder cfg draws n s = some (e, c) ∧ e.Perm (expandParts parts) := by
      unfold roundOrder
      split
      · next hpos =>
        have hne : s.expanded ≠ [] := by
          rcases hn with h | h
          · intro h0
            rw [h0] at hperm
            exact h (List.Perm.nil_eq hperm).symm
          · omega
        obtain ⟨v1, c1, h1, hp1⟩ := mutate_some cfg.mutationRate draws hdraws s.expanded
          s.cursor hne
        exact ⟨v1, c1, h1, hp1.trans hperm⟩
      · exact ⟨_, _, rfl, hperm⟩
    obtain ⟨e, c, hec, heperm⟩ := hord
    have he1 : ∀ inst ∈ e, inst.2.points.length % 2 = 0 := by
      intro inst hi
      obtain ⟨part, hp, rfl⟩ := mem_expandParts parts inst (heperm.subset hi)
      exact heven part hp
    have he2 : ∀ inst ∈ e, Fits L cfg inst.2 := by
      intro inst hi
      obtain ⟨part, hp, rfl⟩ := mem_expandParts parts inst (heperm.subset hi)
      exact hfit part hp
    obtain ⟨att, hatt, hlen⟩ := placeAll_total L cfg e ⟨[], []⟩ he1 he2
    refine ⟨roundResult cfg hasCallback n s e c att, ?_, heperm, ?_⟩
    · rw [searchAfter, hs]
      simp only
      unfold iterStep
      unfold roundOrder at hec
      rw [hec]
      simp only
      unfold runAttempt
      rw [hatt]
      simp [roundResult]
    · simp only [roundResult]
      split
      · right; simpa using hlen
      · rcases hbest with h | h
        · exact Or.inl h
        · right; rw [h, heperm.length_eq, hperm.length_eq]

/-- On such well-formed input `nest` returns a result. -/
theorem nest_returns (L : StdLib K) (hSort : L.SortPermutes) (cfg : NestConfig K)
    (parts : List (NestPart K)) (draws : Nat → K) (hasCallback : Bool)
    (heven : ∀ part ∈ parts, part.polygon.points.length % 2 = 0)
    (hfit : ∀ part ∈ parts, Fits L cfg part.polygon)
    (hdraws : ∀ n, 0 ≤ draws n ∧ draws n < 1)
    (hne : expandParts parts ≠ [] ∨ cfg.iterations ≤ 1) :
    ∃ r, nest L cfg parts draws hasCallback = some r := by
  obtain ⟨s, hs, _, hbest⟩ := searchAfter_total L hSort cfg parts draws hasCallback heven hfit
    hdraws cfg.iterations.toNat (by rcases hne with h | h; exact Or.inl h; exact Or.inr (by omega))
  rcases hbest with h | h
  · refine ⟨⟨s.bestPlacements, sheetsUsedOf s.bestPlacements, [], s.iterationsRun⟩, ?_⟩
    rw [nest, search, hs]
    simp only [assemble, h, sheetsUsedOf_nil, sheetUtilizations]
    rfl
  · obtain ⟨r, hr⟩ := assemble_some cfg s (le_of_eq h.symm)
    exact ⟨r, by rw [nest, search, hs]; exact hr⟩

end PlaceTotal
end Nesting

namespace Nesting
section ShuffleClaim
set_option linter.unusedSectionVars false
variable {K : Type} [LinearOrderedField K] [FloorRing K]

/-- The shuffle of the empty list faults as soon as a draw is below the mutation rate: the loop
variable starts at `size() - 1`, which wraps to the largest `size_t`, and the swap indexes the
empty vector there. -/
theorem mutate_nil_faults {α : Type} (mutationRate : K) (draws : Nat → K) (cursor : Nat)
    (h : draws cursor < mutationRate) :
    mutate mutationRate draws (([] : List α), cursor) = none := by
  have hstart : (0 + sizeModulus - 1) % sizeModulus = 4294967294 + 1 := by decide
  unfold mutate
  simp only [List.length_nil]
  rw [hstart, mutateFrom, if_pos h]
  simp [swapAt]

end ShuffleClaim

/-- C20, failing input. The empty instance list (an empty parts list, or one part of quantity
`0`), `mutationRate = 1`, two rounds, every draw `0`: before the second attempt the loop variable
starts at `size() - 1 = 2^32 - 1`, the first draw is below the rate, and the swap reads and
writes `expanded[2^32 - 1]` of an empty vector. -/
theorem mutation_faults_on_empty_list :
    expandParts ([] : List (NestPart ℚ)) = [] ∧
    expandParts [(⟨"a", square 0 0 10, 0⟩ : NestPart ℚ)] = [] ∧
    mutate (1 : ℚ) (fun _ => 0) (([] : List (String × Polygon ℚ)), 0) = none ∧
    nest ratLib ⟨100, 100, 0, 1, 2, 1, 1⟩ [] (fun _ => 0) false = none := by
  refine ⟨by decide!, by decide!, by decide!, by decide!⟩

end Nesting

namespace Nesting
section PairsLemmas
set_option linter.unusedSectionVars false
variable {K : Type} [LinearOrderedField K]

theorem rotatePoints_eq_mapPairs (cosA sinA cx cy : K) :
    ∀ pts : List K, Polygon.rotatePoints cosA sinA cx cy pts
      = mapPairs (fun px py => (px - cx) * cosA - (py - cy) * sinA + cx)
          (fun px py => (px - cx) * sinA + (py - cy) * cosA + cy) pts
  | [] => rfl
  | [_] => rfl
  | px :: py :: rest => by
    rw [Polygon.rotatePoints, mapPairs, rotatePoints_eq_mapPairs cosA sinA cx cy rest]

theorem translatePoints_eq_mapPairs (dx dy : K) :
    ∀ pts : List K, Polygon.translatePoints dx dy pts
      = mapPairs (fun px _ => px + dx) (fun _ py => py + dy) pts
  | [] => rfl
  | [_] => rfl
  | px :: py :: rest => by
    rw [Polygon.translatePoints, mapPairs, translatePoints_eq_mapPairs dx dy rest]

/-- The loop over pairs does not fault on an even number of coordinates. -/
theorem mapPairs_some (F G : K → K → K) :
    ∀ (n : Nat) (pts : List K), pts.length = 2 * n → ∃ out, mapPairs F G pts = some out
  | 0, pts, h => by
    have : pts = [] := List.length_eq_zero.mp (by simpa using h)
    subst this
    exact ⟨[], rfl⟩
  | n + 1, pts, h => by
    match pts, h with
    | px :: py :: rest, h =>
      have hr : rest.length = 2 * n := by simp at h; omega
      obtain ⟨out, hout⟩ := mapPairs_some F G n rest hr
      exact ⟨_, by rw [mapPairs, hout]; rfl⟩

/-- The loop over pairs faults on an odd number of coordinates. -/
theorem mapPairs_none (F G : K → K → K) :
    ∀ (n : Nat) (pts : List K), pts.length = 2 * n + 1 → mapPairs F G pts = none
  | 0, pts, h => by
    match pts, h with
    | [_], _ => rfl
  | n + 1, pts, h => by
    match pts, h with
    | px :: py :: rest, h =>
      have hr : rest.length = 2 * n + 1 := by simp at h; omega
      rw [mapPairs, mapPairs_none F G n rest hr]
      rfl

/-- The output of the loop over pairs: same length, and pair `i` is the image of pair `i`. -/
theorem mapPairs_spec (F G : K → K → K) :
    ∀ (pts out : List K), mapPairs F G pts = some out →
      out.length = pts.length ∧ pts.length % 2 = 0 ∧
      ∀ i, i * 2 + 1 < pts.length →
        out.getD (i * 2) 0 = F (pts.getD (i * 2) 0) (pts.getD (i * 2 + 1) 0) ∧
        out.getD (i * 2 + 1) 0 = G (pts.getD (i * 2) 0) (pts.getD (i * 2 + 1) 0)
  | [], out, h => by
    simp only [mapPairs, Option.some.injEq] at h
    subst h
    exact ⟨rfl, rfl, fun i hi => absurd hi (by simp)⟩
  | [_], out, h => by simp [mapPairs] at h
  | px :: py :: rest, out, h => by
    rw [mapPairs] at h
    cases hrest : mapPairs F G rest with
    | none => rw [hrest] at h; simp at h
    | some tl =>
      rw [hrest] at h
      simp only [Option.map_some', Option.some.injEq] at h
      subst h
      obtain ⟨hlen, hev, hget⟩ := mapPairs_spec F G rest tl hrest
      refine ⟨by simp [hlen], by simp only [List.length_cons]; omega, ?_⟩
      intro i hi
      cases i with
      | zero => simp
      | succ j =>
        have hj : j * 2 + 1 < rest.length := by simp only [List.length_cons] at hi; omega
        have e1 : (j + 1) * 2 = j * 2 + 1 + 1 := by ring
        rw [e1]
        simp only [List.getD_cons_succ]
        exact hget j hj

theorem evenEntries_mapPairs (F G : K → K → K) :
    ∀ (pts out : List K), mapPairs F G pts = some out →
      evenEntries out = (evenEntries pts).zipWith F (oddEntries pts) ∧
      oddEntries out = (evenEntries pts).zipWith G (oddEntries pts)
  | [], out, h => by
    simp only [mapPairs, Option.some.injEq] at h
    subst h
    exact ⟨rfl, rfl⟩
  | [_], out, h => by simp [mapPairs] at h
  | px :: py :: rest, out, h => by
    rw [mapPairs] at h
    cases hrest : mapPairs F G rest with
    | none => rw [hrest] at h; simp at h
    | some tl =>
      rw [hrest] at h
      simp only [Option.map_some', Option.some.injEq] at h
      subst h
      obtain ⟨h1, h2⟩ := evenEntries_mapPairs F G rest tl hrest
      simp [evenEntries, oddEntries, h1, h2]

/-- Translation of a polygon with an even number of coordinates does not fault. -/
theorem translated_some (p : Polygon K) (dx dy : K) (h : p.points.length % 2 = 0) :
    ∃ q, p.translated dx dy = some q := by
  obtain ⟨out, hout⟩ := mapPairs_some (fun px _ => px + dx) (fun _ py => py + dy)
    (p.points.length / 2) p.points (by omega)
  exact ⟨⟨out⟩, by rw [Polygon.translated, translatePoints_eq_mapPairs, hout]; rfl⟩

end PairsLemmas
end Nesting

namespace Nesting
section ShoelaceLemmas
set_option linter.unusedSectionVars false
variable {K : Type} [LinearOrderedField K]

theorem foldl_shoelaceStep (pts : List K) (n : Nat) :
    ∀ (m : Nat) (init : K), (List.range m).foldl (Polygon.shoelaceStep pts n) init
      = init + ∑ i in Finset.range m,
          (pts.getD (i * 2) 0 * pts.getD ((i + 1) % n * 2 + 1) 0
            - pts.getD ((i + 1) % n * 2) 0 * pts.getD (i * 2 + 1) 0)
  | 0, init => by simp
  | m + 1, init => by
    rw [List.range_succ, List.foldl_append, foldl_shoelaceStep pts n m init, Finset.sum_range_succ]
    simp only [List.foldl_cons, List.foldl_nil, Polygon.shoelaceStep]
    ring

/-- The area is half the absolute value of the shoelace sum of the points. -/
theorem area_eq_shoelaceSum (p : Polygon K) :
    p.area = |shoelaceSum (p.points.length / 2) (fun i => p.points.getD (i * 2) 0)
      (fun i => p.points.getD (i * 2 + 1) 0)| / 2 := by
  unfold Polygon.area shoelaceSum
  simp only
  rw [foldl_shoelaceStep, zero_add]

/-- A sum over a full turn does not change when every index is moved to its successor. -/
theorem sum_cyclic_shift (f : Nat → K) :
    ∀ n : Nat, ∑ i in Finset.range n, f ((i + 1) % n) = ∑ i in Finset.range n, f i
  | 0 => by simp
  | n + 1 => by
    rw [Finset.sum_range_succ, Nat.mod_self, Finset.sum_range_succ' f n]
    congr 1
    apply Finset.sum_congr rfl
    intro i hi
    rw [Nat.mod_eq_of_lt (by have := Finset.mem_range.mp hi; omega)]

/-- The shoelace sum does not change when all points are shifted by `(dx, dy)`. -/
theorem shoelaceSum_shift (n : Nat) (X Y : Nat → K) (dx dy : K) :
    shoelaceSum n (fun i => X i + dx) (fun i => Y i + dy) = shoelaceSum n X Y := by
  unfold shoelaceSum
  have hX := sum_cyclic_shift X n
  have hY := sum_cyclic_shift Y n
  have e : ∀ i, (X i + dx) * (Y ((i + 1) % n) + dy) - (X ((i + 1) % n) + dx) * (Y i + dy)
      = (X i * Y ((i + 1) % n) - X ((i + 1) % n) * Y i)
        + (dy * X i - dy * X ((i + 1) % n)) + (dx * Y ((i + 1) % n) - dx * Y i) := by
    intro i; ring
  simp only [e]
  simp only [Finset.sum_add_distrib, Finset.sum_sub_distrib, ← Finset.mul_sum, hX, hY]
  ring

/-- The shoelace sum of the points turned by `(c, s)` is `c² + s²` times the shoelace sum. -/
theorem shoelaceSum_turn (n : Nat) (X Y : Nat → K) (c s : K) :
    shoelaceSum n (fun i => X i * c - Y i * s) (fun i => X i * s + Y i * c)
      = (c ^ 2 + s ^ 2) * shoelaceSum n X Y := by
  unfold shoelaceSum
  rw [Finset.mul_sum]
  apply Finset.sum_congr rfl
  intro i _
  ring

/-- Two point sequences that agree on the first `n` indices have the same shoelace sum. -/
theorem shoelaceSum_congr (n : Nat) (X Y X1 Y1 : Nat → K)
    (hX : ∀ i, i < n → X1 i = X i) (hY : ∀ i, i < n → Y1 i = Y i) :
    shoelaceSum n X1 Y1 = shoelaceSum n X Y := by
  unfold shoelaceSum
  apply Finset.sum_congr rfl
  intro i hi
  have hi' : i < n := Finset.mem_range.mp hi
  have hj : (i + 1) % n < n := Nat.mod_lt _ (by omega)
  rw [hX i hi', hY i hi', hX _ hj, hY _ hj]

/-- The shoelace sum of the output of a loop over pairs. -/
theorem shoelaceSum_mapPairs (F G : K → K → K) (pts out : List K)
    (h : mapPairs F G pts = some out) :
    shoelaceSum (out.length / 2) (fun i => out.getD (i * 2) 0) (fun i => out.getD (i * 2 + 1) 0)
      = shoelaceSum (pts.length / 2)
          (fun i => F (pts.getD (i * 2) 0) (pts.getD (i * 2 + 1) 0))
          (fun i => G (pts.getD (i * 2) 0) (pts.getD (i * 2 + 1) 0)) := by
  obtain ⟨hlen, _, hget⟩ := mapPairs_spec F G pts out h
  rw [hlen]
  apply shoelaceSum_congr
  · intro i hi; exact (hget i (by omega)).1
  · intro i hi; exact (hget i (by omega)).2

end ShoelaceLemmas
end Nesting

namespace Nesting
section GeometryClaims
set_option linter.unusedSectionVars false
variable {K : Type} [LinearOrderedField K]

/-- Rotation of a polygon with an even number of coordinates is defined. -/
theorem rotated_defined (L : StdLib K) (p : Polygon K) (angle : K)
    (h : p.points.length % 2 = 0) : ∃ q, p.rotated L angle = some q := by
  obtain ⟨out, hout⟩ := mapPairs_some
    (fun px py => (px - (p.minX + p.maxX) / 2) * L.cos angle
      - (py - (p.minY + p.maxY) / 2) * L.sin angle + (p.minX + p.maxX) / 2)
    (fun px py => (px - (p.minX + p.maxX) / 2) * L.sin angle
      + (py - (p.minY + p.maxY) / 2) * L.cos angle + (p.minY + p.maxY) / 2)
    (p.points.length / 2) p.points (by omega)
  exact ⟨⟨out⟩, by rw [Polygon.rotated, rotatePoints_eq_mapPairs, hout]; rfl⟩

/-- With `cos = 1` and `sin = 0` the loop over pairs of the rotation returns its input. -/
theorem mapPairs_turn_one_zero (cx cy : K) :
    ∀ (n : Nat) (pts : List K), pts.length = 2 * n →
      mapPairs (fun px py => (px - cx) * 1 - (py - cy) * 0 + cx)
        (fun px py => (px - cx) * 0 + (py - cy) * 1 + cy) pts = some pts
  | 0, pts, h => by
    have : pts = [] := List.length_eq_zero.mp (by simpa using h)
    subst this; rfl
  | n + 1, pts, h => by
    match pts, h with
    | px :: py :: rest, h =>
      have hr : rest.length = 2 * n := by simp at h; omega
      rw [mapPairs, mapPairs_turn_one_zero cx cy n rest hr]
      simp

/-- C11. Area is translation-invariant: for every polygon with an even number of coordinates and
all `dx`, `dy`, `translated(p, dx, dy)` is defined and has the area of `p` (shoelace area, exact
in the field of numbers). -/
theorem area_translation_invariant (p : Polygon K) (dx dy : K)
    (heven : p.points.length % 2 = 0) :
    ∃ q, p.translated dx dy = some q ∧ q.area = p.area := by
  obtain ⟨q, hq⟩ := translated_some p dx dy heven
  refine ⟨q, hq, ?_⟩
  rw [Polygon.translated, translatePoints_eq_mapPairs] at hq
  cases hout : mapPairs (fun px _ => px + dx) (fun _ py => py + dy) p.points with
  | none => rw [hout] at hq; simp at hq
  | some out =>
    rw [hout] at hq
    simp only [Option.map_some', Option.some.injEq] at hq
    subst hq
    rw [area_eq_shoelaceSum, area_eq_shoelaceSum, shoelaceSum_mapPairs _ _ _ _ hout]
    exact congrArg (fun v => |v| / 2) (shoelaceSum_shift _ _ _ dx dy)

/-- Translation of a 25 by 25 square by `(7, -3)` keeps the area `625`. -/
theorem area_translation_invariant_witness :
    ∃ q, (square (3 : ℚ) 4 25).translated 7 (-3) = some q ∧ q.area = (square (3 : ℚ) 4 25).area :=
  area_translation_invariant (square (3 : ℚ) 4 25) 7 (-3) (by decide)

/-- C12. Area is rotation-invariant: for every polygon with an even number of coordinates and
every angle `a` at which `cos² a + sin² a = 1`, `rotated(p, a)`, which turns every point about
the centre of the bounds of `p`, is defined and has the area of `p` (exact in the field of
numbers). -/
theorem area_rotation_invariant (L : StdLib K) (p : Polygon K) (a : K)
    (heven : p.points.length % 2 = 0) (hunit : L.UnitAt a) :
    ∃ q, p.rotated L a = some q ∧ q.area = p.area := by
  obtain ⟨q, hq⟩ := rotated_defined L p a heven
  refine ⟨q, hq, ?_⟩
  rw [Polygon.rotated, rotatePoints_eq_mapPairs] at hq
  cases hout : mapPairs
      (fun px py => (px - (p.minX + p.maxX) / 2) * L.cos a - (py - (p.minY + p.maxY) / 2) * L.sin a
        + (p.minX + p.maxX) / 2)
      (fun px py => (px - (p.minX + p.maxX) / 2) * L.sin a + (py - (p.minY + p.maxY) / 2) * L.cos a
        + (p.minY + p.maxY) / 2) p.points with
  | none => rw [hout] at hq; simp at hq
  | some out =>
    rw [hout] at hq
    simp only [Option.map_some', Option.some.injEq] at hq
    subst hq
    rw [area_eq_shoelaceSum, area_eq_shoelaceSum, shoelaceSum_mapPairs _ _ _ _ hout]
    have h1 := shoelaceSum_shift (p.points.length / 2)
      (fun i => (p.points.getD (i * 2) 0 - (p.minX + p.maxX) / 2) * L.cos a
        - (p.points.getD (i * 2 + 1) 0 - (p.minY + p.maxY) / 2) * L.sin a)
      (fun i => (p.points.getD (i * 2) 0 - (p.minX + p.maxX) / 2) * L.sin a
        + (p.points.getD (i * 2 + 1) 0 - (p.minY + p.maxY) / 2) * L.cos a)
      ((p.minX + p.maxX) / 2) ((p.minY + p.maxY) / 2)
    have h2 := shoelaceSum_turn (p.points.length / 2)
      (fun i => p.points.getD (i * 2) 0 - (p.minX + p.maxX) / 2)
      (fun i => p.points.getD (i * 2 + 1) 0 - (p.minY + p.maxY) / 2) (L.cos a) (L.sin a)
    have h3 := shoelaceSum_shift (p.points.length / 2) (fun i => p.points.getD (i * 2) 0)
      (fun i => p.points.getD (i * 2 + 1) 0) (-((p.minX + p.maxX) / 2))
      (-((p.minY + p.maxY) / 2))
    simp only [← sub_eq_add_neg] at h3
    unfold StdLib.UnitAt at hunit
    rw [hunit, one_mul, h3] at h2
    exact congrArg (fun v => |v| / 2) (h1.trans h2)

/-- Rotation of the triangle `(0,0), (2,0), (0,1)` by the angle with `cos = 3/5`, `sin = 4/5`
keeps the area `1`. -/
theorem area_rotation_invariant_witness :
    ∃ q, (Polygon.mk [(0 : ℚ), 0, 2, 0, 0, 1]).rotated circleLib (1 / 2) = some q ∧
      q.area = (Polygon.mk [(0 : ℚ), 0, 2, 0, 0, 1]).area :=
  area_rotation_invariant circleLib ⟨[0, 0, 2, 0, 0, 1]⟩ (1 / 2) (by decide) (by unfold StdLib.UnitAt; decide!)

theorem foldl_min_add (d : K) : ∀ (l : List K) (a : K),
    (l.map (· + d)).foldl (fun m v => min m v) (a + d) = l.foldl (fun m v => min m v) a + d
  | [], _ => rfl
  | v :: rest, a => by
    rw [List.map_cons, List.foldl_cons, List.foldl_cons, min_add_add_right]
    exact foldl_min_add d rest (min a v)

theorem foldl_max_add (d : K) : ∀ (l : List K) (a : K),
    (l.map (· + d)).foldl (fun m v => max m v) (a + d) = l.foldl (fun m v => max m v) a + d
  | [], _ => rfl
  | v :: rest, a => by
    rw [List.map_cons, List.foldl_cons, List.foldl_cons, max_add_add_right]
    exact foldl_max_add d rest (max a v)

theorem entries_translatePoints (dx dy : K) :
    ∀ (pts out : List K), Polygon.translatePoints dx dy pts = some out →
      evenEntries out = (evenEntries pts).map (· + dx) ∧
      oddEntries out = (oddEntries pts).map (· + dy)
  | [], out, h => by
    simp only [Polygon.translatePoints, Option.some.injEq] at h
    subst h
    exact ⟨rfl, rfl⟩
  | [_], out, h => by simp [Polygon.translatePoints] at h
  | px :: py :: rest, out, h => by
    rw [Polygon.translatePoints] at h
    cases hrest : Polygon.translatePoints dx dy rest with
    | none => rw [hrest] at h; simp at h
    | some tl =>
      rw [hrest] at h
      simp only [Option.map_some', Option.some.injEq] at h
      subst h
      obtain ⟨h1, h2⟩ := entries_translatePoints dx dy rest tl hrest
      simp [evenEntries, oddEntries, h1, h2]

/-- C13, as amended. Bounds commute with translation for non-empty polygons: for every polygon
with an even, non-zero number of coordinates and all `dx`, `dy`, `translated(p, dx, dy)` is
defined and its `minX` and `maxX` are those of `p` plus `dx`, its `minY` and `maxY` those of `p`
plus `dy`. -/
theorem bounds_translation_nonempty (p : Polygon K) (dx dy : K)
    (heven : p.points.length % 2 = 0) (hne : p.points ≠ []) :
    ∃ q, p.translated dx dy = some q ∧ q.minX = p.minX + dx ∧ q.maxX = p.maxX + dx ∧
      q.minY = p.minY + dy ∧ q.maxY = p.maxY + dy := by
  obtain ⟨q, hq⟩ := translated_some p dx dy heven
  refine ⟨q, hq, ?_⟩
  rw [Polygon.translated] at hq
  cases hout : Polygon.translatePoints dx dy p.points with
  | none => rw [hout] at hq; simp at hq
  | some out =>
    rw [hout] at hq
    simp only [Option.map_some', Option.some.injEq] at hq
    subst hq
    obtain ⟨he, ho⟩ := entries_translatePoints dx dy p.points out hout
    obtain ⟨pts⟩ := p
    match pts, heven, hne, hout, he, ho with
    | [_], h, _, _, _, _ => simp at h
    | px :: py :: rest, _, _, hout, he, ho =>
      rw [Polygon.translatePoints] at hout
      cases hrest : Polygon.translatePoints dx dy rest with
      | none => rw [hrest] at hout; simp at hout
      | some tl =>
        rw [hrest] at hout
        simp only [Option.map_some', Option.some.injEq] at hout
        subst hout
        simp only [Polygon.minX, Polygon.maxX, Polygon.minY, Polygon.maxY] at he ho ⊢
        rw [he, ho]
        simp only [List.getD_cons_zero, List.getD_cons_succ]
        exact ⟨foldl_min_add dx _ px, foldl_max_add dx _ px, foldl_min_add dy _ py,
          foldl_max_add dy _ py⟩

/-- Translation of a 25 by 25 square with corner `(3, 4)` by `(7, -3)`. -/
theorem bounds_translation_nonempty_witness :
    ∃ q, (square (3 : ℚ) 4 25).translated 7 (-3) = some q ∧
      q.minX = (square (3 : ℚ) 4 25).minX + 7 ∧ q.maxX = (square (3 : ℚ) 4 25).maxX + 7 ∧
      q.minY = (square (3 : ℚ) 4 25).minY + -3 ∧ q.maxY = (square (3 : ℚ) 4 25).maxY + -3 :=
  bounds_translation_nonempty (square (3 : ℚ) 4 25) 7 (-3) (by decide) (by decide)

/-- C15. Rotation by zero is the identity: for every polygon `p` with an even number of
coordinates (and `cos 0 = 1`, `sin 0 = 0`), `rotated(p, 0)` is defined and equals `p` point for
point, and therefore has the same bounds, width, height and area. -/
theorem rotation_by_zero_identity (L : StdLib K) (hTrig : L.TrigAtZero) (p : Polygon K)
    (heven : p.points.length % 2 = 0) :
    ∃ q, p.rotated L 0 = some q ∧ q.points = p.points ∧ q.minX = p.minX ∧ q.maxX = p.maxX ∧
      q.minY = p.minY ∧ q.maxY = p.maxY ∧ q.width = p.width ∧ q.height = p.height ∧
      q.area = p.area :=
  ⟨p, by
    rw [Polygon.rotated, rotatePoints_eq_mapPairs, hTrig.1, hTrig.2,
      mapPairs_turn_one_zero _ _ (p.points.length / 2) p.points (by omega)]
    rfl, rfl, rfl, rfl, rfl, rfl, rfl, rfl, rfl⟩

/-- Rotation of the triangle `(0,0), (2,0), (0,1)` by zero. -/
theorem rotation_by_zero_identity_witness :
    ∃ q, (Polygon.mk [(0 : ℚ), 0, 2, 0, 0, 1]).rotated circleLib 0 = some q ∧
      q.points = [0, 0, 2, 0, 0, 1] ∧ q.minX = (Polygon.mk [(0 : ℚ), 0, 2, 0, 0, 1]).minX ∧
      q.maxX = (Polygon.mk [(0 : ℚ), 0, 2, 0, 0, 1]).maxX ∧
      q.minY = (Polygon.mk [(0 : ℚ), 0, 2, 0, 0, 1]).minY ∧
      q.maxY = (Polygon.mk [(0 : ℚ), 0, 2, 0, 0, 1]).maxY ∧
      q.width = (Polygon.mk [(0 : ℚ), 0, 2, 0, 0, 1]).width ∧
      q.height = (Polygon.mk [(0 : ℚ), 0, 2, 0, 0, 1]).height ∧
      q.area = (Polygon.mk [(0 : ℚ), 0, 2, 0, 0, 1]).area :=
  rotation_by_zero_identity circleLib (by constructor <;> decide!) ⟨[0, 0, 2, 0, 0, 1]⟩
    (by decide)

end GeometryClaims

/-- C13, counterexample. The empty polygon has an even number of coordinates and the bounds
`(0, 0, 0, 0)` by the guard `points.empty() ? 0 : points[0]`; its translation by `(1, 1)` is
empty again and has the same bounds, not the bounds shifted by `(1, 1)`. -/
theorem bounds_translation_empty_polygon :
    (Polygon.mk ([] : List ℚ)).points.length % 2 = 0 ∧
    (Polygon.mk ([] : List ℚ)).translated 1 1 = some ⟨[]⟩ ∧
    (Polygon.mk ([] : List ℚ)).minX = 0 ∧ (Polygon.mk ([] : List ℚ)).maxX = 0 ∧
    (Polygon.mk ([] : List ℚ)).minY = 0 ∧ (Polygon.mk ([] : List ℚ)).maxY = 0 ∧
    (Polygon.mk ([] : List ℚ)).minX ≠ (Polygon.mk ([] : List ℚ)).minX + 1 := by
  refine ⟨by decide, by decide!, by decide!, by decide!, by decide!, by decide!, by decide!⟩

end Nesting

namespace Nesting
section RoundTrip
set_option linter.unusedSectionVars false
variable {K : Type} [LinearOrderedField K]

/-- Two loops over pairs in a row are one loop with the composed maps. -/
theorem mapPairs_comp (F1 G1 F2 G2 : K → K → K) :
    ∀ (pts out : List K), mapPairs F1 G1 pts = some out →
      mapPairs F2 G2 out
        = mapPairs (fun x y => F2 (F1 x y) (G1 x y)) (fun x y => G2 (F1 x y) (G1 x y)) pts
  | [], out, h => by
    simp only [mapPairs, Option.some.injEq] at h
    subst h
    rfl
  | [_], out, h => by simp [mapPairs] at h
  | px :: py :: rest, out, h => by
    rw [mapPairs] at h
    cases hrest : mapPairs F1 G1 rest with
    | none => rw [hrest] at h; simp at h
    | some tl =>
      rw [hrest] at h
      simp only [Option.map_some', Option.some.injEq] at h
      subst h
      rw [mapPairs, mapPairs, mapPairs_comp F1 G1 F2 G2 rest tl hrest]

/-- A loop over pairs whose maps return the pair itself returns its input. -/
theorem mapPairs_self (F G : K → K → K) (hF : ∀ x y, F x y = x) (hG : ∀ x y, G x y = y) :
    ∀ (pts out : List K), mapPairs F G pts = some out → out = pts
  | [], out, h => by
    simp only [mapPairs, Option.some.injEq] at h
    exact h.symm
  | [_], out, h => by simp [mapPairs] at h
  | px :: py :: rest, out, h => by
    rw [mapPairs] at h
    cases hrest : mapPairs F G rest with
    | none => rw [hrest] at h; simp at h
    | some tl =>
      rw [hrest] at h
      simp only [Option.map_some', Option.some.injEq] at h
      subst h
      rw [hF, hG, mapPairs_self F G hF hG rest tl hrest]

/-- C14, as amended. Rotation round trip up to the shift of the pivot: for every polygon `p` with
an even number of coordinates and every angle `a` (with `cos² a + sin² a = 1`, `cos (-a) = cos a`
and `sin (-a) = -sin a`), `q1 = rotated(p, a)` and `q2 = rotated(q1, -a)` are defined, and `q2`
is `p` translated by `d - R(d)`, where `d` is the centre of the bounds of `q1` minus the centre
of the bounds of `p` and `R` turns by `-a`; in particular `q2` equals `p` point for point
whenever `q1` and `p` have the same centre of bounds. -/
theorem rotation_round_trip_up_to_pivot (L : StdLib K) (p : Polygon K) (a : K)
    (heven : p.points.length % 2 = 0) (hunit : L.UnitAt a) (hsym : L.SymmetricAt a) :
    ∃ q1 q2, p.rotated L a = some q1 ∧ q1.rotated L (-a) = some q2 ∧
      p.translated
          ((q1.centreX - p.centreX)
            - ((q1.centreX - p.centreX) * L.cos a + (q1.centreY - p.centreY) * L.sin a))
          ((q1.centreY - p.centreY)
            - (-(q1.centreX - p.centreX) * L.sin a + (q1.centreY - p.centreY) * L.cos a))
        = some q2 ∧
      (q1.centreX = p.centreX → q1.centreY = p.centreY → q2 = p) := by
  obtain ⟨q1, hq1⟩ := rotated_defined L p a heven
  have hq1' := hq1
  rw [Polygon.rotated, rotatePoints_eq_mapPairs] at hq1'
  cases hout1 : mapPairs
      (fun px py => (px - (p.minX + p.maxX) / 2) * L.cos a - (py - (p.minY + p.maxY) / 2) * L.sin a
        + (p.minX + p.maxX) / 2)
      (fun px py => (px - (p.minX + p.maxX) / 2) * L.sin a + (py - (p.minY + p.maxY) / 2) * L.cos a
        + (p.minY + p.maxY) / 2) p.points with
  | none => rw [hout1] at hq1'; simp at hq1'
  | some out1 =>
    rw [hout1] at hq1'
    simp only [Option.map_some', Option.some.injEq] at hq1'
    have hlen1 : out1.length % 2 = 0 := by
      rw [(mapPairs_spec _ _ _ _ hout1).1]; exact heven
    have heven1 : q1.points.length % 2 = 0 := by rw [← hq1']; exact hlen1
    obtain ⟨q2, hq2⟩ := rotated_defined L q1 (-a) heven1
    unfold StdLib.UnitAt at hunit
    have key : mapPairs
        (fun px _ => px + ((q1.centreX - p.centreX)
          - ((q1.centreX - p.centreX) * L.cos a + (q1.centreY - p.centreY) * L.sin a)))
        (fun _ py => py + ((q1.centreY - p.centreY)
          - (-(q1.centreX - p.centreX) * L.sin a + (q1.centreY - p.centreY) * L.cos a)))
        p.points = some q2.points := by
      have h2 := hq2
      rw [Polygon.rotated, rotatePoints_eq_mapPairs, hsym.1, hsym.2, ← hq1'] at h2
      simp only at h2
      rw [mapPairs_comp _ _ _ _ p.points out1 hout1] at h2
      have hF : (fun x y =>
            ((x - (p.minX + p.maxX) / 2) * L.cos a - (y - (p.minY + p.maxY) / 2) * L.sin a
                + (p.minX + p.maxX) / 2 - ((Polygon.mk out1).minX + (Polygon.mk out1).maxX) / 2)
              * L.cos a
              - ((x - (p.minX + p.maxX) / 2) * L.sin a + (y - (p.minY + p.maxY) / 2) * L.cos a
                + (p.minY + p.maxY) / 2 - ((Polygon.mk out1).minY + (Polygon.mk out1).maxY) / 2)
              * -L.sin a
              + ((Polygon.mk out1).minX + (Polygon.mk out1).maxX) / 2)
          = (fun px _ => px + ((q1.centreX - p.centreX)
              - ((q1.centreX - p.centreX) * L.cos a + (q1.centreY - p.centreY) * L.sin a))) := by
        funext x y
        rw [← hq1']
        simp only [Polygon.centreX, Polygon.centreY]
        linear_combination (x - (p.minX + p.maxX) / 2) * hunit
      have hG : (fun x y =>
            ((x - (p.minX + p.maxX) / 2) * L.cos a - (y - (p.minY + p.maxY) / 2) * L.sin a
                + (p.minX + p.maxX) / 2 - ((Polygon.mk out1).minX + (Polygon.mk out1).maxX) / 2)
              * -L.sin a
              + ((x - (p.minX + p.maxX) / 2) * L.sin a + (y - (p.minY + p.maxY) / 2) * L.cos a
                + (p.minY + p.maxY) / 2 - ((Polygon.mk out1).minY + (Polygon.mk out1).maxY) / 2)
              * L.cos a
              + ((Polygon.mk out1).minY + (Polygon.mk out1).maxY) / 2)
          = (fun _ py => py + ((q1.centreY - p.centreY)
              - (-(q1.centreX - p.centreX) * L.sin a + (q1.centreY - p.centreY) * L.cos a))) := by
        funext x y
        rw [← hq1']
        simp only [Polygon.centreX, Polygon.centreY]
        linear_combination (y - (p.minY + p.maxY) / 2) * hunit
      rw [hF, hG] at h2
      cases hm : mapPairs
          (fun px _ => px + ((q1.centreX - p.centreX)
            - ((q1.centreX - p.centreX) * L.cos a + (q1.centreY - p.centreY) * L.sin a)))
          (fun _ py => py + ((q1.centreY - p.centreY)
            - (-(q1.centreX - p.centreX) * L.sin a + (q1.centreY - p.centreY) * L.cos a)))
          p.points with
      | none => rw [hm] at h2; simp at h2
      | some out2 =>
        rw [hm] at h2
        simp only [Option.map_some', Option.some.injEq] at h2
        rw [← h2]
    refine ⟨q1, q2, hq1, hq2, ?_, ?_⟩
    · rw [Polygon.translated, translatePoints_eq_mapPairs, key]
      rfl
    · intro hx hy
      rw [hx, hy] at key
      have := mapPairs_self _ _ (fun x _ => by ring) (fun _ y => by ring) p.points q2.points key
      cases q2
      cases p
      simp only at this
      rw [this]

/-- The round trip of a 10 by 10 square at the angle with `cos = 3/5`, `sin = 4/5`: the rotated
square has the same centre of bounds, and the round trip returns the square. -/
theorem rotation_round_trip_up_to_pivot_witness :
    ∃ q1 q2, (square (0 : ℚ) 0 10).rotated circleLib (1 / 2) = some q1 ∧
      q1.rotated circleLib (-(1 / 2)) = some q2 ∧
      (square (0 : ℚ) 0 10).translated
          ((q1.centreX - (square (0 : ℚ) 0 10).centreX)
            - ((q1.centreX - (square (0 : ℚ) 0 10).centreX) * circleLib.cos (1 / 2)
              + (q1.centreY - (square (0 : ℚ) 0 10).centreY) * circleLib.sin (1 / 2)))
          ((q1.centreY - (square (0 : ℚ) 0 10).centreY)
            - (-(q1.centreX - (square (0 : ℚ) 0 10).centreX) * circleLib.sin (1 / 2)
              + (q1.centreY - (square (0 : ℚ) 0 10).centreY) * circleLib.cos (1 / 2)))
        = some q2 ∧
      (q1.centreX = (square (0 : ℚ) 0 10).centreX → q1.centreY = (square (0 : ℚ) 0 10).centreY →
        q2 = square (0 : ℚ) 0 10) :=
  rotation_round_trip_up_to_pivot circleLib (square (0 : ℚ) 0 10) (1 / 2) (by decide)
    (by unfold StdLib.UnitAt; decide!) (by unfold StdLib.SymmetricAt; decide!)

end RoundTrip

/-- C14, counterexample. The triangle `(0,0), (2,0), (0,1)` turned by the angle with
`cos = 3/5`, `sin = 4/5` about the centre `(1, 1/2)` of its bounds has bounds with centre
`(1, 1/5)`; turning it back about that centre gives the triangle shifted by `(6/25, -3/25)`,
not the triangle. -/
theorem rotation_round_trip_shifts_triangle :
    circleLib.cos (1 / 2) = 3 / 5 ∧ circleLib.sin (1 / 2) = 4 / 5 ∧
    circleLib.cos (-(1 / 2)) = 3 / 5 ∧ circleLib.sin (-(1 / 2)) = -(4 / 5) ∧
    (Polygon.mk [(0 : ℚ), 0, 2, 0, 0, 1]).rotated circleLib (1 / 2)
      = some ⟨[4 / 5, -(3 / 5), 2, 1, 0, 0]⟩ ∧
    (Polygon.mk [(4 / 5 : ℚ), -(3 / 5), 2, 1, 0, 0]).rotated circleLib (-(1 / 2))
      = some ⟨[6 / 25, -(3 / 25), 56 / 25, -(3 / 25), 6 / 25, 22 / 25]⟩ ∧
    (Polygon.mk [(6 / 25 : ℚ), -(3 / 25), 56 / 25, -(3 / 25), 6 / 25, 22 / 25])
      ≠ ⟨[0, 0, 2, 0, 0, 1]⟩ := by
  refine ⟨by decide!, by decide!, by decide!, by decide!, by decide!, by decide!, by decide!⟩

end Nesting

namespace Nesting

section SortLemmas

variable {α : Type}

end SortLemmas

section Expansion
set_option linter.unusedSectionVars false
variable {K : Type} [LinearOrderedField K] [FloorRing K]

end Expansion

end Nesting

namespace Nesting
section ScanSpec
set_option linter.unusedSectionVars false
variable {K : Type} [LinearOrderedField K] [FloorRing K]

theorem scanRow_of_some (cfg : NestConfig K) (partW partH y : K) (occ : List (K × K)) :
    ∀ (fuel : Nat) (x0 x : K), scanRow cfg partW partH y occ fuel x0 = some x →
      ∃ n : Nat, x = x0 + gridStep * (n : K) ∧ x + partW ≤ cfg.sheetWidth ∧
        collides partW partH x y occ = false ∧
        ∀ j : Nat, j < n → collides partW partH (x0 + gridStep * (j : K)) y occ = true
  | 0, _, _, h => by simp [scanRow] at h
  | fuel + 1, x0, x, h => by
    unfold scanRow at h
    split at h
    · next hfit =>
      split at h
      · next hcol =>
        obtain ⟨n, hx, hin, hfree, hbefore⟩ :=
          scanRow_of_some cfg partW partH y occ fuel (x0 + gridStep) x h
        refine ⟨n + 1, by rw [hx]; push_cast; ring, hin, hfree, ?_⟩
        intro j hj
        cases j with
        | zero => simpa using hcol
        | succ j' =>
          have := hbefore j' (by omega)
          have e : x0 + gridStep * ((j' + 1 : Nat) : K) = x0 + gridStep + gridStep * (j' : K) := by
            push_cast; ring
          rwa [e]
      · next hfree =>
        simp only [Option.some.injEq] at h
        subst h
        refine ⟨0, by simp, hfit, by simpa using hfree, ?_⟩
        intro j hj
        exact absurd hj (Nat.not_lt_zero _)
    · simp at h

theorem scanRow_of_none (cfg : NestConfig K) (partW partH y : K) (occ : List (K × K)) :
    ∀ (fuel : Nat) (x0 : K), scanRow cfg partW partH y occ fuel x0 = none →
      ∀ j : Nat, j < fuel → x0 + gridStep * (j : K) + partW ≤ cfg.sheetWidth →
        collides partW partH (x0 + gridStep * (j : K)) y occ = true
  | 0, _, _, j, hj, _ => absurd hj (Nat.not_lt_zero _)
  | fuel + 1, x0, h, j, hj, hin => by
    have h10 : (0 : K) < gridStep := gridStep_pos
    unfold scanRow at h
    split at h
    · next hfit =>
      split at h
      · next hcol =>
        cases j with
        | zero => simpa using hcol
        | succ j' =>
          have e : x0 + gridStep * ((j' + 1 : Nat) : K) = x0 + gridStep + gridStep * (j' : K) := by
            push_cast; ring
          rw [e] at hin ⊢
          exact scanRow_of_none cfg partW partH y occ fuel (x0 + gridStep) h j' (by omega) hin
      · simp at h
    · next hnofit =>
      exfalso
      apply hnofit
      have : (0 : K) ≤ gridStep * (j : K) := mul_nonneg h10.le (Nat.cast_nonneg _)
      linarith

theorem scanRows_of_some (cfg : NestConfig K) (partW partH : K) (occ : List (K × K)) :
    ∀ (fuel : Nat) (y0 x y : K), scanRows cfg partW partH occ fuel y0 = some (x, y) →
      ∃ m : Nat, y = y0 + gridStep * (m : K) ∧ y + partH ≤ cfg.sheetHeight ∧
        scanRow cfg partW partH y occ (gridFuel cfg.sheetWidth partW) 0 = some x ∧
        ∀ j : Nat, j < m →
          scanRow cfg partW partH (y0 + gridStep * (j : K)) occ (gridFuel cfg.sheetWidth partW) 0
            = none
  | 0, _, _, _, h => by simp [scanRows] at h
  | fuel + 1, y0, x, y, h => by
    unfold scanRows at h
    split at h
    · next hfit =>
      cases hrow : scanRow cfg partW partH y0 occ (gridFuel cfg.sheetWidth partW) 0 with
      | some bx =>
        rw [hrow] at h
        simp only [Option.some.injEq, Prod.mk.injEq] at h
        obtain ⟨rfl, rfl⟩ := h
        exact ⟨0, by simp, hfit, hrow, fun j hj => absurd hj (Nat.not_lt_zero _)⟩
      | none =>
        rw [hrow] at h
        obtain ⟨m, hy, hin, hfound, hbefore⟩ :=
          scanRows_of_some cfg partW partH occ fuel (y0 + gridStep) x y h
        refine ⟨m + 1, by rw [hy]; push_cast; ring, hin, hfound, ?_⟩
        intro j hj
        cases j with
        | zero => simpa using hrow
        | succ j' =>
          have := hbefore j' (by omega)
          have e : y0 + gridStep * ((j' + 1 : Nat) : K) = y0 + gridStep + gridStep * (j' : K) := by
            push_cast; ring
          rwa [e]
    · simp at h

theorem scanRows_of_none (cfg : NestConfig K) (partW partH : K) (occ : List (K × K)) :
    ∀ (fuel : Nat) (y0 : K), scanRows cfg partW partH occ fuel y0 = none →
      ∀ j : Nat, j < fuel → y0 + gridStep * (j : K) + partH ≤ cfg.sheetHeight →
        scanRow cfg partW partH (y0 + gridStep * (j : K)) occ (gridFuel cfg.sheetWidth partW) 0
          = none
  | 0, _, _, j, hj, _ => absurd hj (Nat.not_lt_zero _)
  | fuel + 1, y0, h, j, hj, hin => by
    have h10 : (0 : K) < gridStep := gridStep_pos
    unfold scanRows at h
    split at h
    · next hfit =>
      cases hrow : scanRow cfg partW partH y0 occ (gridFuel cfg.sheetWidth partW) 0 with
      | some bx => rw [hrow] at h; simp at h
      | none =>
        rw [hrow] at h
        cases j with
        | zero => simpa using hrow
        | succ j' =>
          have e : y0 + gridStep * ((j' + 1 : Nat) : K) = y0 + gridStep + gridStep * (j' : K) := by
            push_cast; ring
          rw [e] at hin ⊢
          exact scanRows_of_none cfg partW partH occ fuel (y0 + gridStep) h j' (by omega) hin
    · next hnofit =>
      exfalso
      apply hnofit
      have : (0 : K) ≤ gridStep * (j : K) := mul_nonneg h10.le (Nat.cast_nonneg _)
      linarith

/-- A position found on a sheet is a grid point within the sheet, free of conflicts, and every
grid point within the sheet that comes before it in row-major order is in conflict. -/
theorem scanSheet_of_some (cfg : NestConfig K) (partW partH : K) (occ : List (K × K)) (x y : K)
    (h : scanSheet cfg partW partH occ = some (x, y)) :
    ∃ a b : Nat, x = gridStep * (a : K) ∧ y = gridStep * (b : K) ∧
      x + partW ≤ cfg.sheetWidth ∧ y + partH ≤ cfg.sheetHeight ∧
      collides partW partH x y occ = false ∧
      ∀ a1 b1 : Nat, (b1 < b ∨ (b1 = b ∧ a1 < a)) →
        gridStep * (a1 : K) + partW ≤ cfg.sheetWidth →
        gridStep * (b1 : K) + partH ≤ cfg.sheetHeight →
        collides partW partH (gridStep * (a1 : K)) (gridStep * (b1 : K)) occ = true := by
  obtain ⟨b, hy, hyin, hrow, hrows⟩ := scanRows_of_some cfg partW partH occ _ 0 x y h
  obtain ⟨a, hx, hxin, hfree, hbefore⟩ := scanRow_of_some cfg partW partH y occ _ 0 x hrow
  rw [zero_add] at hx hy
  refine ⟨a, b, hx, hy, hxin, hyin, hfree, ?_⟩
  intro a1 b1 hlt hin1 hin2
  rcases hlt with hb | ⟨rfl, ha⟩
  · have hnone := hrows b1 hb
    have := scanRow_of_none cfg partW partH _ occ _ 0 hnone a1
      (lt_gridFuel _ _ _ hin1) (by rw [zero_add]; exact hin1)
    simpa using this
  · have := hbefore a1 ha
    rw [zero_add] at this
    rw [← hy]
    exact this

/-- When no position is found on a sheet, every grid point within the sheet is in conflict. -/
theorem scanSheet_of_none (cfg : NestConfig K) (partW partH : K) (occ : List (K × K))
    (h : scanSheet cfg partW partH occ = none) :
    ∀ a1 b1 : Nat, gridStep * (a1 : K) + partW ≤ cfg.sheetWidth →
      gridStep * (b1 : K) + partH ≤ cfg.sheetHeight →
      collides partW partH (gridStep * (a1 : K)) (gridStep * (b1 : K)) occ = true := by
  intro a1 b1 hin1 hin2
  have hnone := scanRows_of_none cfg partW partH occ _ 0 h b1 (lt_gridFuel _ _ _ hin2)
    (by rw [zero_add]; exact hin2)
  have := scanRow_of_none cfg partW partH _ occ _ 0 hnone a1 (lt_gridFuel _ _ _ hin1)
    (by rw [zero_add]; exact hin1)
  simpa using this

/-- A footprint that does not fit an empty sheet finds no position on any sheet. -/
theorem scanSheet_none_of_not_fits (cfg : NestConfig K) (partW partH : K) (occ : List (K × K))
    (h : ¬ (partW ≤ cfg.sheetWidth ∧ partH ≤ cfg.sheetHeight)) :
    scanSheet cfg partW partH occ = none := by
  cases hs : scanSheet cfg partW partH occ with
  | none => rfl
  | some pos =>
    obtain ⟨x, y⟩ := pos
    obtain ⟨a, b, hx, hy, hxin, hyin, _, _⟩ := scanSheet_of_some cfg partW partH occ x y hs
    obtain ⟨hx0, hy0⟩ := scanSheet_nonneg cfg partW partH occ x y hs
    exact absurd ⟨by linarith, by linarith⟩ h

end ScanSpec
end Nesting

namespace Nesting
section AttemptSpec
set_option linter.unusedSectionVars false
variable {K : Type} [LinearOrderedField K] [FloorRing K]

theorem anchorsOn_append_singleton (pl : List (Placement K)) (q : Placement K) (s : Nat) :
    anchorsOn (pl ++ [q]) s
      = anchorsOn pl s ++ (if q.sheetIndex = s then [(q.x, q.y)] else []) := by
  unfold anchorsOn
  rw [List.filter_append, List.map_append]
  by_cases h : q.sheetIndex = s
  · simp [h]
  · simp [h]

theorem anchorsOn_eq_nil (pl : List (Placement K)) (s : Nat) (h : sheetsUsedOf pl ≤ s) :
    anchorsOn pl s = [] := by
  unfold anchorsOn
  rw [List.map_eq_nil_iff, List.filter_eq_nil_iff]
  intro q hq
  have := sheetIndex_lt_sheetsUsedOf pl q hq
  simp only [decide_eq_true_eq]
  omega

theorem mem_anchorsOn (pl : List (Placement K)) (s : Nat) (o : K × K) :
    o ∈ anchorsOn pl s ↔ ∃ q ∈ pl, q.sheetIndex = s ∧ (q.x, q.y) = o := by
  unfold anchorsOn
  simp only [List.mem_map, List.mem_filter, decide_eq_true_eq]
  constructor
  · rintro ⟨q, ⟨hq, hs⟩, ho⟩; exact ⟨q, hq, hs, ho⟩
  · rintro ⟨q, hq, hs, ho⟩; exact ⟨q, ⟨hq, hs⟩, ho⟩

theorem tryExistingSheets_of_some (cfg : NestConfig K) (partW partH : K) :
    ∀ (sheets : List (List (K × K))) (i0 idx : Nat) (bx by_ : K),
      tryExistingSheets cfg partW partH sheets i0 = some (idx, bx, by_) →
      i0 ≤ idx ∧ ∃ occ, sheets[idx - i0]? = some occ ∧
        scanSheet cfg partW partH occ = some (bx, by_) ∧
        ∀ (s : Nat) (occ1 : List (K × K)), s < idx - i0 → sheets[s]? = some occ1 →
          scanSheet cfg partW partH occ1 = none
  | [], _, _, _, _, h => by simp [tryExistingSheets] at h
  | occ :: rest, i0, idx, bx, by_, h => by
    unfold tryExistingSheets at h
    cases hscan : scanSheet cfg partW partH occ with
    | some pos =>
      rw [hscan] at h
      simp only [Option.some.injEq, Prod.mk.injEq] at h
      obtain ⟨rfl, rfl, rfl⟩ := h
      refine ⟨le_refl _, occ, by simp, hscan, ?_⟩
      intro s occ1 hs
      simp at hs
    | none =>
      rw [hscan] at h
      obtain ⟨hle, occ2, hget, hfound, hbefore⟩ :=
        tryExistingSheets_of_some cfg partW partH rest (i0 + 1) idx bx by_ h
      have e : idx - i0 = (idx - (i0 + 1)) + 1 := by omega
      refine ⟨by omega, occ2, by rw [e, List.getElem?_cons_succ]; exact hget, hfound, ?_⟩
      intro s occ1 hs hs1
      cases s with
      | zero =>
        simp only [List.getElem?_cons_zero, Option.some.injEq] at hs1
        rw [← hs1]; exact hscan
      | succ s' =>
        rw [List.getElem?_cons_succ] at hs1
        exact hbefore s' occ1 (by omega) hs1

theorem tryExistingSheets_of_none (cfg : NestConfig K) (partW partH : K) :
    ∀ (sheets : List (List (K × K))) (i0 : Nat),
      tryExistingSheets cfg partW partH sheets i0 = none →
      ∀ (s : Nat) (occ1 : List (K × K)), sheets[s]? = some occ1 →
        scanSheet cfg partW partH occ1 = none
  | [], _, _, s, occ1, hs => by simp at hs
  | occ :: rest, i0, h, s, occ1, hs => by
    unfold tryExistingSheets at h
    cases hscan : scanSheet cfg partW partH occ with
    | some pos => rw [hscan] at h; simp at h
    | none =>
      rw [hscan] at h
      cases s with
      | zero =>
        simp only [List.getElem?_cons_zero, Option.some.injEq] at hs
        rw [← hs]; exact hscan
      | succ s' =>
        rw [List.getElem?_cons_succ] at hs
        exact tryExistingSheets_of_none cfg partW partH rest (i0 + 1) h s' occ1 hs

end AttemptSpec
end Nesting

namespace Nesting
section PlaceSpec
set_option linter.unusedSectionVars false
variable {K : Type} [LinearOrderedField K] [FloorRing K]

theorem collides_nil (partW partH x y : K) : collides partW partH x y [] = false := rfl

/-- The state after a placement on the open sheet `idx` keeps the occupancy in step with the
placements. -/
theorem occupancyMatches_existing (st : AttemptState K) (hinv : OccupancyMatches st)
    (q : Placement K) (hidx : q.sheetIndex < st.sheetOccupancy.length) :
    OccupancyMatches
      { placements := st.placements ++ [q]
        sheetOccupancy := st.sheetOccupancy.modify (fun occ => occ ++ [(q.x, q.y)]) q.sheetIndex } := by
  refine ⟨?_, ?_⟩
  · intro s occ hs
    simp only at hs ⊢
    rw [List.getElem?_modify] at hs
    cases hold : st.sheetOccupancy[s]? with
    | none => rw [hold] at hs; simp at hs
    | some occ0 =>
      rw [hold] at hs
      simp only [Option.map_eq_map, Option.map_some', Option.some.injEq] at hs
      rw [anchorsOn_append_singleton, ← hinv.1 s occ0 hold, ← hs]
      by_cases h : q.sheetIndex = s
      · simp [h]
      · simp [h]
  · simp only [List.length_modify]
    rw [sheetsUsedOf_append, sheetsUsedOf_cons, sheetsUsedOf_nil, hinv.2]
    simp only [Nat.zero_le, max_eq_left]
    omega

/-- The state after a placement on a new sheet keeps the occupancy in step with the
placements. -/
theorem occupancyMatches_new (st : AttemptState K) (hinv : OccupancyMatches st)
    (partId : String) (rotation : K) :
    OccupancyMatches
      { placements := st.placements ++ [⟨partId, st.sheetOccupancy.length, 0, 0, rotation⟩]
        sheetOccupancy := st.sheetOccupancy ++ [[(0, 0)]] } := by
  refine ⟨?_, ?_⟩
  · intro s occ hs
    simp only at hs ⊢
    rw [anchorsOn_append_singleton]
    simp only
    rcases Nat.lt_or_ge s st.sheetOccupancy.length with hlt | hge
    · rw [List.getElem?_append_left hlt] at hs
      rw [← hinv.1 s occ hs, if_neg (by omega)]
      simp
    · rw [List.getElem?_append_right hge] at hs
      have hs0 : s - st.sheetOccupancy.length = 0 := by
        by_contra hne
        obtain ⟨m, hm⟩ := Nat.exists_eq_succ_of_ne_zero hne
        rw [hm] at hs
        simp at hs
      rw [hs0] at hs
      simp only [List.getElem?_cons_zero, Option.some.injEq] at hs
      have hse : st.sheetOccupancy.length = s := by omega
      rw [if_pos hse, anchorsOn_eq_nil _ _ (by rw [hinv.2]; omega), ← hs]
      rfl
  · rw [sheetsUsedOf_append, sheetsUsedOf_cons, sheetsUsedOf_nil, hinv.2]
    simp

/-- One run of the rotation loop for an instance: either no angle fits and nothing is
recorded, or the instance is recorded at the first angle that fits, at a position as the scan
guarantees it. -/
theorem placeInstance_spec (L : StdLib K) (cfg : NestConfig K) (partId : String)
    (polygon : Polygon K) :
    ∀ (rotations : List K) (st st1 : AttemptState K),
      placeInstance L cfg partId polygon rotations st = some st1 → OccupancyMatches st →
      OccupancyMatches st1 ∧
        ((firstFit L cfg polygon rotations = none ∧ st1.placements = st.placements) ∨
          ∃ q rot, firstFit L cfg polygon rotations = some q.rotation ∧
            st1.placements = st.placements ++ [q] ∧ q.partId = partId ∧
            polygon.rotated L q.rotation = some rot ∧
            PlacedAt cfg (rot.width + cfg.spacing) (rot.height + cfg.spacing) st.placements q)
  | [], st, st1, h, hinv => by
    simp only [placeInstance, Option.some.injEq] at h
    subst h
    exact ⟨hinv, Or.inl ⟨rfl, rfl⟩⟩
  | rotation :: rest, st, st1, h, hinv => by
    unfold placeInstance at h
    cases hrot : polygon.rotated L rotation with
    | none => rw [hrot] at h; simp at h
    | some rot =>
      rw [hrot] at h
      simp only at h
      cases htry : tryExistingSheets cfg (rot.width + cfg.spacing) (rot.height + cfg.spacing)
          st.sheetOccupancy 0 with
      | some found =>
        obtain ⟨idx, bx, by_⟩ := found
        rw [htry] at h
        simp only [Option.some.injEq] at h
        subst h
        obtain ⟨_, occ, hocc, hscan, hbefore⟩ := tryExistingSheets_of_some cfg _ _ _ _ _ _ _ htry
        have hb := tryExistingSheets_bound cfg _ _ _ _ _ _ _ htry
        rw [Nat.sub_zero] at hocc
        have hidx : idx < st.sheetOccupancy.length := by omega
        obtain ⟨a, b, hx, hy, hxin, hyin, hfree, hrm⟩ := scanSheet_of_some cfg _ _ occ bx by_ hscan
        obtain ⟨hx0, hy0⟩ := scanSheet_nonneg cfg _ _ occ bx by_ hscan
        have hfits : rot.width + cfg.spacing ≤ cfg.sheetWidth ∧
            rot.height + cfg.spacing ≤ cfg.sheetHeight := ⟨by linarith, by linarith⟩
        have hoccEq := hinv.1 idx occ hocc
        refine ⟨occupancyMatches_existing st hinv ⟨partId, idx, bx, by_, rotation⟩ hidx, Or.inr ?_⟩
        refine ⟨⟨partId, idx, bx, by_, rotation⟩, rot, ?_, rfl, rfl, hrot, ?_⟩
        · simp only [firstFit, hrot]
          rw [if_pos hfits]
        · refine ⟨a, b, hx, hy, hxin, hyin, ?_, ?_, ?_, ?_⟩
          · simp only; rw [hinv.2]; omega
          · simp only; rw [← hoccEq]; exact hfree
          · intro s a1 b1 hs hin1 hin2
            simp only at hs
            have hslt : s < st.sheetOccupancy.length := by omega
            have hget : st.sheetOccupancy[s]? = some st.sheetOccupancy[s] :=
              List.getElem?_eq_getElem hslt
            have hnone := hbefore s _ (by omega) hget
            rw [← hinv.1 s _ hget]
            exact scanSheet_of_none cfg _ _ _ hnone a1 b1 hin1 hin2
          · intro a1 b1 hlt hin1 hin2
            simp only
            rw [← hoccEq]
            exact hrm a1 b1 hlt hin1 hin2
      | none =>
        rw [htry] at h
        simp only at h
        split at h
        · next hfits =>
          simp only [Option.some.injEq] at h
          subst h
          refine ⟨occupancyMatches_new st hinv partId rotation, Or.inr ?_⟩
          refine ⟨⟨partId, st.sheetOccupancy.length, 0, 0, rotation⟩, rot, ?_, rfl, rfl, hrot, ?_⟩
          · simp only [firstFit, hrot]
            rw [if_pos hfits]
          · refine ⟨0, 0, by simp, by simp, by simpa using hfits.1, by simpa using hfits.2, ?_,
              ?_, ?_, ?_⟩
            · simp only; rw [hinv.2]
            · simp only
              rw [anchorsOn_eq_nil _ _ (by rw [hinv.2])]
              rfl
            · intro s a1 b1 hs hin1 hin2
              simp only at hs
              have hget : st.sheetOccupancy[s]? = some st.sheetOccupancy[s] :=
                List.getElem?_eq_getElem hs
              have hnone := tryExistingSheets_of_none cfg _ _ _ _ htry s _ hget
              rw [← hinv.1 s _ hget]
              exact scanSheet_of_none cfg _ _ _ hnone a1 b1 hin1 hin2
            · intro a1 b1 hlt
              rcases hlt with h0 | ⟨_, h0⟩
              · exact absurd h0 (Nat.not_lt_zero _)
              · exact absurd h0 (Nat.not_lt_zero _)
        · next hnofit =>
          obtain ⟨hinv1, hrest⟩ := placeInstance_spec L cfg partId polygon rest st st1 h hinv
          refine ⟨hinv1, ?_⟩
          have hff : firstFit L cfg polygon (rotation :: rest) = firstFit L cfg polygon rest := by
            simp only [firstFit, hrot]
            rw [if_neg hnofit]
          rw [hff]
          exact hrest

end PlaceSpec
end Nesting

namespace Nesting
section PlaceAllSpec
set_option linter.unusedSectionVars false
variable {K : Type} [LinearOrderedField K] [FloorRing K]

theorem placeable_append_singleton (L : StdLib K) (cfg : NestConfig K) (angles : List K)
    (done : List (String × Polygon K)) (inst : String × Polygon K) :
    placeable L cfg angles (done ++ [inst])
      = placeable L cfg angles done
          ++ (if (firstFit L cfg inst.2 angles).isSome then [inst] else []) := by
  unfold placeable
  rw [List.filter_append]
  by_cases h : (firstFit L cfg inst.2 angles).isSome
  · simp [h]
  · simp [h]

/-- The record of an attempt grows by one entry when an instance is placed. -/
theorem recorded_snoc (L : StdLib K) (cfg : NestConfig K) (angles : List K)
    (pl : List (Placement K)) (pd : List (String × Polygon K)) (q : Placement K)
    (inst : String × Polygon K) (hlen : pl.length = pd.length)
    (hrec : ∀ (i : Nat) (q1 : Placement K) (inst1 : String × Polygon K),
      pl[i]? = some q1 → pd[i]? = some inst1 → Recorded L cfg angles (pl.take i) inst1 q1)
    (hq : Recorded L cfg angles pl inst q) :
    ∀ (i : Nat) (q1 : Placement K) (inst1 : String × Polygon K),
      (pl ++ [q])[i]? = some q1 → (pd ++ [inst])[i]? = some inst1 →
      Recorded L cfg angles ((pl ++ [q]).take i) inst1 q1 := by
  intro i q1 inst1 h1 h2
  rcases Nat.lt_or_ge i pl.length with hlt | hge
  · rw [List.getElem?_append_left hlt] at h1
    rw [List.getElem?_append_left (by omega)] at h2
    rw [List.take_append_of_le_length (by omega)]
    exact hrec i q1 inst1 h1 h2
  · rw [List.getElem?_append_right hge] at h1
    rw [List.getElem?_append_right (by omega)] at h2
    have hi0 : i - pl.length = 0 := by
      by_contra hne
      obtain ⟨m, hm⟩ := Nat.exists_eq_succ_of_ne_zero hne
      rw [hm] at h1
      simp at h1
    have hi : i = pl.length := by omega
    rw [hi0] at h1
    rw [← hlen, hi0] at h2
    simp only [List.getElem?_cons_zero, Option.some.injEq] at h1 h2
    subst h1 h2
    rw [hi, List.take_left]
    exact hq

/-- The record of an attempt: after the loop over the instances, the placements are matched one
to one, in order, with the instances that fit at some angle, and every placement is recorded
as `Recorded` says with respect to the placements before it. -/
theorem placeAll_spec (L : StdLib K) (cfg : NestConfig K) (angles : List K) :
    ∀ (rest : List (String × Polygon K)) (st st1 : AttemptState K)
      (done : List (String × Polygon K)),
      placeAll L cfg angles rest st = some st1 → OccupancyMatches st →
      st.placements.length = (placeable L cfg angles done).length →
      (∀ (i : Nat) (q : Placement K) (inst : String × Polygon K),
        st.placements[i]? = some q → (placeable L cfg angles done)[i]? = some inst →
        Recorded L cfg angles (st.placements.take i) inst q) →
      OccupancyMatches st1 ∧
        st1.placements.length = (placeable L cfg angles (done ++ rest)).length ∧
        ∀ (i : Nat) (q : Placement K) (inst : String × Polygon K),
          st1.placements[i]? = some q →
          (placeable L cfg angles (done ++ rest))[i]? = some inst →
          Recorded L cfg angles (st1.placements.take i) inst q
  | [], st, st1, done, h, hinv, hlen, hrec => by
    simp only [placeAll, Option.some.injEq] at h
    subst h
    rw [List.append_nil]
    exact ⟨hinv, hlen, hrec⟩
  | inst :: rest, st, st1, done, h, hinv, hlen, hrec => by
    unfold placeAll at h
    cases hp : placeInstance L cfg inst.1 inst.2 angles st with
    | none => rw [hp] at h; simp at h
    | some st2 =>
      rw [hp] at h
      simp only at h
      obtain ⟨hinv2, hstep⟩ := placeInstance_spec L cfg inst.1 inst.2 angles st st2 hp hinv
      have e : done ++ inst :: rest = (done ++ [inst]) ++ rest := by simp
      rw [e]
      apply placeAll_spec L cfg angles rest st2 st1 (done ++ [inst]) h hinv2
      · rw [placeable_append_singleton]
        rcases hstep with ⟨hnone, hsame⟩ | ⟨q, rot, hsome, happ, _, _, _⟩
        · rw [hnone, hsame]; simpa using hlen
        · rw [hsome, happ]; simp [hlen]
      · rw [placeable_append_singleton]
        rcases hstep with ⟨hnone, hsame⟩ | ⟨q, rot, hsome, happ, hid, hrot, hplaced⟩
        · rw [hnone, hsame]
          simpa using hrec
        · rw [hsome, happ]
          simp only [Option.isSome_some, if_true]
          exact recorded_snoc L cfg angles st.placements _ q inst hlen hrec
            ⟨hid, hsome, rot, hrot, hplaced⟩

/-- The ids and angles recorded by an attempt: those of the instances that fit at some angle,
each with the first angle at which it fits, in the order of the instances. -/
theorem placeAll_rotations (L : StdLib K) (cfg : NestConfig K) (angles : List K) :
    ∀ (rest : List (String × Polygon K)) (st st1 : AttemptState K),
      placeAll L cfg angles rest st = some st1 → OccupancyMatches st →
      st1.placements.map (fun q => (q.partId, q.rotation))
        = st.placements.map (fun q => (q.partId, q.rotation))
          ++ rest.filterMap fun inst => (firstFit L cfg inst.2 angles).map fun r => (inst.1, r)
  | [], st, st1, h, _ => by
    simp only [placeAll, Option.some.injEq] at h
    subst h
    simp
  | inst :: rest, st, st1, h, hinv => by
    unfold placeAll at h
    cases hp : placeInstance L cfg inst.1 inst.2 angles st with
    | none => rw [hp] at h; simp at h
    | some st2 =>
      rw [hp] at h
      simp only at h
      obtain ⟨hinv2, hstep⟩ := placeInstance_spec L cfg inst.1 inst.2 angles st st2 hp hinv
      rw [placeAll_rotations L cfg angles rest st2 st1 h hinv2]
      rcases hstep with ⟨hnone, hsame⟩ | ⟨q, rot, hsome, happ, hid, _, _⟩
      · rw [hsame, List.filterMap_cons, hnone]
        rfl
      · rw [happ, List.filterMap_cons, hsome]
        simp [hid]

theorem occupancyMatches_empty : OccupancyMatches (⟨[], []⟩ : AttemptState K) := by
  refine ⟨?_, rfl⟩
  intro s occ hs
  simp at hs

/-- The record of a whole attempt on the order `expanded`. -/
theorem runAttempt_recorded (L : StdLib K) (cfg : NestConfig K)
    (expanded : List (String × Polygon K)) (att : AttemptState K)
    (h : runAttempt L cfg expanded = some att) :
    att.placements.length = (placeable L cfg (rotationAngles L cfg) expanded).length ∧
      ∀ (i : Nat) (q : Placement K) (inst : String × Polygon K),
        att.placements[i]? = some q →
        (placeable L cfg (rotationAngles L cfg) expanded)[i]? = some inst →
        Recorded L cfg (rotationAngles L cfg) (att.placements.take i) inst q := by
  have := placeAll_spec L cfg (rotationAngles L cfg) expanded ⟨[], []⟩ att [] h
    occupancyMatches_empty rfl (by intro i q inst hq; simp at hq)
  simpa using this.2

end PlaceAllSpec
end Nesting

namespace Nesting
section PlacementClaims
set_option linter.unusedSectionVars false
variable {K : Type} [LinearOrderedField K] [FloorRing K]

theorem firstFit_mem (L : StdLib K) (cfg : NestConfig K) (polygon : Polygon K) :
    ∀ (angles : List K) (r : K), firstFit L cfg polygon angles = some r → r ∈ angles
  | [], r, h => by simp [firstFit] at h
  | angle :: rest, r, h => by
    unfold firstFit at h
    cases hrot : polygon.rotated L angle with
    | none => rw [hrot] at h; simp at h
    | some rot =>
      rw [hrot] at h
      simp only at h
      split at h
      · simp only [Option.some.injEq] at h
        rw [← h]; exact List.mem_cons_self _ _
      · exact List.mem_cons_of_mem _ (firstFit_mem L cfg polygon rest r h)

theorem collides_anchorsOn_true (partW partH x y : K) (earlier : List (Placement K)) (s : Nat) :
    collides partW partH x y (anchorsOn earlier s) = true ↔
      ∃ q0 ∈ earlier, q0.sheetIndex = s ∧ |x - q0.x| < partW ∧ |y - q0.y| < partH := by
  rw [collides_eq_true_iff]
  constructor
  · rintro ⟨o, ho, h1, h2⟩
    obtain ⟨q0, hq0, hs, rfl⟩ := (mem_anchorsOn earlier s o).mp ho
    exact ⟨q0, hq0, hs, h1, h2⟩
  · rintro ⟨q0, hq0, hs, h1, h2⟩
    exact ⟨(q0.x, q0.y), (mem_anchorsOn earlier s _).mpr ⟨q0, hq0, hs, rfl⟩, h1, h2⟩

theorem collides_anchorsOn_false (partW partH x y : K) (earlier : List (Placement K)) (s : Nat) :
    collides partW partH x y (anchorsOn earlier s) = false ↔
      ∀ q0 ∈ earlier, q0.sheetIndex = s → partW ≤ |x - q0.x| ∨ partH ≤ |y - q0.y| := by
  rw [collides_eq_false_iff]
  constructor
  · intro h q0 hq0 hs
    exact h (q0.x, q0.y) ((mem_anchorsOn earlier s _).mpr ⟨q0, hq0, hs, rfl⟩)
  · intro h o ho
    obtain ⟨q0, hq0, hs, rfl⟩ := (mem_anchorsOn earlier s o).mp ho
    exact h q0 hq0 hs

/-- C17. Placed footprints stay on the sheet: in every attempt (the placement loop run on any
order of instances), the recorded placements correspond one to one, in order, to the instances
that fit at some generated angle, and for every recorded placement `q` of an instance with
polygon `p`, with `padW = width(rotated(p, q.rotation)) + spacing` and
`padH = height(rotated(p, q.rotation)) + spacing`: `q.x ≥ 0`, `q.y ≥ 0`,
`q.x + padW ≤ sheetWidth`, `q.y + padH ≤ sheetHeight`, and `q.x` and `q.y` are natural
multiples of the grid step 10. -/
theorem placed_footprints_on_sheet (L : StdLib K) (cfg : NestConfig K)
    (expanded : List (String × Polygon K)) (att : AttemptState K)
    (h : runAttempt L cfg expanded = some att) :
    att.placements.length = (placeable L cfg (rotationAngles L cfg) expanded).length ∧
      ∀ (i : Nat) (q : Placement K) (inst : String × Polygon K),
        att.placements[i]? = some q →
        (placeable L cfg (rotationAngles L cfg) expanded)[i]? = some inst →
        q.partId = inst.1 ∧ q.rotation ∈ rotationAngles L cfg ∧
        ∃ rot, inst.2.rotated L q.rotation = some rot ∧
          0 ≤ q.x ∧ 0 ≤ q.y ∧
          q.x + (rot.width + cfg.spacing) ≤ cfg.sheetWidth ∧
          q.y + (rot.height + cfg.spacing) ≤ cfg.sheetHeight ∧
          ∃ a b : Nat, q.x = 10 * (a : K) ∧ q.y = 10 * (b : K) := by
  obtain ⟨hlen, hrec⟩ := runAttempt_recorded L cfg expanded att h
  refine ⟨hlen, ?_⟩
  intro i q inst hq hinst
  obtain ⟨hid, hff, rot, hrot, a, b, hx, hy, hxin, hyin, _⟩ := hrec i q inst hq hinst
  have h10 : (0 : K) < gridStep := gridStep_pos
  refine ⟨hid, firstFit_mem L cfg inst.2 _ _ hff, rot, hrot, ?_, ?_, hxin, hyin, a, b, hx, hy⟩
  · rw [hx]; exact mul_nonneg h10.le (Nat.cast_nonneg _)
  · rw [hy]; exact mul_nonneg h10.le (Nat.cast_nonneg _)

/-- C18. Anchor-proximity separation: in every attempt, for every recorded placement `q` of
an instance with padded footprint `padW` by `padH` (at the recorded rotation) and every placement
`q0` recorded before it on the same sheet, `|q.x - q0.x| ≥ padW` or `|q.y - q0.y| ≥ padH`;
moreover on every sheet created before the sheet of `q` every grid point within the sheet is in
conflict with a placement recorded before `q` on that sheet, and on the sheet of `q` so is every
grid point within the sheet that comes before the anchor of `q` in row-major order (`y` outer,
`x` inner, step 10). -/
theorem anchor_proximity_separation (L : StdLib K) (cfg : NestConfig K)
    (expanded : List (String × Polygon K)) (att : AttemptState K)
    (h : runAttempt L cfg expanded = some att) :
    ∀ (i : Nat) (q : Placement K) (inst : String × Polygon K),
      att.placements[i]? = some q →
      (placeable L cfg (rotationAngles L cfg) expanded)[i]? = some inst →
      ∃ rot, inst.2.rotated L q.rotation = some rot ∧
        (∀ q0 ∈ att.placements.take i, q0.sheetIndex = q.sheetIndex →
          rot.width + cfg.spacing ≤ |q.x - q0.x| ∨ rot.height + cfg.spacing ≤ |q.y - q0.y|) ∧
        (∀ s a1 b1 : Nat, s < q.sheetIndex →
          10 * (a1 : K) + (rot.width + cfg.spacing) ≤ cfg.sheetWidth →
          10 * (b1 : K) + (rot.height + cfg.spacing) ≤ cfg.sheetHeight →
          ∃ q0 ∈ att.placements.take i, q0.sheetIndex = s ∧
            |10 * (a1 : K) - q0.x| < rot.width + cfg.spacing ∧
            |10 * (b1 : K) - q0.y| < rot.height + cfg.spacing) ∧
        ∃ a b : Nat, q.x = 10 * (a : K) ∧ q.y = 10 * (b : K) ∧
          ∀ a1 b1 : Nat, (b1 < b ∨ (b1 = b ∧ a1 < a)) →
            10 * (a1 : K) + (rot.width + cfg.spacing) ≤ cfg.sheetWidth →
            10 * (b1 : K) + (rot.height + cfg.spacing) ≤ cfg.sheetHeight →
            ∃ q0 ∈ att.placements.take i, q0.sheetIndex = q.sheetIndex ∧
              |10 * (a1 : K) - q0.x| < rot.width + cfg.spacing ∧
              |10 * (b1 : K) - q0.y| < rot.height + cfg.spacing := by
  obtain ⟨_, hrec⟩ := runAttempt_recorded L cfg expanded att h
  intro i q inst hq hinst
  obtain ⟨_, _, rot, hrot, a, b, hx, hy, _, _, _, hfree, hsheets, hrm⟩ := hrec i q inst hq hinst
  refine ⟨rot, hrot, (collides_anchorsOn_false _ _ _ _ _ _).mp hfree, ?_, a, b, hx, hy, ?_⟩
  · intro s a1 b1 hs hin1 hin2
    exact (collides_anchorsOn_true _ _ _ _ _ _).mp (hsheets s a1 b1 hs hin1 hin2)
  · intro a1 b1 hlt hin1 hin2
    exact (collides_anchorsOn_true _ _ _ _ _ _).mp (hrm a1 b1 hlt hin1 hin2)

end PlacementClaims

/-- The attempt on a thin triangle `B`, a 50 by 50 square `A`, a 200 by 200 square `C` and a
30 by 30 square `D` on a 100 by 100 sheet: `C` fits at no angle, the others are placed at
`(0, 0)`, `(50, 0)` and `(0, 30)` of sheet 0. -/
theorem placed_footprints_on_sheet_witness :
    runAttempt ratLib ⟨100, 100, 0, 1, 3, 1, 1⟩
        [("B", ⟨[0, 0, 100, 100, 100, 96]⟩), ("A", square 0 0 50), ("C", square 0 0 200),
         ("D", square 0 0 30)]
      = some ⟨[⟨"B", 0, 0, 0, 0⟩, ⟨"A", 0, 50, 0, 0⟩, ⟨"D", 0, 0, 30, 0⟩],
              [[(0, 0), (50, 0), (0, 30)]]⟩ ∧
    ([⟨"B", 0, 0, 0, 0⟩, ⟨"A", 0, 50, 0, 0⟩, ⟨"D", 0, 0, 30, 0⟩] : List (Placement ℚ)).length
      = (placeable ratLib ⟨100, 100, 0, 1, 3, 1, 1⟩ (rotationAngles ratLib ⟨100, 100, 0, 1, 3, 1, 1⟩)
          [("B", ⟨[0, 0, 100, 100, 100, 96]⟩), ("A", square 0 0 50), ("C", square 0 0 200),
           ("D", square 0 0 30)]).length :=
  ⟨by decide!,
    (placed_footprints_on_sheet ratLib ⟨100, 100, 0, 1, 3, 1, 1⟩
      [("B", ⟨[0, 0, 100, 100, 100, 96]⟩), ("A", square 0 0 50), ("C", square 0 0 200),
       ("D", square 0 0 30)]
      ⟨[⟨"B", 0, 0, 0, 0⟩, ⟨"A", 0, 50, 0, 0⟩, ⟨"D", 0, 0, 30, 0⟩], [[(0, 0), (50, 0), (0, 30)]]⟩
      (by decide!)).1⟩

/-- The third placement `D` at `(0, 30)` of the same attempt: it keeps its distance from the
two placements before it, and the grid points before `(0, 30)` are in conflict. -/
theorem anchor_proximity_separation_witness :
    ∃ rot, (square (0 : ℚ) 0 30).rotated ratLib 0 = some rot ∧
      (∀ q0 ∈ ([⟨"B", 0, 0, 0, 0⟩, ⟨"A", 0, 50, 0, 0⟩, ⟨"D", 0, 0, 30, 0⟩] :
            List (Placement ℚ)).take 2,
          q0.sheetIndex = 0 → rot.width + 0 ≤ |0 - q0.x| ∨ rot.height + 0 ≤ |30 - q0.y|) ∧
      (∀ s a1 b1 : Nat, s < 0 →
        10 * (a1 : ℚ) + (rot.width + 0) ≤ 100 → 10 * (b1 : ℚ) + (rot.height + 0) ≤ 100 →
        ∃ q0 ∈ ([⟨"B", 0, 0, 0, 0⟩, ⟨"A", 0, 50, 0, 0⟩, ⟨"D", 0, 0, 30, 0⟩] :
            List (Placement ℚ)).take 2,
          q0.sheetIndex = s ∧ |10 * (a1 : ℚ) - q0.x| < rot.width + 0 ∧
            |10 * (b1 : ℚ) - q0.y| < rot.height + 0) ∧
      ∃ a b : Nat, (0 : ℚ) = 10 * (a : ℚ) ∧ (30 : ℚ) = 10 * (b : ℚ) ∧
        ∀ a1 b1 : Nat, (b1 < b ∨ (b1 = b ∧ a1 < a)) →
          10 * (a1 : ℚ) + (rot.width + 0) ≤ 100 → 10 * (b1 : ℚ) + (rot.height + 0) ≤ 100 →
          ∃ q0 ∈ ([⟨"B", 0, 0, 0, 0⟩, ⟨"A", 0, 50, 0, 0⟩, ⟨"D", 0, 0, 30, 0⟩] :
              List (Placement ℚ)).take 2,
            q0.sheetIndex = 0 ∧ |10 * (a1 : ℚ) - q0.x| < rot.width + 0 ∧
              |10 * (b1 : ℚ) - q0.y| < rot.height + 0 :=
  anchor_proximity_separation ratLib ⟨100, 100, 0, 1, 3, 1, 1⟩
    [("B", ⟨[0, 0, 100, 100, 100, 96]⟩), ("A", square 0 0 50), ("C", square 0 0 200),
     ("D", square 0 0 30)]
    ⟨[⟨"B", 0, 0, 0, 0⟩, ⟨"A", 0, 50, 0, 0⟩, ⟨"D", 0, 0, 30, 0⟩], [[(0, 0), (50, 0), (0, 30)]]⟩
    (by decide!) 2 ⟨"D", 0, 0, 30, 0⟩ ("D", square 0 0 30) (by decide!) (by decide!)

end Nesting

namespace Nesting
section RotationChoice
set_option linter.unusedSectionVars false
variable {K : Type} [LinearOrderedField K] [FloorRing K]

theorem rotated_even (L : StdLib K) (p q : Polygon K) (a : K) (h : p.rotated L a = some q) :
    p.points.length % 2 = 0 := by
  rw [Polygon.rotated, rotatePoints_eq_mapPairs] at h
  cases hout : mapPairs
      (fun px py => (px - (p.minX + p.maxX) / 2) * L.cos a - (py - (p.minY + p.maxY) / 2) * L.sin a
        + (p.minX + p.maxX) / 2)
      (fun px py => (px - (p.minX + p.maxX) / 2) * L.sin a + (py - (p.minY + p.maxY) / 2) * L.cos a
        + (p.minY + p.maxY) / 2) p.points with
  | none => rw [hout] at h; simp at h
  | some out => exact (mapPairs_spec _ _ _ _ hout).2.1

/-- The meaning of `firstFit`: the angle list splits at the returned angle, the polygon fits at
it, and it fits at none of the angles before it. -/
theorem firstFit_eq_some_iff (L : StdLib K) (cfg : NestConfig K) (polygon : Polygon K) :
    ∀ (angles : List K) (r : K), firstFit L cfg polygon angles = some r ↔
      ∃ pre post rot, angles = pre ++ r :: post ∧ polygon.rotated L r = some rot ∧
        (rot.width + cfg.spacing ≤ cfg.sheetWidth ∧
          rot.height + cfg.spacing ≤ cfg.sheetHeight) ∧
        ∀ r1 ∈ pre, ∀ rot1, polygon.rotated L r1 = some rot1 →
          ¬ (rot1.width + cfg.spacing ≤ cfg.sheetWidth ∧
             rot1.height + cfg.spacing ≤ cfg.sheetHeight)
  | [], r => by
    constructor
    · intro h; simp [firstFit] at h
    · rintro ⟨pre, post, rot, h, _⟩
      simp at h
  | angle :: rest, r => by
    constructor
    · intro h
      unfold firstFit at h
      cases hrot : polygon.rotated L angle with
      | none => rw [hrot] at h; simp at h
      | some rot =>
        rw [hrot] at h
        simp only at h
        split at h
        · next hfits =>
          simp only [Option.some.injEq] at h
          subst h
          exact ⟨[], rest, rot, rfl, hrot, hfits, fun r1 hr1 => absurd hr1 (List.not_mem_nil _)⟩
        · next hnofit =>
          obtain ⟨pre, post, rot1, hsplit, hrot1, hfits1, hpre⟩ :=
            (firstFit_eq_some_iff L cfg polygon rest r).mp h
          refine ⟨angle :: pre, post, rot1, by rw [hsplit]; rfl, hrot1, hfits1, ?_⟩
          intro r1 hr1 rot2 hrot2
          rcases List.mem_cons.mp hr1 with rfl | hmem
          · rw [hrot] at hrot2
            simp only [Option.some.injEq] at hrot2
            subst hrot2
            exact hnofit
          · exact hpre r1 hmem rot2 hrot2
    · rintro ⟨pre, post, rot, hsplit, hrot, hfits, hpre⟩
      have heven := rotated_even L polygon rot r hrot
      obtain ⟨rot0, hrot0⟩ := rotated_some L polygon angle heven
      unfold firstFit
      rw [hrot0]
      simp only
      cases pre with
      | nil =>
        simp only [List.nil_append, List.cons.injEq] at hsplit
        obtain ⟨rfl, _⟩ := hsplit
        rw [hrot] at hrot0
        simp only [Option.some.injEq] at hrot0
        subst hrot0
        rw [if_pos hfits]
      | cons a0 pre1 =>
        simp only [List.cons_append, List.cons.injEq] at hsplit
        obtain ⟨rfl, hrest⟩ := hsplit
        rw [if_neg (hpre angle (List.mem_cons_self _ _) rot0 hrot0)]
        exact (firstFit_eq_some_iff L cfg polygon rest r).mpr
          ⟨pre1, post, rot, hrest, hrot, hfits,
            fun r1 hr1 => hpre r1 (List.mem_cons_of_mem _ hr1)⟩

theorem firstFit_isSome_of_fits (L : StdLib K) (cfg : NestConfig K) (polygon : Polygon K) :
    ∀ angles : List K,
      (∃ r ∈ angles, ∃ rot, polygon.rotated L r = some rot ∧
        rot.width + cfg.spacing ≤ cfg.sheetWidth ∧ rot.height + cfg.spacing ≤ cfg.sheetHeight) →
      ∃ r0, firstFit L cfg polygon angles = some r0
  | [], h => by
    obtain ⟨r, hr, _⟩ := h
    exact absurd hr (List.not_mem_nil _)
  | angle :: rest, h => by
    obtain ⟨r, hr, rot, hrot, hfits⟩ := h
    have heven := rotated_even L polygon rot r hrot
    obtain ⟨rot0, hrot0⟩ := rotated_some L polygon angle heven
    unfold firstFit
    rw [hrot0]
    simp only
    split
    · exact ⟨angle, rfl⟩
    · next hnofit =>
      apply firstFit_isSome_of_fits L cfg polygon rest
      rcases List.mem_cons.mp hr with rfl | hmem
      · rw [hrot] at hrot0
        simp only [Option.some.injEq] at hrot0
        subst hrot0
        exact absurd hfits hnofit
      · exact ⟨r, hmem, rot, hrot, hfits⟩

/-- An instance has a first fitting angle exactly when it fits at some generated angle. -/
theorem firstFit_isSome_iff_fits (L : StdLib K) (cfg : NestConfig K) (polygon : Polygon K) :
    (firstFit L cfg polygon (rotationAngles L cfg)).isSome ↔ Fits L cfg polygon := by
  constructor
  · intro h
    obtain ⟨r, hr⟩ := Option.isSome_iff_exists.mp h
    obtain ⟨pre, post, rot, hsplit, hrot, hfits, _⟩ :=
      (firstFit_eq_some_iff L cfg polygon _ r).mp hr
    exact ⟨r, by rw [hsplit]; simp, rot, hrot, hfits⟩
  · intro h
    obtain ⟨r0, hr0⟩ := firstFit_isSome_of_fits L cfg polygon _ h
    rw [hr0]; rfl

theorem swapAt_perm {α : Type} (v v1 : List α) (i j : Nat) (h : swapAt v i j = some v1) :
    v1.Perm v := by
  unfold swapAt at h
  rcases Nat.lt_or_ge i v.length with hi | hi
  · rcases Nat.lt_or_ge j v.length with hj | hj
    · obtain ⟨v2, hv2, hp⟩ := swapAt_some v i j hi hj
      unfold swapAt at hv2
      rw [hv2] at h
      simp only [Option.some.injEq] at h
      rw [← h]; exact hp
    · rw [List.getElem?_eq_getElem hi, List.getElem?_eq_none hj] at h
      simp at h
  · rw [List.getElem?_eq_none hi] at h
    simp at h

theorem mutateFrom_perm {α : Type} (mutationRate : K) (draws : Nat → K) :
    ∀ (i : Nat) (v : List α) (cursor : Nat) (v1 : List α) (c1 : Nat),
      mutateFrom mutationRate draws i (v, cursor) = some (v1, c1) → v1.Perm v
  | 0, v, cursor, v1, c1, h => by
    simp only [mutateFrom, Option.some.injEq, Prod.mk.injEq] at h
    rw [← h.1]
  | i + 1, v, cursor, v1, c1, h => by
    unfold mutateFrom at h
    split at h
    · simp only at h
      cases hs : swapAt v (i + 1)
          ⌊draws (cursor + 1) * (((i + 1 + 1) % sizeModulus : Nat) : K)⌋₊ with
      | none => rw [hs] at h; simp at h
      | some v2 =>
        rw [hs] at h
        exact (mutateFrom_perm mutationRate draws i v2 (cursor + 2) v1 c1 h).trans
          (swapAt_perm v v2 _ _ hs)
    · exact mutateFrom_perm mutationRate draws i v (cursor + 1) v1 c1 h

/-- Whenever the shuffle returns, its result is a rearrangement of its input. -/
theorem mutate_perm {α : Type} (mutationRate : K) (draws : Nat → K) (v : List α) (cursor : Nat)
    (v1 : List α) (c1 : Nat) (h : mutate mutationRate draws (v, cursor) = some (v1, c1)) :
    v1.Perm v :=
  mutateFrom_perm mutationRate draws _ v cursor v1 c1 h

/-- The order of every attempt is a rearrangement of the sorted instance list. -/
theorem orderAt_perm (cfg : NestConfig K) (draws : Nat → K)
    (sorted : List (String × Polygon K)) :
    ∀ (k : Nat) (e : List (String × Polygon K)) (c : Nat),
      orderAt cfg draws sorted k = some (e, c) → e.Perm sorted
  | 0, e, c, h => by
    simp only [orderAt, Option.some.injEq, Prod.mk.injEq] at h
    rw [← h.1]
  | k + 1, e, c, h => by
    rw [orderAt] at h
    cases hk : orderAt cfg draws sorted k with
    | none => rw [hk] at h; simp at h
    | some s =>
      obtain ⟨e0, c0⟩ := s
      rw [hk] at h
      exact (mutate_perm cfg.mutationRate draws e0 c0 e c h).trans
        (orderAt_perm cfg draws sorted k e0 c0 hk)

/-- The generated angles are `i * (2π / rotationSteps)` for `i` below `rotationSteps`. -/
theorem rotationAngles_eq (L : StdLib K) (cfg : NestConfig K) :
    rotationAngles L cfg = (List.range cfg.rotationSteps.toNat).map (fun (i : Nat) =>
      (i : K) * (2 * L.pi / (cfg.rotationSteps : K))) := by
  unfold rotationAngles
  generalize List.range cfg.rotationSteps.toNat = l
  induction l with
  | nil => rfl
  | cons a rest ih =>
    rw [List.map_cons, ← ih]
    rfl

/-- C19. Rotation choice and placeability are independent of order and occupancy: in every
attempt of a run, the ids and rotations recorded are, in the order of the instances, those of
the instances that have a first fitting angle, each with that angle; a polygon has a first
fitting angle exactly when there is a generated angle `r_i = i * 2π / rotationSteps` with
`width(rotated(p, r_i)) + spacing ≤ sheetWidth` and `height(rotated(p, r_i)) + spacing ≤
sheetHeight`, and the first fitting angle is the first such angle in generation order;
consequently any two attempts of one run record the same multiset of ids and rotations, and
the instances they place are the same multiset. -/
theorem rotation_choice_independent (L : StdLib K) (cfg : NestConfig K)
    (parts : List (NestPart K)) (draws : Nat → K) (k1 k2 : Nat)
    (e1 e2 : List (String × Polygon K)) (c1 c2 : Nat) (att1 att2 : AttemptState K)
    (h1 : orderAt cfg draws (L.sort areaGreater (expandParts parts)) k1 = some (e1, c1))
    (ha1 : runAttempt L cfg e1 = some att1)
    (h2 : orderAt cfg draws (L.sort areaGreater (expandParts parts)) k2 = some (e2, c2))
    (ha2 : runAttempt L cfg e2 = some att2) :
    att1.placements.map (fun q => (q.partId, q.rotation))
        = e1.filterMap (fun inst =>
            (firstFit L cfg inst.2 (rotationAngles L cfg)).map fun r => (inst.1, r)) ∧
      (∀ (polygon : Polygon K),
        ((firstFit L cfg polygon (rotationAngles L cfg)).isSome ↔
          ∃ r ∈ rotationAngles L cfg, ∃ rot, polygon.rotated L r = some rot ∧
            rot.width + cfg.spacing ≤ cfg.sheetWidth ∧
            rot.height + cfg.spacing ≤ cfg.sheetHeight) ∧
        ∀ r, firstFit L cfg polygon (rotationAngles L cfg) = some r ↔
          ∃ pre post rot, rotationAngles L cfg = pre ++ r :: post ∧
            polygon.rotated L r = some rot ∧
            (rot.width + cfg.spacing ≤ cfg.sheetWidth ∧
              rot.height + cfg.spacing ≤ cfg.sheetHeight) ∧
            ∀ r1 ∈ pre, ∀ rot1, polygon.rotated L r1 = some rot1 →
              ¬ (rot1.width + cfg.spacing ≤ cfg.sheetWidth ∧
                 rot1.height + cfg.spacing ≤ cfg.sheetHeight)) ∧
      rotationAngles L cfg
        = (List.range cfg.rotationSteps.toNat).map (fun (i : Nat) =>
            (i : K) * (2 * L.pi / (cfg.rotationSteps : K))) ∧
      (att1.placements.map fun q => (q.partId, q.rotation)).Perm
        (att2.placements.map fun q => (q.partId, q.rotation)) ∧
      (e1.filter fun inst => (firstFit L cfg inst.2 (rotationAngles L cfg)).isSome).Perm
        (e2.filter fun inst => (firstFit L cfg inst.2 (rotationAngles L cfg)).isSome) := by
  have hp : e1.Perm e2 :=
    (orderAt_perm cfg draws _ k1 e1 c1 h1).trans (orderAt_perm cfg draws _ k2 e2 c2 h2).symm
  have hm1 := placeAll_rotations L cfg (rotationAngles L cfg) e1 ⟨[], []⟩ att1 ha1
    occupancyMatches_empty
  have hm2 := placeAll_rotations L cfg (rotationAngles L cfg) e2 ⟨[], []⟩ att2 ha2
    occupancyMatches_empty
  simp only [List.map_nil, List.nil_append] at hm1 hm2
  refine ⟨hm1, ?_, rotationAngles_eq L cfg, ?_, hp.filter _⟩
  · intro polygon
    exact ⟨firstFit_isSome_iff_fits L cfg polygon, firstFit_eq_some_iff L cfg polygon _⟩
  · rw [hm1, hm2]
    exact hp.filterMap _

end RotationChoice

/-- The first and third attempts of a run on a 50 by 50 square `A`, a thin triangle `B` and a 200 by
200 square `C` that fits at no angle: the orders differ, `C` is placed in neither, and both
record `A` and `B` at rotation `0`. -/
theorem rotation_choice_independent_witness :
    orderAt ⟨100, 100, 0, 1, 3, 1, 1⟩ (fun _ => (0 : ℚ))
        (ratLib.sort areaGreater (expandParts [⟨"A", square 0 0 50, 1⟩,
          ⟨"B", ⟨[0, 0, 100, 100, 100, 96]⟩, 1⟩, ⟨"C", square 0 0 200, 1⟩])) 2
      = some ([("B", ⟨[0, 0, 100, 100, 100, 96]⟩), ("C", square 0 0 200), ("A", square 0 0 50)],
          8) ∧
    ([⟨"A", 0, 0, 0, 0⟩, ⟨"B", 1, 0, 0, 0⟩] : List (Placement ℚ)).map
        (fun q => (q.partId, q.rotation))
      = ([("C", square 0 0 200), ("A", square 0 0 50),
          ("B", ⟨[0, 0, 100, 100, 100, 96]⟩)] : List (String × Polygon ℚ)).filterMap
          (fun inst => (firstFit ratLib ⟨100, 100, 0, 1, 3, 1, 1⟩ inst.2
            (rotationAngles ratLib ⟨100, 100, 0, 1, 3, 1, 1⟩)).map fun r => (inst.1, r)) ∧
    (([⟨"A", 0, 0, 0, 0⟩, ⟨"B", 1, 0, 0, 0⟩] : List (Placement ℚ)).map
        fun q => (q.partId, q.rotation)).Perm
      (([⟨"B", 0, 0, 0, 0⟩, ⟨"A", 0, 50, 0, 0⟩] : List (Placement ℚ)).map
        fun q => (q.partId, q.rotation)) :=
  ⟨by decide!,
    (rotation_choice_independent ratLib ⟨100, 100, 0, 1, 3, 1, 1⟩
      [⟨"A", square 0 0 50, 1⟩, ⟨"B", ⟨[0, 0, 100, 100, 100, 96]⟩, 1⟩, ⟨"C", square 0 0 200, 1⟩]
      (fun _ => 0) 0 2
      [("C", square 0 0 200), ("A", square 0 0 50), ("B", ⟨[0, 0, 100, 100, 100, 96]⟩)]
      [("B", ⟨[0, 0, 100, 100, 100, 96]⟩), ("C", square 0 0 200), ("A", square 0 0 50)] 0 8
      ⟨[⟨"A", 0, 0, 0, 0⟩, ⟨"B", 1, 0, 0, 0⟩], [[(0, 0)], [(0, 0)]]⟩
      ⟨[⟨"B", 0, 0, 0, 0⟩, ⟨"A", 0, 50, 0, 0⟩], [[(0, 0), (50, 0)]]⟩
      (by decide!) (by decide!) (by decide!) (by decide!)).1,
    (rotation_choice_independent ratLib ⟨100, 100, 0, 1, 3, 1, 1⟩
      [⟨"A", square 0 0 50, 1⟩, ⟨"B", ⟨[0, 0, 100, 100, 100, 96]⟩, 1⟩, ⟨"C", square 0 0 200, 1⟩]
      (fun _ => 0) 0 2
      [("C", square 0 0 200), ("A", square 0 0 50), ("B", ⟨[0, 0, 100, 100, 100, 96]⟩)]
      [("B", ⟨[0, 0, 100, 100, 100, 96]⟩), ("C", square 0 0 200), ("A", square 0 0 50)] 0 8
      ⟨[⟨"A", 0, 0, 0, 0⟩, ⟨"B", 1, 0, 0, 0⟩], [[(0, 0)], [(0, 0)]]⟩
      ⟨[⟨"B", 0, 0, 0, 0⟩, ⟨"A", 0, 50, 0, 0⟩], [[(0, 0), (50, 0)]]⟩
      (by decide!) (by decide!) (by decide!) (by decide!)).2.2.2.1⟩

end Nesting
